import Mathlib

/-!
Verification development for the pwsafe record model and binary encoding
engine (`src/core/ItemData.cpp`).

The development shallowly embeds `CItemData` and its serialization paths.
The field store (`CItem`), the reader/writer collaborator (`PWSfile`), the
password-history sub-format (`PWHistory`) and the preference collaborator
(`PWSprefs`) are external collaborators whose sources are not part of the
embedded translation unit; they are modelled from the specification's
description of their interfaces (typed field values, tagged chunk streams,
the compact history line format, preference defaults).

Bytes are modelled as `List Nat` with each element a byte value; machine
integers are `Int`/`Nat` with explicit reductions modulo `2^w` where the
code truncates.
-/

namespace Pwsafe
set_option maxRecDepth 40000

/-- A byte string: each element is intended to lie below 256. -/
abbrev Bytes := List Nat

/-! ## Little-endian integer encodings (`putInt32` / `getInt32` etc. of Util.h) -/

/-- `putInt32`: four little-endian bytes of `n` reduced modulo `2^32`
(the `static_cast<int32>` followed by byte stores). -/
def le4 (n : Int) : Bytes :=
  let m := (n % 4294967296).toNat
  [m % 256, m / 256 % 256, m / 65536 % 256, m / 16777216 % 256]

/-- `putInt16`: two little-endian bytes of `n` reduced modulo `2^16`. -/
def le2 (n : Int) : Bytes :=
  let m := (n % 65536).toNat
  [m % 256, m / 256 % 256]

/-- Unsigned little-endian value of a byte list. -/
def leNat : Bytes → Nat
  | [] => 0
  | b :: rest => b % 256 + 256 * leNat rest

/-- `getInt32`: signed 32-bit value of the first four bytes. -/
def getInt32s (d : Bytes) : Int :=
  let u := leNat (d.take 4)
  if u < 2147483648 then (u : Int) else (u : Int) - 4294967296

/-- `getInt16`: signed 16-bit value of the first two bytes. -/
def getInt16s (d : Bytes) : Int :=
  let u := leNat (d.take 2)
  if u < 32768 then (u : Int) else (u : Int) - 65536

/-- `PWStime` encoding: 40-bit unsigned little-endian time (5 bytes), as
written by the newer format generation. -/
def le5t (t : Int) : Bytes :=
  let m := (t % 1099511627776).toNat
  [m % 256, m / 256 % 256, m / 65536 % 256, m / 16777216 % 256, m / 4294967296 % 256]

/-- `PWStime` decoding: unsigned 40-bit little-endian value. -/
def getTime5 (d : Bytes) : Int := (leNat (d.take 5) : Int)

/-! ## Hex text (`CUUID` string form and the placeholder payload) -/

/-- Lowercase hex digit character code for a value below 16. -/
def hexDigitChar (n : Nat) : Nat := if n < 10 then 48 + n else 87 + n

/-- Hex value of one character code (0 for non-hex characters). -/
def hexCharVal (c : Nat) : Nat :=
  if 48 ≤ c ∧ c ≤ 57 then c - 48
  else if 97 ≤ c ∧ c ≤ 102 then c - 87
  else 0

/-- Is this character code one of `0123456789abcdef`
(the `find_first_not_of` alphabet of `ParseSpecialPasswords`)? -/
def isHexLower (c : Nat) : Bool :=
  (48 ≤ c && c ≤ 57) || (97 ≤ c && c ≤ 102)

/-- `ToLower` on one character code (ASCII). -/
def toLowerChar (c : Nat) : Nat := if 65 ≤ c ∧ c ≤ 90 then c + 32 else c

/-- Modelled from the spec: the `CUUID` → string conversion used when a
dependency link is encoded in the password field — the 32-character
lowercase hex rendering of the 16 id bytes (`UUID.cpp` is not part of the
embedded sources; §4.2 fixes the token's payload as 32 lowercase hex
characters). -/
def hexEncode (b : Bytes) : Bytes :=
  b.flatMap (fun x => [hexDigitChar (x / 16), hexDigitChar (x % 16)])

/-- Modelled from the spec: the `CUUID(const char*)` constructor used by
`ParseSpecialPasswords` — parse 32 hex characters into 16 id bytes. -/
def hexDecode : Bytes → Bytes
  | a :: b :: rest => (hexCharVal a * 16 + hexCharVal b) :: hexDecode rest
  | _ => []

/-! ## Field-tag registry (`CItem::FieldType` of ItemData.h)

Modelled from the spec: "Field tags are single bytes; a fixed registry (not
reproduced here) maps each tag to its semantic type" (§6). The header that
declares the enum is not among the embedded sources; the constructor set is
exactly the set of tags the embedded `ItemData.cpp` manipulates, with the
documented byte values of the pwsafe on-disk format. `ENTRYSIZE` and
`PASSWORDLEN` are the two derived virtual tags of the matcher (§4.5), which
never appear on the wire. -/

inductive FieldType where
  | NAME | UUID | GROUP | TITLE | USER | NOTES | PASSWORD
  | CTIME | PMTIME | ATIME | XTIME | RESERVED | RMTIME
  | URL | AUTOTYPE | PWHIST | POLICY | XTIME_INT | RUNCMD
  | DCA | EMAIL | PROTECTED | SYMBOLS | SHIFTDCA | POLICYNAME
  | KBSHORTCUT | ATTREF | TWOFACTORKEY
  | TOTPCONFIG | TOTPLENGTH | TOTPTIMESTEP | TOTPSTARTTIME
  | DATA_ATT_TITLE | DATA_ATT_MEDIATYPE | DATA_ATT_FILENAME
  | DATA_ATT_MTIME | DATA_ATT_CONTENT
  | PASSKEY_CRED_ID | PASSKEY_RP_ID | PASSKEY_USER_HANDLE | PASSKEY_ALGO_ID
  | PASSKEY_PRIVATE_KEY | PASSKEY_SIGN_COUNT
  | BASEUUID | ALIASUUID | SHORTCUTUUID
  | ENTRYSIZE | PASSWORDLEN
  | END
  deriving DecidableEq

/-- Byte value of each field tag in the registry. -/
def fieldCode : FieldType → Nat
  | .NAME => 0x00 | .UUID => 0x01 | .GROUP => 0x02 | .TITLE => 0x03
  | .USER => 0x04 | .NOTES => 0x05 | .PASSWORD => 0x06 | .CTIME => 0x07
  | .PMTIME => 0x08 | .ATIME => 0x09 | .XTIME => 0x0a | .RESERVED => 0x0b
  | .RMTIME => 0x0c | .URL => 0x0d | .AUTOTYPE => 0x0e | .PWHIST => 0x0f
  | .POLICY => 0x10 | .XTIME_INT => 0x11 | .RUNCMD => 0x12 | .DCA => 0x13
  | .EMAIL => 0x14 | .PROTECTED => 0x15 | .SYMBOLS => 0x16 | .SHIFTDCA => 0x17
  | .POLICYNAME => 0x18 | .KBSHORTCUT => 0x19 | .ATTREF => 0x1a
  | .TWOFACTORKEY => 0x1b | .TOTPCONFIG => 0x1c | .TOTPLENGTH => 0x1d
  | .TOTPTIMESTEP => 0x1e | .TOTPSTARTTIME => 0x1f
  | .DATA_ATT_TITLE => 0x20 | .DATA_ATT_MEDIATYPE => 0x21
  | .DATA_ATT_FILENAME => 0x22 | .DATA_ATT_MTIME => 0x23
  | .DATA_ATT_CONTENT => 0x24
  | .PASSKEY_CRED_ID => 0x25 | .PASSKEY_RP_ID => 0x26
  | .PASSKEY_USER_HANDLE => 0x27 | .PASSKEY_ALGO_ID => 0x28
  | .PASSKEY_PRIVATE_KEY => 0x29 | .PASSKEY_SIGN_COUNT => 0x2a
  | .BASEUUID => 0x41 | .ALIASUUID => 0x42 | .SHORTCUTUUID => 0x43
  | .ENTRYSIZE => 0x101 | .PASSWORDLEN => 0x104
  | .END => 0xff

/-- Inverse of the registry for the wire tags (`static_cast<FieldType>` on a
stream byte). Virtual tags and unassigned bytes have no decoding. -/
def decodeTag (t : Nat) : Option FieldType :=
  if t = 0x00 then some .NAME else if t = 0x01 then some .UUID
  else if t = 0x02 then some .GROUP else if t = 0x03 then some .TITLE
  else if t = 0x04 then some .USER else if t = 0x05 then some .NOTES
  else if t = 0x06 then some .PASSWORD else if t = 0x07 then some .CTIME
  else if t = 0x08 then some .PMTIME else if t = 0x09 then some .ATIME
  else if t = 0x0a then some .XTIME else if t = 0x0b then some .RESERVED
  else if t = 0x0c then some .RMTIME else if t = 0x0d then some .URL
  else if t = 0x0e then some .AUTOTYPE else if t = 0x0f then some .PWHIST
  else if t = 0x10 then some .POLICY else if t = 0x11 then some .XTIME_INT
  else if t = 0x12 then some .RUNCMD else if t = 0x13 then some .DCA
  else if t = 0x14 then some .EMAIL else if t = 0x15 then some .PROTECTED
  else if t = 0x16 then some .SYMBOLS else if t = 0x17 then some .SHIFTDCA
  else if t = 0x18 then some .POLICYNAME else if t = 0x19 then some .KBSHORTCUT
  else if t = 0x1a then some .ATTREF else if t = 0x1b then some .TWOFACTORKEY
  else if t = 0x1c then some .TOTPCONFIG else if t = 0x1d then some .TOTPLENGTH
  else if t = 0x1e then some .TOTPTIMESTEP else if t = 0x1f then some .TOTPSTARTTIME
  else if t = 0x20 then some .DATA_ATT_TITLE else if t = 0x21 then some .DATA_ATT_MEDIATYPE
  else if t = 0x22 then some .DATA_ATT_FILENAME else if t = 0x23 then some .DATA_ATT_MTIME
  else if t = 0x24 then some .DATA_ATT_CONTENT
  else if t = 0x25 then some .PASSKEY_CRED_ID else if t = 0x26 then some .PASSKEY_RP_ID
  else if t = 0x27 then some .PASSKEY_USER_HANDLE else if t = 0x28 then some .PASSKEY_ALGO_ID
  else if t = 0x29 then some .PASSKEY_PRIVATE_KEY else if t = 0x2a then some .PASSKEY_SIGN_COUNT
  else if t = 0x41 then some .BASEUUID else if t = 0x42 then some .ALIASUUID
  else if t = 0x43 then some .SHORTCUTUUID
  else if t = 0xff then some .END
  else none

/-- Modelled from the spec: `IsItemDataField` of ItemData.h — the wire tags
this record kind recognizes as its own typed fields. -/
def isItemDataCode (t : Nat) : Bool :=
  (0x01 ≤ t && t ≤ 0x2a) || (0x41 ≤ t && t ≤ 0x43)

/-- Modelled from the spec: `IsItemAttField` of ItemAtt.h — tags belonging to
an attachment record, whose appearance mid-stream triggers the rewind-and-
reinterpret early return of `CItemData::Read` (§4.3). -/
def isItemAttCode (t : Nat) : Bool :=
  0x60 ≤ t && t ≤ 0x6b

/-! ## Typed field values and the record

Modelled from the spec: the Field Store collaborator (`CItem`, §2 "assumed as
an existing collaborator") — "a byte sequence tagged with a semantic type
(text, UUID, time, 16-bit integer, 32-bit integer, single byte, opaque
binary)" (§3). Text is kept as its UTF-8 payload bytes; the wide-char ↔
UTF-8 conversion pair of `WriteIfSet`/`SetTextField` is modelled as the
identity on payloads. -/

inductive FieldVal where
  | txt (s : Bytes)
  | uuid (b : Bytes)
  | tm (t : Int)
  | i32 (n : Int)
  | i16 (n : Int)
  | byte (b : Nat)
  | bin (s : Bytes)
  deriving DecidableEq

/-- Raw stored bytes of a typed value (what `CItem::GetField` yields into a
caller buffer). -/
def FieldVal.raw : FieldVal → Bytes
  | .txt s => s
  | .uuid b => b
  | .tm t => le4 t ++ le4 (t / 4294967296)
  | .i32 n => le4 n
  | .i16 n => le2 n
  | .byte b => [b]
  | .bin s => s

inductive EntryType where
  | ET_NORMAL | ET_ALIASBASE | ET_SHORTCUTBASE | ET_ALIAS | ET_SHORTCUT
  deriving DecidableEq

inductive EntryStatus where
  | ES_CLEAN | ES_ADDED | ES_MODIFIED | ES_DELETED
  deriving DecidableEq

/-- The entry record: field store, preserved unknown fields, kind and
status metadata (`CItemData`). -/
structure Record where
  fields : List (FieldType × FieldVal)
  urfl : List (Nat × Bytes)
  entrytype : EntryType
  entrystatus : EntryStatus
  deriving DecidableEq

/-- `m_fields.find(ft)`: look a field up in the store. -/
def findF : List (FieldType × FieldVal) → FieldType → Option FieldVal
  | [], _ => none
  | (k, v) :: rest, ft => if k = ft then some v else findF rest ft

/-- Store a field, replacing any existing value under the same tag
(`CItem::SetField`). -/
def updF : List (FieldType × FieldVal) → FieldType → FieldVal →
    List (FieldType × FieldVal)
  | [], ft, v => [(ft, v)]
  | (k, w) :: rest, ft, v =>
    if k = ft then (ft, v) :: rest else (k, w) :: updF rest ft v

/-- Remove a field from the store (`m_fields.erase` / `CItem::ClearField`). -/
def eraseF : List (FieldType × FieldVal) → FieldType →
    List (FieldType × FieldVal)
  | [], _ => []
  | (k, w) :: rest, ft =>
    if k = ft then eraseF rest ft else (k, w) :: eraseF rest ft

def Record.getF (r : Record) (ft : FieldType) : Option FieldVal :=
  findF r.fields ft

def Record.setF (r : Record) (ft : FieldType) (v : FieldVal) : Record :=
  { r with fields := updF r.fields ft v }

def Record.clearField (r : Record) (ft : FieldType) : Record :=
  { r with fields := eraseF r.fields ft }

/-- `CItem::IsFieldSet`. -/
def Record.isFieldSet (r : Record) (ft : FieldType) : Bool :=
  (r.getF ft).isSome

/-- `CItemData::Clear()` (line 90): clear all fields, reset kind and status. -/
def clearedRecord : Record :=
  { fields := [], urfl := [], entrytype := .ET_NORMAL, entrystatus := .ES_CLEAN }

/-- `SetUnknownField`: append an unrecognized (tag, bytes) pair to the
preserved unknown-field list. -/
def Record.addUnknown (r : Record) (t : Nat) (d : Bytes) : Record :=
  { r with urfl := r.urfl ++ [(t, d)] }

/-! ## Entry-kind helpers and accessors (`ItemData.h` inline predicates,
`ItemData.cpp` accessors) -/

/-- `IsDependent()`: alias or shortcut. -/
def Record.isDependent (r : Record) : Bool :=
  r.entrytype = .ET_ALIAS || r.entrytype = .ET_SHORTCUT

def Record.isAlias (r : Record) : Bool := r.entrytype = .ET_ALIAS

def Record.isShortcut (r : Record) : Bool := r.entrytype = .ET_SHORTCUT

def Record.isNormal (r : Record) : Bool := r.entrytype = .ET_NORMAL

/-- `IsBase()`: alias base or shortcut base. -/
def Record.isBase (r : Record) : Bool :=
  r.entrytype = .ET_ALIASBASE || r.entrytype = .ET_SHORTCUTBASE

/-- The id slot the current kind selects (the `switch (m_entrytype)` of
`CItemData::GetUUID`, lines 641-655). -/
def slotOfKind : EntryType → FieldType
  | .ET_NORMAL => .UUID
  | .ET_ALIASBASE => .UUID
  | .ET_SHORTCUTBASE => .UUID
  | .ET_ALIAS => .ALIASUUID
  | .ET_SHORTCUT => .SHORTCUTUUID

/-- `CItemData::GetUUID(uuid_array_t&, FieldType)` (lines 634-663): read the
16 id bytes from the given slot, or from the slot matching the entry kind
when `ft = END`; an unpopulated slot yields the all-zero id. -/
def Record.getUUIDbytes (r : Record) (ft : FieldType) : Bytes :=
  let slot := if ft = .END then slotOfKind r.entrytype else ft
  match r.getF slot with
  | none => List.replicate 16 0
  | some v => v.raw

/-- `CItemData::HasUUID()` (lines 139-146). -/
def Record.hasUUID (r : Record) : Bool :=
  ((r.entrytype = .ET_NORMAL || r.entrytype = .ET_ALIASBASE ||
      r.entrytype = .ET_SHORTCUTBASE) && r.isFieldSet .UUID) ||
  (r.entrytype = .ET_ALIAS && r.isFieldSet .ALIASUUID) ||
  (r.entrytype = .ET_SHORTCUT && r.isFieldSet .SHORTCUTUUID)

/-- `CItem::GetField(ft)` as a string: the stored payload, empty when the
field is unset. -/
def Record.getFieldStr (r : Record) (ft : FieldType) : Bytes :=
  match r.getF ft with
  | none => []
  | some v => v.raw

/-- `GetPassword()`. -/
def Record.getPassword (r : Record) : Bytes := r.getFieldStr .PASSWORD

/-- `SetPassword` / `CItem::SetField(PASSWORD, ...)`. -/
def Record.setPassword (r : Record) (s : Bytes) : Record := r.setF .PASSWORD (.txt s)

/-- `SetUUID(uuid, ft)` (line 1458): store 16 id bytes under the given slot. -/
def Record.setUUID (r : Record) (b : Bytes) (ft : FieldType) : Record :=
  r.setF ft (.uuid b)

/-- `CItem::GetTime`: the stored time value, `0` when unset. -/
def Record.getTimeV (r : Record) (ft : FieldType) : Int :=
  match r.getF ft with
  | some (.tm t) => t
  | _ => 0

/-- `CItem::SetTime`. -/
def Record.setTimeV (r : Record) (ft : FieldType) (t : Int) : Record :=
  r.setF ft (.tm t)

/-- `GetXTimeInt` (lines 684-702): `0` when unset. -/
def Record.getXTimeInt (r : Record) : Int :=
  match r.getF .XTIME_INT with
  | some (.i32 n) => n
  | _ => 0

/-- `GetKBShortcut` (lines 780-797): `0` when unset. -/
def Record.getKBShortcut (r : Record) : Int :=
  match r.getF .KBSHORTCUT with
  | some (.i32 n) => n
  | _ => 0

/-- `GetDCA` (lines 752-769): `-1` when unset. -/
def Record.getDCA (r : Record) (bShift : Bool) : Int :=
  match r.getF (if bShift then .SHIFTDCA else .DCA) with
  | some (.i16 n) => n
  | _ => -1

/-- `GetProtected` (lines 716-732): `0` when unset. -/
def Record.getProtectedByte (r : Record) : Nat :=
  match r.getF .PROTECTED with
  | some (.byte b) => b
  | _ => 0

/-- `GetPasswordLength` (ItemData.h): length of the password string. -/
def Record.getPasswordLength (r : Record) : Nat := r.getPassword.length

/-- Modelled from the spec: `CItem::GetSize` — total byte size of all stored
fields plus preserved unknown fields (the "serialized entry size" derived
virtual field of §4.5). -/
def Record.getSize (r : Record) : Nat :=
  (r.fields.map (fun kv => kv.2.raw.length)).sum +
    (r.urfl.map (fun c => c.2.length)).sum

/-! ## Legacy placeholder codec (lines 104-172) -/

/-- Opening/closing bracket character codes. -/
def lbr : Nat := 91

def rbr : Nat := 93

def tld : Nat := 126

/-- The alias placeholder token `[[` ++ hex id ++ `]]`. -/
def aliasToken (b : Bytes) : Bytes := [lbr, lbr] ++ hexEncode b ++ [rbr, rbr]

/-- The shortcut placeholder token `[~` ++ hex id ++ `~]`. -/
def shortcutToken (b : Bytes) : Bytes := [lbr, tld] ++ hexEncode b ++ [tld, rbr]

/-- `CItemData::ParseSpecialPasswords()` (lines 104-137): if the password is a
36-character bracketed token whose middle 32 characters are hex after
lowercasing, install the parsed id into `BASEUUID`, move the record's id to
the slot selected by the bracket kind, and clear the `UUID` slot; otherwise a
no-op. -/
def Record.parseSpecialPasswords (r : Record) : Record :=
  let pw := r.getPassword
  if pw.length = 36 then
    let possible := ((pw.drop 2).take 32).map toLowerChar
    if ((pw.take 2 = [lbr, lbr] ∧ pw.drop 34 = [rbr, rbr]) ∨
        (pw.take 2 = [lbr, tld] ∧ pw.drop 34 = [tld, rbr])) ∧
        possible.all isHexLower then
      let buuid := hexDecode possible
      let r1 := r.setUUID buuid .BASEUUID
      let uuid := r1.getUUIDbytes .END
      let ft : FieldType := if pw.take 2 = [lbr, lbr] then .ALIASUUID else .SHORTCUTUUID
      let r2 := r1.clearField .UUID
      r2.setUUID uuid ft
    else r
  else r

/-- `CItemData::SetSpecialPasswords()` (lines 148-172): for a dependent
record, overwrite the password with the bracketed token encoding `BASEUUID`. -/
def Record.setSpecialPasswords (r : Record) : Record :=
  if r.isDependent then
    let base := r.getUUIDbytes .BASEUUID
    let tok := if r.isAlias then aliasToken base
               else if r.isShortcut then shortcutToken base
               else []
    r.setPassword tok
  else r

/-! ## Deserializer (`CItemData::Read`, lines 174-234, and
`CItemData::SetField`, lines 2116-2215)

The reader/writer collaborator (`PWSfile`, §6) is modelled as a list of
`(tag, bytes)` chunks; `ReadField` pops the next chunk and reports a
positive byte count (payload plus framing), `0` at end of input. -/

abbrev Chunk := Nat × Bytes

/-- `CItemData::SetField(unsigned char, data, len)` (lines 2116-2215) as a
validation-plus-update: `none` when the type-specific validation fails
(the read then fails), otherwise the store update to apply. The validation
depends only on the tag and payload, never on the record. -/
def setFieldFn (t : Nat) (d : Bytes) : Option (Record → Record) :=
  match decodeTag t with
  | none => some (fun r => r.addUnknown t d)
  | some ft =>
    match ft with
    | .NAME => none
    | .UUID | .BASEUUID | .ALIASUUID | .SHORTCUTUUID | .ATTREF =>
      if d.length < 16 then none else some (fun r => r.setUUID (d.take 16) ft)
    | .GROUP | .TITLE | .USER | .NOTES | .PASSWORD | .TWOFACTORKEY | .POLICY
    | .URL | .AUTOTYPE | .PWHIST | .RUNCMD | .EMAIL | .SYMBOLS | .POLICYNAME
    | .DATA_ATT_TITLE | .DATA_ATT_MEDIATYPE | .DATA_ATT_FILENAME
    | .PASSKEY_RP_ID =>
      some (fun r => r.setF ft (.txt d))
    | .TOTPCONFIG | .TOTPTIMESTEP | .TOTPLENGTH | .DATA_ATT_CONTENT
    | .PASSKEY_CRED_ID | .PASSKEY_USER_HANDLE | .PASSKEY_ALGO_ID
    | .PASSKEY_PRIVATE_KEY | .PASSKEY_SIGN_COUNT =>
      some (fun r => r.setF ft (.bin d))
    | .CTIME | .PMTIME | .ATIME | .XTIME | .RMTIME | .TOTPSTARTTIME
    | .DATA_ATT_MTIME =>
      if d.length = 4 then some (fun r => r.setTimeV ft (getInt32s d))
      else if d.length = 5 then some (fun r => r.setTimeV ft (getTime5 d))
      else none
    | .XTIME_INT =>
      if d.length = 4 then some (fun r => r.setF .XTIME_INT (.i32 (getInt32s d)))
      else none
    | .DCA =>
      if d.length = 2 then some (fun r => r.setF .DCA (.i16 (getInt16s d)))
      else none
    | .SHIFTDCA =>
      if d.length = 2 then some (fun r => r.setF .SHIFTDCA (.i16 (getInt16s d)))
      else none
    | .PROTECTED =>
      if d.length = 1 then
        some (fun r => if d.headD 0 ≠ 0 then r.setF .PROTECTED (.byte 1)
                       else r.clearField .PROTECTED)
      else none
    | .KBSHORTCUT =>
      some (fun r => r.setF .KBSHORTCUT (.i32 (getInt32s d)))
    | .END => some (fun r => r)
    | .RESERVED | .ENTRYSIZE | .PASSWORDLEN =>
      some (fun r => r.addUnknown t d)

/-- Outcome of the chunk-reading do/while loop of `CItemData::Read`. -/
inductive LoopOut where
  | normal (failed : Bool) (r : Record) (numread : Nat)
  | rewind (numread : Nat) (r : Record)
  deriving DecidableEq

/-- The do/while loop of `CItemData::Read` (lines 185-214): reads at most
`fuel` chunks (the `emergencyExit` counter, initially 255), stopping at the
`END` tag, at end of input, on a `SetField` validation failure (status
`FAILURE`), or early-returning on an attachment tag. -/
def readLoop : Nat → List Chunk → Record → Nat → LoopOut
  | _, [], r, numread => .normal false r numread
  | 0, _ :: _, r, numread => .normal false r numread
  | fuel + 1, (t, d) :: rest, r, numread =>
    let numread1 := numread + (d.length + 5)
    if isItemDataCode t then
      match setFieldFn t d with
      | none => .normal true r numread1
      | some f =>
        if fuel = 0 then .normal false (f r) numread1
        else readLoop fuel rest (f r) numread1
    else if isItemAttCode t then .rewind numread1 r
    else if t = 0xff then .normal false r numread1
    else
      if fuel = 0 then .normal false (r.addUnknown t d) numread1
      else readLoop fuel rest (r.addUnknown t d) numread1

/-- Return value of `CItemData::Read` (`PWSfile::SUCCESS` / `FAILURE` /
`END_OF_FILE`, or the negative rewind sentinel). -/
inductive ReadRet where
  | success | failure | eof | rewind (n : Nat)
  deriving DecidableEq

/-- The kind inference after the terminator (lines 223-230): `UUID` populated
means normal (possibly refined to a base later), else alias, else shortcut;
when no id slot is populated the kind is left as `Clear()` set it (the
`ASSERT(0)` is debug-only). -/
def Record.inferKindFromSlots (r : Record) : Record :=
  if (r.getF .UUID).isSome then { r with entrytype := .ET_NORMAL }
  else if (r.getF .ALIASUUID).isSome then { r with entrytype := .ET_ALIAS }
  else if (r.getF .SHORTCUTUUID).isSome then { r with entrytype := .ET_SHORTCUT }
  else r

/-- `CItemData::Read` (lines 174-234): clear, loop over chunks, then decode
the legacy placeholder and infer the kind; a stream contributing zero bytes
is end-of-input. -/
def readPWS (s : List Chunk) : ReadRet × Record :=
  match readLoop 255 s clearedRecord 0 with
  | .rewind n r => (.rewind n, r)
  | .normal failed r numread =>
    if 0 < numread then
      let r2 := (r.parseSpecialPasswords).inferKindFromSlots
      ((if failed then .failure else .success), r2)
    else (.eof, r)

/-! ## Serializer (`CItemData::WriteCommon` lines 270-355,
`Write(PWSfile*)` lines 357-388, `Write(PWSfileV4*)` lines 390-426,
`WriteUnknowns` lines 428-442) -/

/-- The `TextFields` array of `WriteCommon` (lines 274-280). -/
def textFieldsW : List FieldType :=
  [.GROUP, .TITLE, .USER, .PASSWORD, .TWOFACTORKEY, .NOTES, .URL, .AUTOTYPE,
   .POLICY, .PWHIST, .RUNCMD, .EMAIL, .SYMBOLS, .POLICYNAME,
   .DATA_ATT_TITLE, .DATA_ATT_MEDIATYPE, .DATA_ATT_FILENAME, .PASSKEY_RP_ID]

/-- The `TimeFields` array (lines 281-283). -/
def timeFieldsW : List FieldType :=
  [.ATIME, .CTIME, .XTIME, .PMTIME, .RMTIME, .TOTPSTARTTIME, .DATA_ATT_MTIME]

/-- The `BinaryFields` array (lines 284-287). -/
def binaryFieldsW : List FieldType :=
  [.TOTPCONFIG, .TOTPTIMESTEP, .TOTPLENGTH, .DATA_ATT_CONTENT,
   .PASSKEY_CRED_ID, .PASSKEY_USER_HANDLE, .PASSKEY_ALGO_ID,
   .PASSKEY_PRIVATE_KEY, .PASSKEY_SIGN_COUNT]

/-- Modelled from the spec: `PWSprefs::minDCA` / `maxDCA`, the documented
valid range of double-click action codes (§4.3 "small integer fields ...
are written only within documented valid ranges"). -/
def minDCA : Int := 0

def maxDCA : Int := 9

/-- `WriteIfSet` (lines 236-268): emit one chunk with the stored payload when
the field is set. -/
def writeIfSetChunk (r : Record) (ft : FieldType) : List Chunk :=
  match r.getF ft with
  | none => []
  | some v => [(fieldCode ft, v.raw)]

/-- The time-field emission of `WriteCommon` (lines 292-305): written only
when nonzero, 4 bytes for the legacy generation, 5 (`PWStime`) for the newer
one. -/
def emitTimeChunk (timeLen : Nat) (r : Record) (ft : FieldType) : List Chunk :=
  let t := r.getTimeV ft
  if t ≠ 0 then
    if timeLen = 4 then [(fieldCode ft, le4 t)]
    else if timeLen = 5 then [(fieldCode ft, le5t t)]
    else []
  else []

/-- The chunks `WriteCommon` emits before the terminator (lines 270-349):
the text-field loop, the time-field loop, the four guarded integer fields,
`PROTECTED`, the binary-field loop, and the preserved unknown fields. -/
def writeCommonBody (r : Record) (timeLen : Nat) : List Chunk :=
  (textFieldsW.flatMap (fun ft => writeIfSetChunk r ft))
  ++ (timeFieldsW.flatMap (fun ft => emitTimeChunk timeLen r ft))
  ++ (let n := r.getXTimeInt
      if 0 < n ∧ n ≤ 3650 then [(fieldCode .XTIME_INT, le4 n)] else [])
  ++ (let n := r.getKBShortcut
      if n ≠ 0 then [(fieldCode .KBSHORTCUT, le4 n)] else [])
  ++ (let n := r.getDCA false
      if minDCA ≤ n ∧ n ≤ maxDCA then [(fieldCode .DCA, le2 n)] else [])
  ++ (let n := r.getDCA true
      if minDCA ≤ n ∧ n ≤ maxDCA then [(fieldCode .SHIFTDCA, le2 n)] else [])
  ++ writeIfSetChunk r .PROTECTED
  ++ (binaryFieldsW.flatMap (fun ft => writeIfSetChunk r ft))
  ++ r.urfl

/-- `WriteCommon` (lines 270-355) as the chunk sequence it emits; the final
`END` chunk is the terminator. -/
def writeCommonChunks (r : Record) (timeLen : Nat) : List Chunk :=
  writeCommonBody r timeLen ++ [(fieldCode .END, [])]

/-- The id slot a `Write` emits (lines 363-370 / 398-405). -/
def Record.writeSlot (r : Record) : FieldType :=
  if !r.isDependent then .UUID
  else if r.isAlias then .ALIASUUID
  else .SHORTCUTUUID

/-- `CItemData::Write(PWSfile*)` (lines 357-388), the legacy (V3) generation:
emit the id under the `UUID` tag, substitute the placeholder password for a
dependent, write the common fields with 4-byte times, then restore the saved
password. Returns the emitted chunks and the record as left in memory. -/
def writeV3 (r : Record) : List Chunk × Record :=
  let item_uuid := r.getUUIDbytes r.writeSlot
  let saved := r.getPassword
  let r1 := r.setSpecialPasswords
  let chunks := (fieldCode .UUID, item_uuid) :: writeCommonChunks r1 4
  (chunks, r1.setPassword saved)

/-- `CItemData::Write(PWSfileV4*)` (lines 390-426), the newer (V4)
generation: emit the id under its kind-specific tag, an explicit `BASEUUID`
chunk for dependents, an `ATTREF` chunk when set, then the common fields
with 5-byte times. -/
def writeV4 (r : Record) : List Chunk × Record :=
  let chunks :=
    (fieldCode r.writeSlot, r.getUUIDbytes r.writeSlot)
    :: ((if r.isDependent then
          [(fieldCode .BASEUUID, r.getUUIDbytes .BASEUUID)] else [])
      ++ (if r.isFieldSet .ATTREF then
          [(fieldCode .ATTREF, r.getUUIDbytes .ATTREF)] else [])
      ++ writeCommonChunks r 5)
  (chunks, r)

/-! ## Kind changes and effective values -/

/-- `CItemData::SetEntryType` (lines 2217-2238), translated literally,
including the second branch's condition exactly as written in the source
(`et == ET_NORMAL || m_entrytype == ET_ALIASBASE || m_entrytype ==
ET_SHORTCUTBASE`). -/
def Record.setEntryType (r : Record) (et : EntryType) : Record :=
  let r1 :=
    if r.entrytype = .ET_NORMAL ∨ r.entrytype = .ET_ALIASBASE ∨
        r.entrytype = .ET_SHORTCUTBASE then
      if et = .ET_ALIAS ∨ et = .ET_SHORTCUT then
        let uuid := r.getUUIDbytes .UUID
        let r' := r.setUUID uuid (if et = .ET_ALIAS then .ALIASUUID else .SHORTCUTUUID)
        r'.clearField .UUID
      else r
    else if et = .ET_NORMAL ∨ r.entrytype = .ET_ALIASBASE ∨
        r.entrytype = .ET_SHORTCUTBASE then
      if r.entrytype = .ET_ALIAS ∨ r.entrytype = .ET_SHORTCUT then
        let slot := if r.entrytype = .ET_ALIAS then FieldType.ALIASUUID
                    else FieldType.SHORTCUTUUID
        let uuid := r.getUUIDbytes slot
        let r' := r.setUUID uuid .UUID
        r'.clearField slot
      else r
    else r
  { r1 with entrytype := et }

/-- The fixed per-field inheritance set of an alias (lines 577-585). -/
def aliasBaseFields : List FieldType :=
  [.PASSWORD, .PWHIST, .TWOFACTORKEY, .TOTPCONFIG, .TOTPSTARTTIME,
   .TOTPTIMESTEP, .TOTPLENGTH]

/-- `CItemData::GetEffectiveFieldValue(ft, pbci)` (lines 567-603). -/
def Record.getEffectiveFieldValue (r : Record) (ft : FieldType) (pbci : Record) :
    Bytes :=
  if r.isNormal || r.isBase then r.getFieldStr ft
  else if r.isAlias then
    if ft ∈ aliasBaseFields then pbci.getFieldStr ft else r.getFieldStr ft
  else if r.isShortcut then
    if ft = .GROUP ∨ ft = .TITLE ∨ ft = .USER then r.getFieldStr ft
    else pbci.getFieldStr ft
  else []

/-! ## Matcher (lines 1851-1883 and 1908-1950)

The comparison module (`PWSMatch`) and the libc local-midnight truncation
are external collaborators; they enter as function parameters. -/

/-- The comparison selectors of `PWSMatch::MatchRule` the embedded code
branches on; all other rules reach the external comparison. -/
inductive MatchRule where
  | mrPresent | mrNotPresent | mrEquals | mrNotEqual | mrBetween
  | mrLT | mrLE | mrGT | mrGE | mrIs | mrIsNot
  deriving DecidableEq

/-- `CItemData::Matches(int num1, int num2, int iObject, int iFunction)`
(lines 1851-1883): numeric predicate over expiry interval, entry size,
password length or keyboard shortcut. `pmB` and `pmI` model the external
`PWSMatch::Match` overloads. -/
def Record.matchesNum (r : Record) (num1 num2 : Int) (iObject : FieldType)
    (iFunction : MatchRule) (pmB : Bool → MatchRule → Bool)
    (pmI : Int → Int → Int → MatchRule → Bool) : Bool :=
  let v? : Option Int :=
    match iObject with
    | .XTIME_INT => some r.getXTimeInt
    | .ENTRYSIZE => some (r.getSize : Int)
    | .PASSWORDLEN => some (r.getPasswordLength : Int)
    | .KBSHORTCUT => some r.getKBShortcut
    | _ => none
  match v? with
  | none => false
  | some iValue =>
    if iFunction = .mrPresent ∨ iFunction = .mrNotPresent then
      pmB (iValue ≠ 0) iFunction
    else if iValue = 0 then false
    else pmI num1 num2 iValue iFunction

/-- `CItemData::MatchesTime` (lines 1908-1950): time predicate; the selected
time is truncated to local midnight (`truncDay`, modelling the
`localtime_s`/`mktime` pair) before the external comparison. -/
def Record.matchesTime (r : Record) (time1 time2 : Int) (iObject : FieldType)
    (iFunction : MatchRule) (pmB : Bool → MatchRule → Bool)
    (pmT : Int → Int → Int → MatchRule → Bool) (truncDay : Int → Int) : Bool :=
  let v? : Option Int :=
    match iObject with
    | .CTIME | .PMTIME | .ATIME | .XTIME | .RMTIME => some (r.getTimeV iObject)
    | _ => none
  match v? with
  | none => false
  | some tValue =>
    if iFunction = .mrPresent ∨ iFunction = .mrNotPresent then
      pmB (tValue ≠ 0) iFunction
    else if tValue = 0 then false
    else pmT time1 time2 (truncDay tValue) iFunction

/-! ## History manager (`UpdatePassword` lines 1365-1384,
`UpdatePasswordHistory` lines 1386-1425)

Modelled from the spec: the `PWHistList` sub-format (§4.4 "a compact ASCII
line: enabled-flag, max-count, current-count, each as fixed-width hex,
followed per entry by a change-date token, a 4-hex-digit password length,
and the raw password bytes"; eviction is oldest-first once the cap is
exceeded). The change-date token is the change time in fixed-width hex; the
display-formatted date string of `PWHistEntry` is presentation-only and not
part of the stored line. The preference collaborator (§6) supplies the
defaults used when the record has no history field yet. -/

/-- Two lowercase hex digits of `n mod 256`. -/
def hex2 (n : Nat) : Bytes := [hexDigitChar (n / 16 % 16), hexDigitChar (n % 16)]

/-- Four lowercase hex digits of `n mod 2^16`. -/
def hex4 (n : Nat) : Bytes := hex2 (n / 256) ++ hex2 (n % 256)

/-- Eight lowercase hex digits of `n mod 2^32`. -/
def hex8 (n : Nat) : Bytes := hex4 (n / 65536) ++ hex4 (n % 65536)

/-- Value of a big-endian hex digit string. -/
def hexValN (l : Bytes) : Nat := l.foldl (fun acc c => acc * 16 + hexCharVal c) 0

/-- Modelled from the spec: the in-memory history log (`PWHistList`). -/
structure PWHistList where
  saving : Bool
  maxSize : Nat
  entries : List (Bytes × Int)
  deriving DecidableEq

/-- Modelled from the spec: rendering a history log back to its stored line,
evicting oldest entries first down to the cap. -/
def pwhlToStr (pl : PWHistList) : Bytes :=
  let kept := pl.entries.drop (pl.entries.length - pl.maxSize)
  [if pl.saving then 49 else 48] ++ hex2 pl.maxSize ++ hex2 kept.length
    ++ kept.flatMap (fun e => hex8 (e.2 % 4294967296).toNat ++ hex4 e.1.length ++ e.1)

/-- Modelled from the spec: forward-scan of the per-entry section of a
stored history line. -/
def parseHistEntries : Nat → Bytes → List (Bytes × Int)
  | 0, _ => []
  | n + 1, s =>
    if s.length < 12 then []
    else
      let t := hexValN (s.take 8)
      let len := hexValN ((s.drop 8).take 4)
      ((s.drop 12).take len, (t : Int)) :: parseHistEntries n (s.drop (12 + len))

/-- Modelled from the spec: parsing a stored history line (empty input gives
the empty, disabled log). -/
def parsePWHist (s : Bytes) : PWHistList :=
  match s with
  | [] => ⟨false, 0, []⟩
  | f :: rest =>
    ⟨f = 49, hexValN (rest.take 2),
      parseHistEntries (hexValN ((rest.drop 2).take 2)) (rest.drop 4)⟩

/-- `GetPWHistory()` (lines 836-842): the stored history line, with the two
degenerate forms `"0"` and `"00000"` read as empty. -/
def Record.getPWHistoryStr (r : Record) : Bytes :=
  let ret := r.getFieldStr .PWHIST
  if ret = [48] ∨ ret = [48, 48, 48, 48, 48] then [] else ret

/-- `SetPWHistory` (lines 1588-1594). -/
def Record.setPWHistory (r : Record) (s : Bytes) : Record :=
  r.setF .PWHIST (.txt (if s = [48] ∨ s = [48, 48, 48, 48, 48] then [] else s))

/-- Modelled from the spec: the preference collaborator's two history
defaults (§6). -/
structure Prefs where
  savePasswordHistory : Bool
  numPWHistoryDefault : Nat
  deriving DecidableEq

/-- `CItemData::UpdatePasswordHistory()` (lines 1386-1425): parse the stored
line (falling back to preference defaults when empty), no-op when saving is
off, otherwise append `(current password, previous password-modified time —
falling back to creation time)` and re-encode within the cap. -/
def Record.updatePasswordHistory (r : Record) (prefs : Prefs) : Record :=
  let pwh_str := r.getPWHistoryStr
  let pl0 := parsePWHist pwh_str
  let pl := if pwh_str = [] then
      { pl0 with saving := prefs.savePasswordHistory,
                 maxSize := prefs.numPWHistoryDefault }
    else pl0
  if ¬pl.saving then r
  else
    let tp := r.getTimeV .PMTIME
    let t := if tp ≠ 0 then tp else r.getTimeV .CTIME
    let pl1 := { pl with entries := pl.entries ++ [(r.getPassword, t)] }
    r.setPWHistory (pwhlToStr pl1)

/-- `CItemData::UpdatePassword(password)` (lines 1365-1384), with the wall
clock passed explicitly: record the old password in the history, store the
new one, stamp the password-modified time, and refresh the expiry time from
the expiry interval. -/
def Record.updatePassword (r : Record) (prefs : Prefs) (password : Bytes)
    (tNow : Int) : Record :=
  let r1 := r.updatePasswordHistory prefs
  let r2 := (r1.setPassword password).setTimeV .PMTIME tNow
  let xint := r2.getXTimeInt
  if xint ≠ 0 then r2.setTimeV .XTIME (tNow + xint * 86400)
  else r2.setTimeV .XTIME 0

/-- The exact acceptance condition of `ParseSpecialPasswords` (lines
113-120): length 36, a matching bracket pair, and 32 middle characters that
are hex *after lowercasing* (the code applies `ToLower` before the
`find_first_not_of` check). -/
def PlaceholderShape (pw : Bytes) : Prop :=
  pw.length = 36 ∧
  ((pw.take 2 = [lbr, lbr] ∧ pw.drop 34 = [rbr, rbr]) ∨
   (pw.take 2 = [lbr, tld] ∧ pw.drop 34 = [tld, rbr])) ∧
  (((pw.drop 2).take 32).map toLowerChar).all isHexLower = true

instance (pw : Bytes) : Decidable (PlaceholderShape pw) := by
  unfold PlaceholderShape; infer_instance

/-- The value the numeric `Matches` overload selects (lines 1855-1873). -/
def numMatchValue (r : Record) (iObject : FieldType) : Option Int :=
  match iObject with
  | .XTIME_INT => some r.getXTimeInt
  | .ENTRYSIZE => some (r.getSize : Int)
  | .PASSWORDLEN => some (r.getPasswordLength : Int)
  | .KBSHORTCUT => some r.getKBShortcut
  | _ => none

/-- The value `MatchesTime` selects (lines 1912-1925). -/
def timeMatchValue (r : Record) (iObject : FieldType) : Option Int :=
  match iObject with
  | .CTIME | .PMTIME | .ATIME | .XTIME | .RMTIME => some (r.getTimeV iObject)
  | _ => none

/-- A chunk the read loop accepts as a recognized, well-formed item-data
field. -/
def okDataChunk (c : Chunk) : Prop :=
  isItemDataCode c.1 = true ∧ (setFieldFn c.1 c.2).isSome = true

instance (c : Chunk) : Decidable (okDataChunk c) := by
  unfold okDataChunk; infer_instance

/-- The history-saving flag `UpdatePasswordHistory` acts on: the stored
line's flag, or the preference default when the record has no history line
yet. -/
def effectiveSaving (r : Record) (prefs : Prefs) : Bool :=
  if r.getPWHistoryStr = [] then prefs.savePasswordHistory
  else (parsePWHist r.getPWHistoryStr).saving

/-- The history log `UpdatePasswordHistory` renders back to the record: the
effective parsed log with `(current password, previous password-modified
time — falling back to creation time)` appended. -/
def Record.histAfterUpdate (r : Record) (prefs : Prefs) : PWHistList :=
  let s := r.getPWHistoryStr
  let pl0 := parsePWHist s
  let pl := if s = [] then
      { pl0 with saving := prefs.savePasswordHistory,
                 maxSize := prefs.numPWHistoryDefault }
    else pl0
  let tp := r.getTimeV .PMTIME
  let t := if tp ≠ 0 then tp else r.getTimeV .CTIME
  { pl with entries := pl.entries ++ [(r.getPassword, t)] }

/-! ## Read/write round-trip infrastructure -/

/-- The net record update one loop iteration of `Read` performs on a chunk:
a recognized tag goes through `SetField`, an attachment tag and the
terminator change nothing (the former aborts the loop), anything else is
preserved as an unknown field. -/
def applyChunk (r : Record) (c : Chunk) : Record :=
  if isItemDataCode c.1 then
    match setFieldFn c.1 c.2 with
    | some f => f r
    | none => r
  else if isItemAttCode c.1 then r
  else if c.1 = 0xff then r
  else r.addUnknown c.1 c.2

/-- A chunk the read loop processes without failing, rewinding or
terminating. -/
def procOK (c : Chunk) : Prop :=
  (isItemDataCode c.1 = true → (setFieldFn c.1 c.2).isSome = true)
  ∧ isItemAttCode c.1 = false ∧ c.1 ≠ 0xff

def chunkLen (c : Chunk) : Nat := c.2.length + 5

/-- The field tags `WriteCommon` handles, in emission order. -/
def commonTags : List FieldType :=
  textFieldsW ++ timeFieldsW ++ [.XTIME_INT, .KBSHORTCUT, .DCA, .SHIFTDCA, .PROTECTED]
    ++ binaryFieldsW

/-- The per-tag chunk emission of `WriteCommon`, as one function over
`commonTags`. -/
def emitCommon (r : Record) (timeLen : Nat) (ft : FieldType) : List Chunk :=
  if ft ∈ timeFieldsW then emitTimeChunk timeLen r ft
  else if ft = .XTIME_INT then
    (let n := r.getXTimeInt
     if 0 < n ∧ n ≤ 3650 then [(fieldCode .XTIME_INT, le4 n)] else [])
  else if ft = .KBSHORTCUT then
    (let n := r.getKBShortcut
     if n ≠ 0 then [(fieldCode .KBSHORTCUT, le4 n)] else [])
  else if ft = .DCA then
    (let n := r.getDCA false
     if minDCA ≤ n ∧ n ≤ maxDCA then [(fieldCode .DCA, le2 n)] else [])
  else if ft = .SHIFTDCA then
    (let n := r.getDCA true
     if minDCA ≤ n ∧ n ≤ maxDCA then [(fieldCode .SHIFTDCA, le2 n)] else [])
  else writeIfSetChunk r ft

/-- The typed-value well-formedness each tag requires for faithful
round-tripping: the semantic type of the registry, payloads the write-side
guards admit, and integer/time values within the serialized widths. -/
def wfValB (ft : FieldType) (v : FieldVal) : Bool :=
  if ft ∈ textFieldsW then
    (match v with | .txt s => !s.isEmpty | _ => false)
  else if ft ∈ timeFieldsW then
    (match v with | .tm t => decide (0 < t ∧ t < 2147483648) | _ => false)
  else if ft ∈ binaryFieldsW then
    (match v with | .bin s => !s.isEmpty | _ => false)
  else if ft = .XTIME_INT then
    (match v with | .i32 n => decide (1 ≤ n ∧ n ≤ 3650) | _ => false)
  else if ft = .KBSHORTCUT then
    (match v with
      | .i32 n => decide (n ≠ 0 ∧ -2147483648 ≤ n ∧ n < 2147483648)
      | _ => false)
  else if ft = .DCA ∨ ft = .SHIFTDCA then
    (match v with | .i16 n => decide (minDCA ≤ n ∧ n ≤ maxDCA) | _ => false)
  else if ft = .PROTECTED then
    (match v with | .byte b => decide (b = 1) | _ => false)
  else if ft = .UUID ∨ ft = .BASEUUID ∨ ft = .ALIASUUID ∨ ft = .SHORTCUTUUID ∨
      ft = .ATTREF then
    (match v with
      | .uuid b => decide (b.length = 16) && b.all (fun x => decide (x < 256))
      | _ => false)
  else false

/-- Every field tag. -/
def allTags : List FieldType :=
  [.NAME, .UUID, .GROUP, .TITLE, .USER, .NOTES, .PASSWORD,
   .CTIME, .PMTIME, .ATIME, .XTIME, .RESERVED, .RMTIME,
   .URL, .AUTOTYPE, .PWHIST, .POLICY, .XTIME_INT, .RUNCMD,
   .DCA, .EMAIL, .PROTECTED, .SYMBOLS, .SHIFTDCA, .POLICYNAME,
   .KBSHORTCUT, .ATTREF, .TWOFACTORKEY,
   .TOTPCONFIG, .TOTPLENGTH, .TOTPTIMESTEP, .TOTPSTARTTIME,
   .DATA_ATT_TITLE, .DATA_ATT_MEDIATYPE, .DATA_ATT_FILENAME,
   .DATA_ATT_MTIME, .DATA_ATT_CONTENT,
   .PASSKEY_CRED_ID, .PASSKEY_RP_ID, .PASSKEY_USER_HANDLE, .PASSKEY_ALGO_ID,
   .PASSKEY_PRIVATE_KEY, .PASSKEY_SIGN_COUNT,
   .BASEUUID, .ALIASUUID, .SHORTCUTUUID,
   .ENTRYSIZE, .PASSWORDLEN, .END]

/-- The tags a well-formed record of the given kind may populate for the
legacy generation. -/
def v3Allowed (et : EntryType) : List FieldType :=
  match et with
  | .ET_NORMAL | .ET_ALIASBASE | .ET_SHORTCUTBASE => .UUID :: commonTags
  | .ET_ALIAS => .ALIASUUID :: .BASEUUID :: commonTags
  | .ET_SHORTCUT => .SHORTCUTUUID :: .BASEUUID :: commonTags

/-- Ditto for the newer generation, which also serializes `ATTREF`. -/
def v4Allowed (et : EntryType) : List FieldType := .ATTREF :: v3Allowed et

/-- All populated fields lie in the allowed tag set and are well-formed. -/
def WFfields (r : Record) (allowed : List FieldType) : Prop :=
  ∀ ft ∈ allTags, (match r.getF ft with
    | none => True
    | some v => ft ∈ allowed ∧ wfValB ft v = true)

/-- Precondition set under which a legacy (V3) write/read round-trip is
lossless: no unknown fields (the claim's "only currently-recognized field
tags"), a persistable kind (base refinements serialize as Normal), fields
well-formed and within the write-side guards, the kind-selected id slot
populated, and the password compatible with the legacy placeholder pass:
not placeholder-shaped for a normal record, exactly the `BASE-UUID`
placeholder token for a dependent. -/
def WFv3 (r : Record) : Prop :=
  r.urfl = []
  ∧ (r.entrytype = .ET_NORMAL ∨ r.entrytype = .ET_ALIAS ∨ r.entrytype = .ET_SHORTCUT)
  ∧ WFfields r (v3Allowed r.entrytype)
  ∧ (r.getF (slotOfKind r.entrytype)).isSome = true
  ∧ (r.entrytype = .ET_NORMAL →
      match r.getF .PASSWORD with
      | some (.txt s) => ¬PlaceholderShape s
      | _ => True)
  ∧ (r.entrytype = .ET_ALIAS →
      match r.getF .BASEUUID with
      | some (.uuid b) => r.getF .PASSWORD = some (.txt (aliasToken b))
      | _ => False)
  ∧ (r.entrytype = .ET_SHORTCUT →
      match r.getF .BASEUUID with
      | some (.uuid b) => r.getF .PASSWORD = some (.txt (shortcutToken b))
      | _ => False)

/-- Precondition set for a lossless V4 round-trip: as for V3 (with `ATTREF`
also allowed), except that the password must simply not be
placeholder-shaped (the V4 reader still runs the legacy placeholder pass),
and a dependent must carry a populated `BASE-UUID`. -/
def WFv4 (r : Record) : Prop :=
  r.urfl = []
  ∧ (r.entrytype = .ET_NORMAL ∨ r.entrytype = .ET_ALIAS ∨ r.entrytype = .ET_SHORTCUT)
  ∧ WFfields r (v4Allowed r.entrytype)
  ∧ (r.getF (slotOfKind r.entrytype)).isSome = true
  ∧ (match r.getF .PASSWORD with
      | some (.txt s) => ¬PlaceholderShape s
      | _ => True)
  ∧ (r.isDependent = true →
      match r.getF .BASEUUID with
      | some (.uuid _) => True
      | _ => False)

/-- Round-trip agreement: same kind, same unknown-field list, same value
under every field tag. -/
def roundtripAgrees (r out : Record) : Prop :=
  out.entrytype = r.entrytype ∧ out.urfl = r.urfl ∧
  ∀ g : FieldType, out.getF g = r.getF g

/-! ## Theorems -/

theorem leNat_le4 (n : Int) (h0 : 0 ≤ n) (h : n < 4294967296) :
    leNat (le4 n) = n.toNat := by
  have h1 : n % 4294967296 = n := Int.emod_eq_of_lt h0 h
  simp only [le4, h1, leNat]
  omega

theorem getInt32s_le4 (n : Int) (h0 : 0 ≤ n) (h : n < 2147483648) :
    getInt32s (le4 n) = n := by
  have hlen : (le4 n).take 4 = le4 n := by simp [le4]
  have := leNat_le4 n h0 (by omega)
  simp only [getInt32s, hlen, this]
  omega

theorem getInt32s_le4_signed (n : Int) (h0 : -2147483648 ≤ n)
    (h : n < 2147483648) : getInt32s (le4 n) = n := by
  by_cases hn : 0 ≤ n
  · exact getInt32s_le4 n hn h
  · have h1 : n % 4294967296 = n + 4294967296 := by omega
    have hlen : (le4 n).take 4 = le4 n := by simp [le4]
    have h2 : leNat (le4 n) = (n + 4294967296).toNat := by
      simp only [le4, h1, leNat]
      omega
    simp only [getInt32s, hlen, h2]
    omega

theorem getInt16s_le2 (n : Int) (h0 : 0 ≤ n) (h : n < 32768) :
    getInt16s (le2 n) = n := by
  have h1 : n % 65536 = n := Int.emod_eq_of_lt h0 (by omega)
  simp only [getInt16s, le2, h1, List.take, leNat]
  omega

theorem getTime5_le5t (t : Int) (h0 : 0 ≤ t) (h : t < 1099511627776) :
    getTime5 (le5t t) = t := by
  have h1 : t % 1099511627776 = t := Int.emod_eq_of_lt h0 h
  simp only [getTime5, le5t, h1, List.take, leNat]
  omega

theorem getInt32s_le4_time (t : Int) (h0 : 0 ≤ t) (h : t < 2147483648) :
    getInt32s (le4 t) = t := getInt32s_le4 t h0 h

theorem hexCharVal_hexDigitChar (n : Nat) (h : n < 16) :
    hexCharVal (hexDigitChar n) = n := by
  interval_cases n <;> rfl

theorem isHexLower_hexDigitChar (n : Nat) (h : n < 16) :
    isHexLower (hexDigitChar n) = true := by
  interval_cases n <;> rfl

theorem toLowerChar_hexDigitChar (n : Nat) (h : n < 16) :
    toLowerChar (hexDigitChar n) = hexDigitChar n := by
  interval_cases n <;> rfl

theorem hexDecode_hexEncode (b : Bytes) (h : ∀ x ∈ b, x < 256) :
    hexDecode (hexEncode b) = b := by
  induction b with
  | nil => rfl
  | cons x rest ih =>
    have hx : x < 256 := h x (List.mem_cons_self x rest)
    have h1 : x / 16 < 16 := by omega
    have h2 : x % 16 < 16 := Nat.mod_lt _ (by omega)
    have henc : hexEncode (x :: rest) =
        hexDigitChar (x / 16) :: hexDigitChar (x % 16) :: hexEncode rest := by
      simp [hexEncode]
    rw [henc]
    show (hexCharVal (hexDigitChar (x / 16)) * 16 + hexCharVal (hexDigitChar (x % 16))) ::
        hexDecode (hexEncode rest) = x :: rest
    rw [hexCharVal_hexDigitChar _ h1, hexCharVal_hexDigitChar _ h2,
      ih (fun y hy => h y (List.mem_cons_of_mem _ hy))]
    congr 1
    omega

theorem hexEncode_length (b : Bytes) : (hexEncode b).length = 2 * b.length := by
  induction b with
  | nil => rfl
  | cons x rest ih =>
    simp only [hexEncode, List.flatMap_cons] at *
    simp [ih]
    ring

theorem hexEncode_all_hex (b : Bytes) (h : ∀ x ∈ b, x < 256) :
    ∀ c ∈ hexEncode b, isHexLower c = true := by
  induction b with
  | nil => intro c hc; simp [hexEncode] at hc
  | cons x rest ih =>
    intro c hc
    have hx : x < 256 := h x (List.mem_cons_self x rest)
    have henc : hexEncode (x :: rest) =
        hexDigitChar (x / 16) :: hexDigitChar (x % 16) :: hexEncode rest := by
      simp [hexEncode]
    rw [henc] at hc
    simp only [List.mem_cons] at hc
    rcases hc with h1 | h1 | h1
    · subst h1; exact isHexLower_hexDigitChar _ (by omega)
    · subst h1; exact isHexLower_hexDigitChar _ (Nat.mod_lt _ (by omega))
    · exact ih (fun y hy => h y (List.mem_cons_of_mem _ hy)) c h1

theorem toLowerChar_of_isHexLower (c : Nat) (h : isHexLower c = true) :
    toLowerChar c = c := by
  simp only [isHexLower, Bool.or_eq_true, Bool.and_eq_true, decide_eq_true_eq] at h
  have hno : ¬(65 ≤ c ∧ c ≤ 90) := by omega
  simp [toLowerChar, hno]

theorem findF_updF_self (l : List (FieldType × FieldVal)) (ft : FieldType)
    (v : FieldVal) : findF (updF l ft v) ft = some v := by
  induction l with
  | nil => simp [updF, findF]
  | cons kv rest ih =>
    obtain ⟨k, w⟩ := kv
    by_cases h : k = ft
    · simp [updF, h, findF]
    · simp [updF, h, findF, ih]

theorem findF_updF_ne (l : List (FieldType × FieldVal)) (ft g : FieldType)
    (v : FieldVal) (h : g ≠ ft) : findF (updF l ft v) g = findF l g := by
  induction l with
  | nil =>
    have hng : ¬ft = g := fun e => h e.symm
    simp [updF, findF, hng]
  | cons kv rest ih =>
    obtain ⟨k, w⟩ := kv
    by_cases hk : k = ft
    · subst hk
      have hng : ¬k = g := fun e => h e.symm
      simp [updF, findF, hng]
    · simp [updF, hk, findF, ih]

theorem findF_eraseF_self (l : List (FieldType × FieldVal)) (ft : FieldType) :
    findF (eraseF l ft) ft = none := by
  induction l with
  | nil => simp [eraseF, findF]
  | cons kv rest ih =>
    obtain ⟨k, w⟩ := kv
    by_cases h : k = ft
    · simp [eraseF, h, ih]
    · simp [eraseF, h, findF, ih]

theorem findF_eraseF_ne (l : List (FieldType × FieldVal)) (ft g : FieldType)
    (h : g ≠ ft) : findF (eraseF l ft) g = findF l g := by
  induction l with
  | nil => simp [eraseF]
  | cons kv rest ih =>
    obtain ⟨k, w⟩ := kv
    by_cases hk : k = ft
    · subst hk
      have hng : ¬k = g := fun e => h e.symm
      simp [eraseF, findF, hng, ih]
    · simp [eraseF, hk, findF, ih]

theorem updF_of_findF_eq (l : List (FieldType × FieldVal)) (ft : FieldType)
    (v : FieldVal) (h : findF l ft = some v) : updF l ft v = l := by
  induction l with
  | nil => simp [findF] at h
  | cons kv rest ih =>
    obtain ⟨k, w⟩ := kv
    by_cases hk : k = ft
    · subst hk
      simp [findF] at h
      simp [updF, h]
    · simp [findF, hk] at h
      simp [updF, hk, ih h]

theorem parse_noop (r : Record) (h : ¬PlaceholderShape r.getPassword) :
    r.parseSpecialPasswords = r := by
  unfold Record.parseSpecialPasswords
  by_cases h36 : r.getPassword.length = 36
  · rw [if_pos h36, if_neg ?_]
    intro hc
    exact h ⟨h36, hc.1, hc.2⟩
  · rw [if_neg h36]

theorem parse_eq_of_shape (r : Record) (h : PlaceholderShape r.getPassword) :
    r.parseSpecialPasswords =
      (((r.setUUID (hexDecode (((r.getPassword.drop 2).take 32).map toLowerChar))
          .BASEUUID).clearField .UUID).setUUID
        ((r.setUUID (hexDecode (((r.getPassword.drop 2).take 32).map toLowerChar))
          .BASEUUID).getUUIDbytes .END)
        (if r.getPassword.take 2 = [lbr, lbr] then .ALIASUUID else .SHORTCUTUUID)) := by
  obtain ⟨h36, hbr, hhex⟩ := h
  unfold Record.parseSpecialPasswords
  rw [if_pos h36, if_pos ⟨hbr, hhex⟩]

theorem slotOfKind_ne_baseuuid (et : EntryType) : slotOfKind et ≠ .BASEUUID := by
  cases et <;> decide

theorem getUUIDbytes_setUUID_baseuuid (r : Record) (b : Bytes) :
    (r.setUUID b .BASEUUID).getUUIDbytes .END = r.getUUIDbytes .END := by
  show (match findF (updF r.fields .BASEUUID (.uuid b)) (slotOfKind r.entrytype) with
    | none => List.replicate 16 0
    | some v => v.raw) =
    (match findF r.fields (slotOfKind r.entrytype) with
    | none => List.replicate 16 0
    | some v => v.raw)
  rw [findF_updF_ne _ _ _ _ (slotOfKind_ne_baseuuid _)]

theorem aliasToken_take2 (b : Bytes) : (aliasToken b).take 2 = [lbr, lbr] := rfl

theorem shortcutToken_take2 (b : Bytes) : (shortcutToken b).take 2 = [lbr, tld] := rfl

theorem aliasToken_mid (b : Bytes) (h : b.length = 16) :
    ((aliasToken b).drop 2).take 32 = hexEncode b := by
  show ((hexEncode b ++ [rbr, rbr]).take 32) = hexEncode b
  rw [show (32 : Nat) = (hexEncode b).length from by rw [hexEncode_length, h],
    List.take_left]

theorem shortcutToken_mid (b : Bytes) (h : b.length = 16) :
    ((shortcutToken b).drop 2).take 32 = hexEncode b := by
  show ((hexEncode b ++ [tld, rbr]).take 32) = hexEncode b
  rw [show (32 : Nat) = (hexEncode b).length from by rw [hexEncode_length, h],
    List.take_left]

theorem aliasToken_drop34 (b : Bytes) (h : b.length = 16) :
    (aliasToken b).drop 34 = [rbr, rbr] := by
  show ((hexEncode b ++ [rbr, rbr]).drop 32) = [rbr, rbr]
  rw [show (32 : Nat) = (hexEncode b).length from by rw [hexEncode_length, h],
    List.drop_left]

theorem shortcutToken_drop34 (b : Bytes) (h : b.length = 16) :
    (shortcutToken b).drop 34 = [tld, rbr] := by
  show ((hexEncode b ++ [tld, rbr]).drop 32) = [tld, rbr]
  rw [show (32 : Nat) = (hexEncode b).length from by rw [hexEncode_length, h],
    List.drop_left]

theorem hexEncode_map_toLower (b : Bytes) (hb : ∀ x ∈ b, x < 256) :
    (hexEncode b).map toLowerChar = hexEncode b := by
  have h1 : (hexEncode b).map toLowerChar = (hexEncode b).map (fun c => c) :=
    List.map_congr_left
      (fun c hc => toLowerChar_of_isHexLower c (hexEncode_all_hex b hb c hc))
  simpa using h1

theorem aliasToken_shape (b : Bytes) (h : b.length = 16) (hb : ∀ x ∈ b, x < 256) :
    PlaceholderShape (aliasToken b) := by
  refine ⟨?_, Or.inl ⟨aliasToken_take2 b, aliasToken_drop34 b h⟩, ?_⟩
  · simp [aliasToken, hexEncode_length, h]
  · rw [aliasToken_mid b h, hexEncode_map_toLower b hb]
    exact List.all_eq_true.2 (hexEncode_all_hex b hb)

theorem shortcutToken_shape (b : Bytes) (h : b.length = 16) (hb : ∀ x ∈ b, x < 256) :
    PlaceholderShape (shortcutToken b) := by
  refine ⟨?_, Or.inr ⟨shortcutToken_take2 b, shortcutToken_drop34 b h⟩, ?_⟩
  · simp [shortcutToken, hexEncode_length, h]
  · rw [shortcutToken_mid b h, hexEncode_map_toLower b hb]
    exact List.all_eq_true.2 (hexEncode_all_hex b hb)

theorem aliasToken_decode (b : Bytes) (h : b.length = 16) (hb : ∀ x ∈ b, x < 256) :
    hexDecode ((((aliasToken b).drop 2).take 32).map toLowerChar) = b := by
  rw [aliasToken_mid b h, hexEncode_map_toLower b hb, hexDecode_hexEncode b hb]

theorem shortcutToken_decode (b : Bytes) (h : b.length = 16) (hb : ∀ x ∈ b, x < 256) :
    hexDecode ((((shortcutToken b).drop 2).take 32).map toLowerChar) = b := by
  rw [shortcutToken_mid b h, hexEncode_map_toLower b hb, hexDecode_hexEncode b hb]

/-! ## Claim theorems -/

/-- **C2.** `GetEffectiveFieldValue(ft, base)`: a Normal or base-kind record
yields its own value of `ft` for every `ft`; an Alias yields the base
record's value exactly when `ft` is password, password history, two-factor
key, or one of the four TOTP parameter fields, and its own value otherwise;
a Shortcut yields its own value exactly when `ft` is group, title or user,
and the base record's value otherwise. (The base record is supplied by
reference; the non-null precondition of the C++ pointer argument is implicit
in the embedding.) -/
theorem c2_effective_field_value (r base : Record) (ft : FieldType) :
    ((r.entrytype = .ET_NORMAL ∨ r.entrytype = .ET_ALIASBASE ∨
        r.entrytype = .ET_SHORTCUTBASE) →
      r.getEffectiveFieldValue ft base = r.getFieldStr ft)
    ∧ (r.entrytype = .ET_ALIAS →
        (ft ∈ aliasBaseFields →
          r.getEffectiveFieldValue ft base = base.getFieldStr ft)
        ∧ (ft ∉ aliasBaseFields →
          r.getEffectiveFieldValue ft base = r.getFieldStr ft))
    ∧ (r.entrytype = .ET_SHORTCUT →
        ((ft = .GROUP ∨ ft = .TITLE ∨ ft = .USER) →
          r.getEffectiveFieldValue ft base = r.getFieldStr ft)
        ∧ (¬(ft = .GROUP ∨ ft = .TITLE ∨ ft = .USER) →
          r.getEffectiveFieldValue ft base = base.getFieldStr ft)) := by
  refine ⟨fun h => ?_, fun h => ⟨fun hin => ?_, fun hout => ?_⟩,
    fun h => ⟨fun hin => ?_, fun hout => ?_⟩⟩ <;>
    simp [Record.getEffectiveFieldValue, Record.isNormal, Record.isBase,
      Record.isAlias, Record.isShortcut, *] <;>
    rcases h with h | h | h <;> simp [h]

/-- **C2 witness.** A concrete alias/base pair: the password resolves to the
base's, the title stays local. -/
theorem c2_effective_field_value_witness :
    ((⟨[(.TITLE, .txt [97])], [], .ET_ALIAS, .ES_CLEAN⟩ : Record).getEffectiveFieldValue
        .PASSWORD ⟨[(.PASSWORD, .txt [98])], [], .ET_NORMAL, .ES_CLEAN⟩ =
      (⟨[(.PASSWORD, .txt [98])], [], .ET_NORMAL, .ES_CLEAN⟩ : Record).getFieldStr .PASSWORD)
    ∧ ((⟨[(.TITLE, .txt [97])], [], .ET_ALIAS, .ES_CLEAN⟩ : Record).getEffectiveFieldValue
        .TITLE ⟨[(.PASSWORD, .txt [98])], [], .ET_NORMAL, .ES_CLEAN⟩ =
      (⟨[(.TITLE, .txt [97])], [], .ET_ALIAS, .ES_CLEAN⟩ : Record).getFieldStr .TITLE) :=
  ⟨((c2_effective_field_value _ _ .PASSWORD).2.1 rfl).1 (by decide),
   ((c2_effective_field_value _ _ .TITLE).2.1 rfl).2 (by decide)⟩

/-- **C9.** `GetUUID(out, ft)` on an unpopulated id slot — whether named
directly (`UUID`, `BASEUUID`, `ALIASUUID`, `SHORTCUTUUID`, `ATTREF`) or
selected by the current entry kind via `ft = END` — fills the output with
the all-zero 16-byte id rather than failing; being `const`, it leaves the
record unmodified (immediate in this pure embedding). -/
theorem c9_getuuid_unset_zero (r : Record) (ft : FieldType)
    (hft : ft = .UUID ∨ ft = .BASEUUID ∨ ft = .ALIASUUID ∨
      ft = .SHORTCUTUUID ∨ ft = .ATTREF ∨ ft = .END)
    (hunset : r.getF (if ft = .END then slotOfKind r.entrytype else ft) = none) :
    r.getUUIDbytes ft = List.replicate 16 0 := by
  simp only [Record.getUUIDbytes, hunset]

/-- **C9 witness.** The empty record's kind-selected slot and its `BASEUUID`
slot both read as the zero id. -/
theorem c9_getuuid_unset_zero_witness :
    clearedRecord.getUUIDbytes .END = List.replicate 16 0 ∧
    clearedRecord.getUUIDbytes .BASEUUID = List.replicate 16 0 :=
  ⟨c9_getuuid_unset_zero clearedRecord .END (by decide) (by decide),
   c9_getuuid_unset_zero clearedRecord .BASEUUID (by decide) (by decide)⟩

/-- **C10.** For any comparison rule other than present/not-present, the
numeric `Matches` overload and `MatchesTime` return `false` whenever the
selected value is zero (unset or empty field), regardless of the comparison
bounds and of the external comparison module's behaviour. -/
theorem c10_zero_value_matches_false (r : Record) (num1 num2 time1 time2 : Int)
    (iObject : FieldType) (iFunction : MatchRule)
    (pmB : Bool → MatchRule → Bool) (pmI pmT : Int → Int → Int → MatchRule → Bool)
    (truncDay : Int → Int)
    (hfn : iFunction ≠ .mrPresent ∧ iFunction ≠ .mrNotPresent) :
    (numMatchValue r iObject = some 0 →
      r.matchesNum num1 num2 iObject iFunction pmB pmI = false)
    ∧ (timeMatchValue r iObject = some 0 →
      r.matchesTime time1 time2 iObject iFunction pmB pmT truncDay = false) := by
  constructor
  · intro hv
    cases iObject <;> simp_all [numMatchValue, Record.matchesNum]
  · intro hv
    cases iObject <;> simp_all [timeMatchValue, Record.matchesTime]

/-- **C10 witness.** On the empty record, an equality comparison against an
unset expiry interval and an unset creation time both yield `false`, even
with an external comparison module that always answers `true`. -/
theorem c10_zero_value_matches_false_witness :
    numMatchValue clearedRecord .XTIME_INT = some 0
    ∧ clearedRecord.matchesNum 0 100 .XTIME_INT .mrEquals
        (fun _ _ => true) (fun _ _ _ _ => true) = false
    ∧ timeMatchValue clearedRecord .CTIME = some 0
    ∧ clearedRecord.matchesTime 0 100 .CTIME .mrEquals
        (fun _ _ => true) (fun _ _ _ _ => true) (fun t => t) = false :=
  ⟨by decide,
   (c10_zero_value_matches_false clearedRecord 0 100 0 100 .XTIME_INT .mrEquals
      (fun _ _ => true) (fun _ _ _ _ => true) (fun _ _ _ _ => true) (fun t => t)
      (by decide)).1 (by decide),
   by decide,
   (c10_zero_value_matches_false clearedRecord 0 100 0 100 .CTIME .mrEquals
      (fun _ _ => true) (fun _ _ _ _ => true) (fun _ _ _ _ => true) (fun t => t)
      (by decide)).2 (by decide)⟩

/-- **C6.** The claim requires every transition crossing the boundary between
{Normal, AliasBase, ShortcutBase} and {Alias, Shortcut} to relocate the id
between the `UUID` slot and the dependent slot. The code's second branch
tests `et == ET_NORMAL || m_entrytype == ET_ALIASBASE || m_entrytype ==
ET_SHORTCUTBASE`, whose last two disjuncts are unsatisfiable there (the
branch is only reached with `m_entrytype ∈ {ET_ALIAS, ET_SHORTCUT}`), so a
dependent changed to a base kind keeps its id in the dependent slot: after
`SetEntryType(ET_ALIASBASE)` on an alias, the id stays in `ALIAS-UUID`, the
`UUID` slot stays empty, and `HasUUID()` becomes false — contradicting the
relocation the claim (and the function's own comment) prescribes. The
claim's highlighted Normal → Alias case does hold. -/
theorem c6_setentrytype_dependent_to_base_keeps_slot :
    ((Record.setEntryType
        ⟨[(.ALIASUUID, .uuid (List.replicate 16 1))], [], .ET_ALIAS, .ES_CLEAN⟩
        .ET_ALIASBASE).entrytype = .ET_ALIASBASE)
    ∧ ((Record.setEntryType
        ⟨[(.ALIASUUID, .uuid (List.replicate 16 1))], [], .ET_ALIAS, .ES_CLEAN⟩
        .ET_ALIASBASE).getF .UUID = none)
    ∧ ((Record.setEntryType
        ⟨[(.ALIASUUID, .uuid (List.replicate 16 1))], [], .ET_ALIAS, .ES_CLEAN⟩
        .ET_ALIASBASE).getF .ALIASUUID = some (.uuid (List.replicate 16 1)))
    ∧ ((Record.setEntryType
        ⟨[(.ALIASUUID, .uuid (List.replicate 16 1))], [], .ET_ALIAS, .ES_CLEAN⟩
        .ET_ALIASBASE).hasUUID = false)
    ∧ ((⟨[(.UUID, .uuid (List.replicate 16 2))], [], .ET_NORMAL, .ES_CLEAN⟩ :
        Record).hasUUID = true)
    ∧ ((Record.setEntryType
        ⟨[(.UUID, .uuid (List.replicate 16 2))], [], .ET_NORMAL, .ES_CLEAN⟩
        .ET_ALIAS).getF .UUID = none)
    ∧ ((Record.setEntryType
        ⟨[(.UUID, .uuid (List.replicate 16 2))], [], .ET_NORMAL, .ES_CLEAN⟩
        .ET_ALIAS).getF .ALIASUUID = some (.uuid (List.replicate 16 2)))
    ∧ ((Record.setEntryType
        ⟨[(.UUID, .uuid (List.replicate 16 2))], [], .ET_NORMAL, .ES_CLEAN⟩
        .ET_ALIAS).hasUUID = true) := by
  decide

/-- **C3 counterexample.** The claim admits only *lowercase* hex payloads and
asserts every other password leaves the record completely unchanged. The code
lowercases the payload before the hex check, so `[[` ++ 32 × `A` ++ `]]`
(uppercase hex) is also accepted and the record is transformed. -/
theorem c3_uppercase_hex_also_parsed :
    Record.parseSpecialPasswords
        ⟨[(.UUID, .uuid (List.replicate 16 0)),
          (.PASSWORD, .txt ([lbr, lbr] ++ List.replicate 32 65 ++ [rbr, rbr]))],
          [], .ET_NORMAL, .ES_CLEAN⟩ ≠
      ⟨[(.UUID, .uuid (List.replicate 16 0)),
        (.PASSWORD, .txt ([lbr, lbr] ++ List.replicate 32 65 ++ [rbr, rbr]))],
        [], .ET_NORMAL, .ES_CLEAN⟩ := by
  decide

/-- **C3 (amended).** `ParseSpecialPasswords` installs a dependency link
exactly when the password has length 36, is enclosed in a matching bracket
pair (`[[…]]` for alias, `[~…~]` for shortcut), and its middle 32 characters
are hex digits *ignoring letter case* (the code lowercases before checking);
in that case `BASE-UUID` receives the id parsed from the lowercased payload,
the record's id moves into the `ALIAS-UUID` or `SHORTCUT-UUID` slot
according to the bracket kind, the `UUID` slot is cleared, and every other
field, the kind, and the unknown-field list are untouched. For every
password not of this (case-insensitive) shape the record is left completely
unchanged. -/
theorem c3_parse_placeholder_characterization (r : Record) (g : FieldType) :
    (¬PlaceholderShape r.getPassword → r.parseSpecialPasswords = r)
    ∧ (PlaceholderShape r.getPassword →
        (r.parseSpecialPasswords).getF .BASEUUID =
          some (.uuid (hexDecode (((r.getPassword.drop 2).take 32).map toLowerChar)))
        ∧ (r.parseSpecialPasswords).getF .UUID = none
        ∧ (r.parseSpecialPasswords).getF
            (if r.getPassword.take 2 = [lbr, lbr] then .ALIASUUID else .SHORTCUTUUID) =
          some (.uuid (r.getUUIDbytes .END))
        ∧ (r.parseSpecialPasswords).entrytype = r.entrytype
        ∧ (r.parseSpecialPasswords).urfl = r.urfl
        ∧ (g ≠ .BASEUUID → g ≠ .UUID → g ≠ .ALIASUUID → g ≠ .SHORTCUTUUID →
            (r.parseSpecialPasswords).getF g = r.getF g)) := by
  constructor
  · exact fun h => parse_noop r h
  · intro h
    rw [parse_eq_of_shape r h]
    set mid := ((r.getPassword.drop 2).take 32).map toLowerChar with hmid
    set slot : FieldType :=
      if r.getPassword.take 2 = [lbr, lbr] then .ALIASUUID else .SHORTCUTUUID with hslot
    have hslot_cases : slot = .ALIASUUID ∨ slot = .SHORTCUTUUID := by
      rw [hslot]; split <;> simp
    have hslot_ne_base : slot ≠ .BASEUUID := by
      rcases hslot_cases with h1 | h1 <;> simp [h1]
    have hslot_ne_uuid : slot ≠ .UUID := by
      rcases hslot_cases with h1 | h1 <;> simp [h1]
    refine ⟨?_, ?_, ?_, rfl, rfl, ?_⟩
    · show findF (updF (eraseF (updF r.fields .BASEUUID (.uuid (hexDecode mid))) .UUID)
        slot (.uuid _)) .BASEUUID = _
      rw [findF_updF_ne _ _ _ _ (fun e => hslot_ne_base e.symm),
        findF_eraseF_ne _ _ _ (by decide),
        findF_updF_self]
    · show findF (updF (eraseF (updF r.fields .BASEUUID (.uuid (hexDecode mid))) .UUID)
        slot (.uuid _)) .UUID = none
      rw [findF_updF_ne _ _ _ _ (fun e => hslot_ne_uuid e.symm),
        findF_eraseF_self]
    · show findF (updF (eraseF (updF r.fields .BASEUUID (.uuid (hexDecode mid))) .UUID)
        slot (.uuid ((r.setUUID (hexDecode mid) .BASEUUID).getUUIDbytes .END))) slot =
        some (.uuid (r.getUUIDbytes .END))
      rw [findF_updF_self, getUUIDbytes_setUUID_baseuuid]
    · intro h1 h2 h3 h4
      have hgslot : g ≠ slot := by
        rcases hslot_cases with h5 | h5 <;> simp [h5, h3, h4]
      show findF (updF (eraseF (updF r.fields .BASEUUID (.uuid (hexDecode mid))) .UUID)
        slot (.uuid _)) g = findF r.fields g
      rw [findF_updF_ne _ _ _ _ hgslot, findF_eraseF_ne _ _ _ h2,
        findF_updF_ne _ _ _ _ h1]

/-- **C3 witness.** A record whose password is the alias token of a concrete
16-byte id is transformed as described; a record with an ordinary password
is untouched. -/
theorem c3_parse_placeholder_characterization_witness :
    ((Record.parseSpecialPasswords
        ⟨[(.UUID, .uuid (List.replicate 16 7)),
          (.PASSWORD, .txt (aliasToken (List.replicate 16 171)))],
          [], .ET_NORMAL, .ES_CLEAN⟩).getF .BASEUUID =
      some (.uuid (hexDecode ((((Record.getPassword
        ⟨[(.UUID, .uuid (List.replicate 16 7)),
          (.PASSWORD, .txt (aliasToken (List.replicate 16 171)))],
          [], .ET_NORMAL, .ES_CLEAN⟩).drop 2).take 32).map toLowerChar))))
    ∧ (Record.parseSpecialPasswords
        ⟨[(.UUID, .uuid (List.replicate 16 7)), (.PASSWORD, .txt [112, 49])],
          [], .ET_NORMAL, .ES_CLEAN⟩ =
      ⟨[(.UUID, .uuid (List.replicate 16 7)), (.PASSWORD, .txt [112, 49])],
        [], .ET_NORMAL, .ES_CLEAN⟩) :=
  ⟨((c3_parse_placeholder_characterization _ .TITLE).2 (by decide)).1,
   (c3_parse_placeholder_characterization _ .TITLE).1 (by decide)⟩

/-- **C4.** For a dependent record with a populated, well-formed `BASE-UUID`
and a populated id slot, `SetSpecialPasswords` followed by
`ParseSpecialPasswords` restores the original `BASE-UUID` and the matching
id-type slot; and the record a legacy `Write` leaves in memory carries the
same password value as before the write (the placeholder never persists). -/
theorem c4_encode_decode_restores_link (r : Record) (a b : Bytes)
    (hdep : r.entrytype = .ET_ALIAS ∨ r.entrytype = .ET_SHORTCUT)
    (hbase : r.getF .BASEUUID = some (.uuid b))
    (hlen : b.length = 16) (hb : ∀ x ∈ b, x < 256)
    (hslot : r.getF (slotOfKind r.entrytype) = some (.uuid a)) :
    ((r.setSpecialPasswords.parseSpecialPasswords).getF .BASEUUID = some (.uuid b))
    ∧ ((r.setSpecialPasswords.parseSpecialPasswords).getF (slotOfKind r.entrytype) =
        some (.uuid a))
    ∧ ((writeV3 r).2.getPassword = r.getPassword) := by
  have hne : r.isDependent = true := by
    rcases hdep with h | h <;> simp [Record.isDependent, h]
  have hbase_raw : r.getUUIDbytes .BASEUUID = b := by
    unfold Record.getUUIDbytes
    simp [show (FieldType.BASEUUID = .END) = False from by simp, hbase, FieldVal.raw]
  -- the token SetSpecialPasswords installs
  have hta : r.setSpecialPasswords =
      r.setPassword (if r.isAlias then aliasToken b
        else if r.isShortcut then shortcutToken b else []) := by
    unfold Record.setSpecialPasswords
    rw [if_pos hne, hbase_raw]
  rcases hdep with hk | hk
  · -- alias
    have hAl : r.isAlias = true := by simp [Record.isAlias, hk]
    have htok : r.setSpecialPasswords = r.setPassword (aliasToken b) := by
      rw [hta, if_pos hAl]
    have hpw2 : (r.setSpecialPasswords).getPassword = aliasToken b := by
      rw [htok]
      unfold Record.getPassword Record.getFieldStr Record.setPassword Record.setF Record.getF
      simp [findF_updF_self, FieldVal.raw]
    have hshape : PlaceholderShape (r.setSpecialPasswords).getPassword := by
      rw [hpw2]; exact aliasToken_shape b hlen hb
    have hparse := parse_eq_of_shape _ hshape
    rw [hpw2] at hparse
    rw [aliasToken_decode b hlen hb] at hparse
    rw [if_pos (aliasToken_take2 b)] at hparse
    -- the id read back mid-parse is the original slot value
    have hety : (r.setSpecialPasswords).entrytype = r.entrytype := by
      rw [htok]; rfl
    have hid : ((r.setSpecialPasswords).setUUID b .BASEUUID).getUUIDbytes .END = a := by
      rw [getUUIDbytes_setUUID_baseuuid]
      unfold Record.getUUIDbytes
      rw [if_pos rfl, hety, hk]
      have : (r.setSpecialPasswords).getF (slotOfKind .ET_ALIAS) =
          r.getF (slotOfKind .ET_ALIAS) := by
        rw [htok]
        unfold Record.setPassword Record.setF Record.getF
        exact findF_updF_ne _ _ _ _ (by decide)
      rw [hk] at hslot
      rw [show slotOfKind .ET_ALIAS = .ALIASUUID from rfl] at this hslot
      show (match (r.setSpecialPasswords).getF .ALIASUUID with
        | none => List.replicate 16 0
        | some v => v.raw) = a
      rw [this, hslot]
      rfl
    rw [hid] at hparse
    rw [hparse, hk]
    refine ⟨?_, ?_, ?_⟩
    · show findF (updF (eraseF (updF (r.setSpecialPasswords).fields .BASEUUID
        (.uuid b)) .UUID) .ALIASUUID (.uuid a)) .BASEUUID = some (.uuid b)
      rw [findF_updF_ne _ _ _ _ (by decide), findF_eraseF_ne _ _ _ (by decide),
        findF_updF_self]
    · show findF (updF (eraseF (updF (r.setSpecialPasswords).fields .BASEUUID
        (.uuid b)) .UUID) .ALIASUUID (.uuid a)) (slotOfKind .ET_ALIAS) =
        some (.uuid a)
      rw [show slotOfKind .ET_ALIAS = .ALIASUUID from rfl, findF_updF_self]
    · show ((r.setSpecialPasswords).setPassword r.getPassword).getPassword =
        r.getPassword
      unfold Record.getPassword Record.getFieldStr Record.setPassword Record.setF
        Record.getF
      simp [findF_updF_self, FieldVal.raw]
  · -- shortcut
    have hSh : r.isShortcut = true := by simp [Record.isShortcut, hk]
    have hAl : r.isAlias = false := by simp [Record.isAlias, hk]
    have htok : r.setSpecialPasswords = r.setPassword (shortcutToken b) := by
      rw [hta, if_neg (by simp [hAl]), if_pos hSh]
    have hpw2 : (r.setSpecialPasswords).getPassword = shortcutToken b := by
      rw [htok]
      unfold Record.getPassword Record.getFieldStr Record.setPassword Record.setF Record.getF
      simp [findF_updF_self, FieldVal.raw]
    have hshape : PlaceholderShape (r.setSpecialPasswords).getPassword := by
      rw [hpw2]; exact shortcutToken_shape b hlen hb
    have hparse := parse_eq_of_shape _ hshape
    rw [hpw2] at hparse
    rw [shortcutToken_decode b hlen hb] at hparse
    have hnotal : ((shortcutToken b).take 2 = [lbr, lbr]) = False := by
      rw [shortcutToken_take2]; simp [lbr, tld]
    rw [if_neg (by simp [hnotal])] at hparse
    have hety : (r.setSpecialPasswords).entrytype = r.entrytype := by
      rw [htok]; rfl
    have hid : ((r.setSpecialPasswords).setUUID b .BASEUUID).getUUIDbytes .END = a := by
      rw [getUUIDbytes_setUUID_baseuuid]
      unfold Record.getUUIDbytes
      rw [if_pos rfl, hety, hk]
      have : (r.setSpecialPasswords).getF (slotOfKind .ET_SHORTCUT) =
          r.getF (slotOfKind .ET_SHORTCUT) := by
        rw [htok]
        unfold Record.setPassword Record.setF Record.getF
        exact findF_updF_ne _ _ _ _ (by decide)
      rw [hk] at hslot
      rw [show slotOfKind .ET_SHORTCUT = .SHORTCUTUUID from rfl] at this hslot
      show (match (r.setSpecialPasswords).getF .SHORTCUTUUID with
        | none => List.replicate 16 0
        | some v => v.raw) = a
      rw [this, hslot]
      rfl
    rw [hid] at hparse
    rw [hparse, hk]
    refine ⟨?_, ?_, ?_⟩
    · show findF (updF (eraseF (updF (r.setSpecialPasswords).fields .BASEUUID
        (.uuid b)) .UUID) .SHORTCUTUUID (.uuid a)) .BASEUUID = some (.uuid b)
      rw [findF_updF_ne _ _ _ _ (by decide), findF_eraseF_ne _ _ _ (by decide),
        findF_updF_self]
    · show findF (updF (eraseF (updF (r.setSpecialPasswords).fields .BASEUUID
        (.uuid b)) .UUID) .SHORTCUTUUID (.uuid a)) (slotOfKind .ET_SHORTCUT) =
        some (.uuid a)
      rw [show slotOfKind .ET_SHORTCUT = .SHORTCUTUUID from rfl, findF_updF_self]
    · show ((r.setSpecialPasswords).setPassword r.getPassword).getPassword =
        r.getPassword
      unfold Record.getPassword Record.getFieldStr Record.setPassword Record.setF
        Record.getF
      simp [findF_updF_self, FieldVal.raw]

/-- **C4 witness.** A concrete alias whose `BASE-UUID` is 16 × `0xab`. -/
theorem c4_encode_decode_restores_link_witness :
    ((Record.setSpecialPasswords
        ⟨[(.ALIASUUID, .uuid (List.replicate 16 7)),
          (.BASEUUID, .uuid (List.replicate 16 171)),
          (.PASSWORD, .txt [112, 49])], [], .ET_ALIAS, .ES_CLEAN⟩).parseSpecialPasswords.getF
        .BASEUUID = some (.uuid (List.replicate 16 171)))
    ∧ ((writeV3 ⟨[(.ALIASUUID, .uuid (List.replicate 16 7)),
          (.BASEUUID, .uuid (List.replicate 16 171)),
          (.PASSWORD, .txt [112, 49])], [], .ET_ALIAS, .ES_CLEAN⟩).2.getPassword =
        [112, 49]) :=
  ⟨(c4_encode_decode_restores_link _ (List.replicate 16 7) (List.replicate 16 171)
      (by decide) (by decide) (by decide) (by decide) (by decide)).1,
   (c4_encode_decode_restores_link _ (List.replicate 16 7) (List.replicate 16 171)
      (by decide) (by decide) (by decide) (by decide) (by decide)).2.2⟩

theorem readLoop_take (fuel : Nat) : ∀ (s : List Chunk) (r : Record) (n : Nat),
    fuel ≤ s.length → readLoop fuel s r n = readLoop fuel (s.take fuel) r n := by
  induction fuel with
  | zero => intro s r n _; cases s <;> rfl
  | succ fuel ih =>
    intro s r n h
    cases s with
    | nil => rfl
    | cons c rest =>
      obtain ⟨t, d⟩ := c
      have hrest : fuel ≤ rest.length := by
        simp only [List.length_cons] at h; omega
      show readLoop (fuel + 1) ((t, d) :: rest) r n =
        readLoop (fuel + 1) ((t, d) :: rest.take fuel) r n
      simp only [readLoop]
      by_cases h1 : isItemDataCode t = true
      · simp only [h1, if_true]
        cases hsf : setFieldFn t d with
        | none => rfl
        | some f =>
          by_cases h2 : fuel = 0
          · subst h2; rfl
          · simp only [h2, if_false]
            exact ih rest (f r) _ hrest
      · simp only [h1, if_false, Bool.not_eq_true] at h1 ⊢
        by_cases h3 : isItemAttCode t = true
        · simp [h3]
        · simp only [eq_false_of_ne_true h3]
          by_cases h4 : t = 0xff
          · simp [h4]
          · simp only [h4, if_false]
            by_cases h2 : fuel = 0
            · subst h2; rfl
            · simp only [h2, if_false]
              exact ih rest _ _ hrest

theorem readLoop_data_progress (fuel : Nat) : ∀ (s : List Chunk) (r : Record) (n : Nat),
    0 < fuel → fuel ≤ s.length → (∀ c ∈ s.take fuel, okDataChunk c) →
    ∃ r2 n2, readLoop fuel s r n = .normal false r2 n2 ∧ n < n2 := by
  induction fuel with
  | zero => intro s r n h; omega
  | succ fuel ih =>
    intro s r n _ hlen hok
    cases s with
    | nil => simp at hlen
    | cons c rest =>
      obtain ⟨t, d⟩ := c
      obtain ⟨hdata, hsome⟩ := hok (t, d) (by
        show (t, d) ∈ ((t, d) :: rest).take (fuel + 1)
        simp [List.take])
      obtain ⟨f, hf⟩ := Option.isSome_iff_exists.1 hsome
      have hrest : fuel ≤ rest.length := by
        simp only [List.length_cons] at hlen; omega
      simp only [readLoop, hdata, if_true, hf]
      by_cases h2 : fuel = 0
      · refine ⟨f r, n + (d.length + 5), by simp [h2], by omega⟩
      · simp only [h2, if_false]
        obtain ⟨r2, n2, heq, hlt⟩ := ih rest (f r) (n + (d.length + 5))
          (Nat.pos_of_ne_zero h2) hrest
          (fun c hc => hok c (List.mem_cons_of_mem _ hc))
        exact ⟨r2, n2, heq, by omega⟩

/-- **C5 counterexample.** A stream of 256 recognized chunks before the
`END` terminator: `Read` returns `SUCCESS`, not a failure status — the
`emergencyExit` counter only stops the loop, after which `numread > 0`
leads to the normal success path with a silently truncated record. -/
theorem c5_overlong_stream_reads_success :
    (readPWS ((0x01, List.replicate 16 0) :: List.replicate 255 (0x03, [65])
      ++ [(0xff, [])])).1 = ReadRet.success := by
  decide

/-- **C5 (amended).** The 255-chunk cap stops the loop rather than failing:
for every input stream whose first 255 chunks are well-formed recognized
fields (so the `END` terminator, if any, lies beyond the cap), `Read`
consumes only the first 255 chunks and returns `SUCCESS` — a silently
truncated record, not a decode failure. -/
theorem c5_chunk_cap_truncates_with_success (s : List Chunk)
    (hlen : 255 ≤ s.length) (hok : ∀ c ∈ s.take 255, okDataChunk c) :
    (readPWS s).1 = ReadRet.success ∧ readPWS s = readPWS (s.take 255) := by
  constructor
  · obtain ⟨r2, n2, heq, hlt⟩ :=
      readLoop_data_progress 255 s clearedRecord 0 (by omega) hlen hok
    unfold readPWS
    rw [heq]
    simp [hlt]
  · unfold readPWS
    rw [readLoop_take 255 s clearedRecord 0 hlen,
      show s.take 255 = (s.take 255).take 255 from by simp]

/-- **C5 witness.** The 256-chunk stream again, through the amended
theorem. -/
theorem c5_chunk_cap_truncates_with_success_witness :
    (readPWS ((0x01, List.replicate 16 0) :: List.replicate 255 (0x03, [66])
      ++ [(0xff, [])])).1 = ReadRet.success :=
  (c5_chunk_cap_truncates_with_success _
    (by simp [List.length_cons, List.length_append, List.length_replicate])
    (by decide)).1

theorem sublist_append_lift {l m : List Chunk} (pre : List Chunk)
    (h : List.Sublist l m) : List.Sublist l (pre ++ m) :=
  h.trans (List.sublist_append_right pre m)

theorem readPWS_eq_success (s : List Chunk) (r2 : Record) (n2 : Nat)
    (h : readLoop 255 s clearedRecord 0 = .normal false r2 n2) (hpos : 0 < n2) :
    readPWS s = (.success, (r2.parseSpecialPasswords).inferKindFromSlots) := by
  unfold readPWS
  rw [h]
  simp [hpos]

theorem setSpecialPasswords_urfl (r : Record) :
    (r.setSpecialPasswords).urfl = r.urfl := by
  unfold Record.setSpecialPasswords
  split <;> rfl

set_option maxHeartbeats 2000000 in
/-- **C8.** Unknown-field preservation. First conjunct: every record's
stored unknown fields are re-emitted, in order and byte-identical, by a
legacy `Write` (`WriteUnknowns` runs inside `WriteCommon`). Remaining
conjuncts: reading a stream whose middle chunk carries a tag that is
neither a recognized item-data field, nor an attachment tag, nor `END`,
stores that chunk as an unknown field with its exact tag and bytes, and
writing the resulting record re-emits the whole stream byte-identically. -/
theorem c8_unknown_field_preservation (r : Record) (t : Nat) (d u : Bytes)
    (hnd : isItemDataCode t = false) (hna : isItemAttCode t = false)
    (hne : t ≠ 0xff) (hu : u.length = 16) :
    List.Sublist r.urfl (writeV3 r).1
    ∧ (readPWS [(0x01, u), (t, d), (0xff, [])]).2.urfl = [(t, d)]
    ∧ (writeV3 (readPWS [(0x01, u), (t, d), (0xff, [])]).2).1 =
        [(0x01, u), (t, d), (0xff, [])] := by
  have htake : u.take 16 = u := by rw [← hu]; exact List.take_length u
  have hsub : List.Sublist r.urfl (writeV3 r).1 := by
    show List.Sublist r.urfl
      ((fieldCode .UUID, r.getUUIDbytes r.writeSlot) ::
        writeCommonChunks r.setSpecialPasswords 4)
    refine List.Sublist.cons _ ?_
    unfold writeCommonChunks writeCommonBody
    rw [setSpecialPasswords_urfl]
    exact ((List.sublist_append_right _ _).trans (List.sublist_append_left _ _))
  have hstep1 : setFieldFn 0x01 u = some (fun r => r.setUUID (u.take 16) .UUID) := by
    have : ¬(u.length < 16) := by omega
    simp [setFieldFn, decodeTag, this]
  have hd1 : isItemDataCode 0x01 = true := by decide
  have hd255 : isItemDataCode 0xff = false := by decide
  have ha255 : isItemAttCode 0xff = false := by decide
  have hloop : readLoop 255 [(0x01, u), (t, d), (0xff, [])] clearedRecord 0 =
      .normal false ⟨[(.UUID, .uuid u)], [(t, d)], .ET_NORMAL, .ES_CLEAN⟩
        (u.length + 5 + (d.length + 5) + 5) := by
    simp only [readLoop, hstep1, hnd, hna, hne, htake, hd1, hd255, ha255]
    norm_num [clearedRecord, Record.setUUID, Record.setF, Record.addUnknown, updF]
  have hnoop : Record.parseSpecialPasswords
      ⟨[(.UUID, .uuid u)], [(t, d)], .ET_NORMAL, .ES_CLEAN⟩ =
      ⟨[(.UUID, .uuid u)], [(t, d)], .ET_NORMAL, .ES_CLEAN⟩ :=
    parse_noop _ (by
      show ¬PlaceholderShape ([] : Bytes)
      decide)
  have hread : (readPWS [(0x01, u), (t, d), (0xff, [])]).2 =
      ⟨[(.UUID, .uuid u)], [(t, d)], .ET_NORMAL, .ES_CLEAN⟩ := by
    have h1 := readPWS_eq_success _ _ _ hloop (by omega)
    rw [h1, hnoop]
    rfl
  refine ⟨hsub, ?_, ?_⟩
  · rw [hread]
  · rw [hread]
    rfl

/-- **C8 witness.** Tag `0xe0` with payload `[1, 2, 3]` survives a read/write
round-trip byte-identically. -/
theorem c8_unknown_field_preservation_witness :
    (readPWS [(0x01, List.replicate 16 9), (0xe0, [1, 2, 3]), (0xff, [])]).2.urfl =
      [(0xe0, [1, 2, 3])]
    ∧ (writeV3 (readPWS [(0x01, List.replicate 16 9), (0xe0, [1, 2, 3]),
        (0xff, [])]).2).1 =
      [(0x01, List.replicate 16 9), (0xe0, [1, 2, 3]), (0xff, [])] :=
  ⟨(c8_unknown_field_preservation clearedRecord 0xe0 [1, 2, 3] (List.replicate 16 9)
      (by decide) (by decide) (by decide) (by decide)).2.1,
   (c8_unknown_field_preservation clearedRecord 0xe0 [1, 2, 3] (List.replicate 16 9)
      (by decide) (by decide) (by decide) (by decide)).2.2⟩

theorem hexValN_acc (l : Bytes) : ∀ a : Nat,
    List.foldl (fun acc c => acc * 16 + hexCharVal c) a l =
      a * 16 ^ l.length + hexValN l := by
  induction l with
  | nil => intro a; simp [hexValN]
  | cons c rest ih =>
    intro a
    have h1 : hexValN (c :: rest) = hexCharVal c * 16 ^ rest.length + hexValN rest := by
      show List.foldl _ (0 * 16 + hexCharVal c) rest = _
      rw [ih (0 * 16 + hexCharVal c)]
      ring
    show List.foldl _ (a * 16 + hexCharVal c) rest =
      a * 16 ^ (c :: rest).length + hexValN (c :: rest)
    rw [ih (a * 16 + hexCharVal c), h1, List.length_cons, pow_succ]
    ring

theorem hexValN_append (l1 l2 : Bytes) :
    hexValN (l1 ++ l2) = hexValN l1 * 16 ^ l2.length + hexValN l2 := by
  unfold hexValN
  rw [List.foldl_append]
  exact hexValN_acc l2 _

theorem hexValN_hex2 (m : Nat) : hexValN (hex2 m) = m % 256 := by
  unfold hexValN hex2
  simp only [List.foldl]
  rw [hexCharVal_hexDigitChar _ (Nat.mod_lt _ (by omega)),
    hexCharVal_hexDigitChar _ (Nat.mod_lt _ (by omega))]
  omega

theorem hexValN_hex4 (m : Nat) : hexValN (hex4 m) = m % 65536 := by
  unfold hex4
  rw [hexValN_append, hexValN_hex2, hexValN_hex2]
  have : (hex2 (m % 256)).length = 2 := rfl
  rw [this]
  omega

theorem hexValN_hex8 (m : Nat) : hexValN (hex8 m) = m % 4294967296 := by
  unfold hex8
  rw [hexValN_append, hexValN_hex4, hexValN_hex4]
  have : (hex4 (m % 65536)).length = 4 := rfl
  rw [this]
  omega

theorem updatePasswordHistory_off (r : Record) (prefs : Prefs)
    (hoff : effectiveSaving r prefs = false) :
    r.updatePasswordHistory prefs = r := by
  unfold Record.updatePasswordHistory
  unfold effectiveSaving at hoff
  by_cases he : r.getPWHistoryStr = []
  · rw [if_pos he] at hoff
    simp [he, hoff]
  · rw [if_neg he] at hoff
    simp [he, hoff]

theorem updatePasswordHistory_on (r : Record) (prefs : Prefs)
    (hon : effectiveSaving r prefs = true) :
    r.updatePasswordHistory prefs =
      r.setPWHistory (pwhlToStr (r.histAfterUpdate prefs)) := by
  unfold Record.updatePasswordHistory Record.histAfterUpdate
  unfold effectiveSaving at hon
  by_cases he : r.getPWHistoryStr = []
  · rw [if_pos he] at hon
    simp [he, hon]
  · rw [if_neg he] at hon
    simp [he, hon]

theorem updatePassword_parts (r : Record) (prefs : Prefs) (pw : Bytes)
    (tNow : Int) :
    (r.updatePassword prefs pw tNow).getF .PWHIST =
      (r.updatePasswordHistory prefs).getF .PWHIST
    ∧ (r.updatePassword prefs pw tNow).getPassword = pw
    ∧ (r.updatePassword prefs pw tNow).getTimeV .PMTIME = tNow := by
  have key : ∀ (r1 : Record) (x : Int),
      ((((r1.setPassword pw).setTimeV .PMTIME tNow).setTimeV .XTIME x).getF .PWHIST =
        r1.getF .PWHIST)
      ∧ ((((r1.setPassword pw).setTimeV .PMTIME tNow).setTimeV .XTIME x).getPassword = pw)
      ∧ ((((r1.setPassword pw).setTimeV .PMTIME tNow).setTimeV .XTIME x).getTimeV
          .PMTIME = tNow) := by
    intro r1 x
    refine ⟨?_, ?_, ?_⟩
    · show findF (updF (updF (updF r1.fields .PASSWORD (.txt pw)) .PMTIME (.tm tNow))
        .XTIME (.tm x)) .PWHIST = findF r1.fields .PWHIST
      rw [findF_updF_ne _ _ _ _ (by decide), findF_updF_ne _ _ _ _ (by decide),
        findF_updF_ne _ _ _ _ (by decide)]
    · show (match findF (updF (updF (updF r1.fields .PASSWORD (.txt pw)) .PMTIME
        (.tm tNow)) .XTIME (.tm x)) .PASSWORD with
        | none => ([] : Bytes) | some v => v.raw) = pw
      rw [findF_updF_ne _ _ _ _ (by decide), findF_updF_ne _ _ _ _ (by decide),
        findF_updF_self]
      rfl
    · show (match findF (updF (updF (updF r1.fields .PASSWORD (.txt pw)) .PMTIME
        (.tm tNow)) .XTIME (.tm x)) .PMTIME with
        | some (.tm t) => t | _ => 0) = tNow
      rw [findF_updF_ne _ _ _ _ (by decide), findF_updF_self]
  have hform : r.updatePassword prefs pw tNow =
      (((r.updatePasswordHistory prefs).setPassword pw).setTimeV .PMTIME
        tNow).setTimeV .XTIME
        (if (((r.updatePasswordHistory prefs).setPassword pw).setTimeV .PMTIME
            tNow).getXTimeInt ≠ 0
          then tNow + (((r.updatePasswordHistory prefs).setPassword pw).setTimeV
            .PMTIME tNow).getXTimeInt * 86400
          else 0) := by
    by_cases hx : (((r.updatePasswordHistory prefs).setPassword pw).setTimeV
        .PMTIME tNow).getXTimeInt ≠ 0
    · simp [Record.updatePassword, hx]
    · simp [Record.updatePassword, hx]
  rw [hform]
  exact key _ _

/-- **C7 counterexample.** The concrete scenario as the claim states it: a
record with title "Bank" and password "p1" (no prior timestamps),
password-update to "p2" at time T = 1000 with history saving enabled. The
appended history entry carries change time 0 — the record's *previous*
password-modified time (unset), not the update time T — so the log differs
from the claimed one-entry log ("p1", T). -/
theorem c7_history_entry_not_stamped_with_update_time :
    (Record.updatePassword
        ⟨[(.TITLE, .txt [66, 97, 110, 107]), (.PASSWORD, .txt [112, 49])],
          [], .ET_NORMAL, .ES_CLEAN⟩ ⟨true, 3⟩ [112, 50] 1000).getF .PWHIST =
      some (.txt (pwhlToStr ⟨true, 3, [([112, 49], 0)]⟩))
    ∧ (parsePWHist (pwhlToStr ⟨true, 3, [([112, 49], 0)]⟩)).entries = [([112, 49], 0)]
    ∧ pwhlToStr ⟨true, 3, [([112, 49], 0)]⟩ ≠
        pwhlToStr ⟨true, 3, [([112, 49], 1000)]⟩ := by
  decide

theorem pwhlToStr_true_cons (M : Nat) (E : List (Bytes × Int)) :
    ∃ tail, pwhlToStr ⟨true, M, E⟩ = 49 :: tail := ⟨_, rfl⟩

theorem parse_pwhl_single (M : Nat) (hM : 1 ≤ M) (p : Bytes) (T : Int)
    (hT0 : 0 ≤ T) (hT32 : T < 4294967296) (hp : p.length < 65536) :
    (parsePWHist (pwhlToStr ⟨true, M, [(p, T)]⟩)).entries = [(p, T)] := by
  have hkept : ([(p, T)] : List (Bytes × Int)).drop (1 - M) = [(p, T)] := by
    rw [show 1 - M = 0 from by omega]
    exact List.drop_zero _
  have hTn : ((T % 4294967296).toNat : Int) = T := by
    have h1 : T % 4294967296 = T := Int.emod_eq_of_lt hT0 hT32
    rw [h1]
    exact Int.toNat_of_nonneg hT0
  have hTlt : (T % 4294967296).toNat < 4294967296 := by
    have h1 : T % 4294967296 = T := Int.emod_eq_of_lt hT0 hT32
    omega
  have hshape : pwhlToStr ⟨true, M, [(p, T)]⟩ =
      49 :: (hex2 M ++ (hex2 1 ++ ((hex8 (T % 4294967296).toNat ++ hex4 p.length) ++ p))) := by
    show [49] ++ hex2 M ++ hex2 (([(p, T)].drop (1 - M)).length) ++
      ([(p, T)].drop (1 - M)).flatMap
        (fun e => hex8 (e.2 % 4294967296).toNat ++ hex4 e.1.length ++ e.1) = _
    rw [hkept]
    simp [List.append_assoc]
  rw [hshape]
  set Y : Bytes := (hex8 (T % 4294967296).toNat ++ hex4 p.length) ++ p with hY
  set rest : Bytes := hex2 M ++ (hex2 1 ++ Y) with hrest
  show parseHistEntries (hexValN ((rest.drop 2).take 2)) (rest.drop 4) = [(p, T)]
  have hd2 : rest.drop 2 = hex2 1 ++ Y := by
    rw [hrest, show (2 : Nat) = (hex2 M).length from rfl, List.drop_left]
  have hcount : hexValN ((rest.drop 2).take 2) = 1 := by
    rw [hd2, show (2 : Nat) = (hex2 1).length from rfl, List.take_left]
    decide
  have hd4 : rest.drop 4 = Y := by
    rw [hrest, show hex2 M ++ (hex2 1 ++ Y) = (hex2 M ++ hex2 1) ++ Y from by
      rw [List.append_assoc],
      show (4 : Nat) = (hex2 M ++ hex2 1).length from by
        rw [List.length_append]; rfl,
      List.drop_left]
  rw [hcount, hd4]
  -- now parse the single entry
  have hYassoc : Y = hex8 (T % 4294967296).toNat ++ (hex4 p.length ++ p) := by
    rw [hY, List.append_assoc]
  have hlen8 : (hex8 (T % 4294967296).toNat).length = 8 := rfl
  have hlen4 : (hex4 p.length).length = 4 := rfl
  have hlenY : Y.length = 12 + p.length := by
    rw [hY]
    simp [List.length_append, hlen8, hlen4]
    omega
  have htake8 : Y.take 8 = hex8 (T % 4294967296).toNat := by
    rw [hYassoc, show (8 : Nat) = (hex8 (T % 4294967296).toNat).length from rfl,
      List.take_left]
  have hdrop8 : Y.drop 8 = hex4 p.length ++ p := by
    rw [hYassoc, show (8 : Nat) = (hex8 (T % 4294967296).toNat).length from rfl,
      List.drop_left]
  have htake4 : (Y.drop 8).take 4 = hex4 p.length := by
    rw [hdrop8, show (4 : Nat) = (hex4 p.length).length from rfl, List.take_left]
  have hdrop12 : Y.drop 12 = p := by
    rw [hY, show (12 : Nat) = (hex8 (T % 4294967296).toNat ++ hex4 p.length).length
      from by rw [List.length_append, hlen8, hlen4], List.drop_left]
  have hlenval : hexValN ((Y.drop 8).take 4) = p.length := by
    rw [htake4, hexValN_hex4]
    omega
  have htval : hexValN (Y.take 8) = (T % 4294967296).toNat := by
    rw [htake8, hexValN_hex8]
    omega
  show (if Y.length < 12 then ([] : List (Bytes × Int))
    else ((Y.drop 12).take (hexValN ((Y.drop 8).take 4)),
        (hexValN (Y.take 8) : Int)) ::
      parseHistEntries 0 (Y.drop (12 + hexValN ((Y.drop 8).take 4)))) = [(p, T)]
  rw [if_neg (by omega), hlenval, htval, hdrop12, List.take_length, hTn]
  rfl

/-- **C7 (amended).** The password-update path: when history saving is
effectively disabled for the record (stored flag, or preference default when
no history line exists), updating the password leaves the history field
unchanged; when enabled, the history field becomes the re-encoded log with
one `(old password, change time)` entry appended — where the change time is
the record's *previous* password-modified time (falling back to its creation
time), not the update time — and re-encoding evicts oldest entries first
beyond the cap. Concrete scenario: a record with title "Bank", password
"p1" and password-modified time `tPrev`, updated to "p2" at time `tNow`
with saving enabled and a positive cap, ends with a history log of exactly
one entry `("p1", tPrev)`, password "p2", and password-modified time
`tNow`. -/
theorem c7_password_update_history (r : Record) (prefs : Prefs) (pw : Bytes)
    (tNow tPrev : Int)
    (hsave : prefs.savePasswordHistory = true)
    (hmax : 1 ≤ prefs.numPWHistoryDefault)
    (hprev0 : 0 < tPrev) (hprev32 : tPrev < 4294967296) :
    (effectiveSaving r prefs = false →
      (r.updatePassword prefs pw tNow).getF .PWHIST = r.getF .PWHIST)
    ∧ (effectiveSaving r prefs = true →
      (r.updatePassword prefs pw tNow).getF .PWHIST =
        (r.setPWHistory (pwhlToStr (r.histAfterUpdate prefs))).getF .PWHIST)
    ∧ ((Record.updatePassword
        ⟨[(.TITLE, .txt [66, 97, 110, 107]), (.PASSWORD, .txt [112, 49]),
          (.PMTIME, .tm tPrev)], [], .ET_NORMAL, .ES_CLEAN⟩
        prefs [112, 50] tNow).getF .PWHIST =
      some (.txt (pwhlToStr ⟨true, prefs.numPWHistoryDefault, [([112, 49], tPrev)]⟩)))
    ∧ ((parsePWHist (pwhlToStr ⟨true, prefs.numPWHistoryDefault,
        [([112, 49], tPrev)]⟩)).entries = [([112, 49], tPrev)])
    ∧ ((Record.updatePassword
        ⟨[(.TITLE, .txt [66, 97, 110, 107]), (.PASSWORD, .txt [112, 49]),
          (.PMTIME, .tm tPrev)], [], .ET_NORMAL, .ES_CLEAN⟩
        prefs [112, 50] tNow).getPassword = [112, 50])
    ∧ ((Record.updatePassword
        ⟨[(.TITLE, .txt [66, 97, 110, 107]), (.PASSWORD, .txt [112, 49]),
          (.PMTIME, .tm tPrev)], [], .ET_NORMAL, .ES_CLEAN⟩
        prefs [112, 50] tNow).getTimeV .PMTIME = tNow) := by
  set B : Record :=
    ⟨[(.TITLE, .txt [66, 97, 110, 107]), (.PASSWORD, .txt [112, 49]),
      (.PMTIME, .tm tPrev)], [], .ET_NORMAL, .ES_CLEAN⟩ with hB
  have hBstr : B.getPWHistoryStr = [] := rfl
  have hBsave : effectiveSaving B prefs = true := by
    unfold effectiveSaving
    rw [hBstr, if_pos rfl, hsave]
  have hBafter : B.histAfterUpdate prefs =
      ⟨true, prefs.numPWHistoryDefault, [([112, 49], tPrev)]⟩ := by
    unfold Record.histAfterUpdate
    rw [hBstr]
    have hpm : B.getTimeV .PMTIME = tPrev := rfl
    have hnz : ¬B.getTimeV .PMTIME = 0 := by rw [hpm]; omega
    simp only [if_pos rfl, hnz, parsePWHist, hsave, if_true, ite_true, ne_eq,
      not_false_eq_true]
    rw [hpm]
    rfl
  have hBhist : (B.updatePassword prefs [112, 50] tNow).getF .PWHIST =
      some (.txt (pwhlToStr ⟨true, prefs.numPWHistoryDefault, [([112, 49], tPrev)]⟩)) := by
    rw [(updatePassword_parts B prefs [112, 50] tNow).1,
      updatePasswordHistory_on B prefs hBsave, hBafter]
    obtain ⟨tl, htl⟩ := pwhlToStr_true_cons prefs.numPWHistoryDefault [([112, 49], tPrev)]
    show findF (updF B.fields .PWHIST (.txt (if pwhlToStr ⟨true, prefs.numPWHistoryDefault,
      [([112, 49], tPrev)]⟩ = [48] ∨ pwhlToStr ⟨true, prefs.numPWHistoryDefault,
      [([112, 49], tPrev)]⟩ = [48, 48, 48, 48, 48] then [] else pwhlToStr
      ⟨true, prefs.numPWHistoryDefault, [([112, 49], tPrev)]⟩))) .PWHIST = _
    rw [findF_updF_self, if_neg (by rw [htl]; simp)]
  refine ⟨?_, ?_, hBhist, ?_, ?_, ?_⟩
  · intro hoff
    rw [(updatePassword_parts r prefs pw tNow).1, updatePasswordHistory_off r prefs hoff]
  · intro hon
    rw [(updatePassword_parts r prefs pw tNow).1, updatePasswordHistory_on r prefs hon]
  · exact parse_pwhl_single prefs.numPWHistoryDefault hmax [112, 49] tPrev
      (by omega) hprev32 (by decide)
  · exact (updatePassword_parts B prefs [112, 50] tNow).2.1
  · exact (updatePassword_parts B prefs [112, 50] tNow).2.2

/-- **C7 witness.** The Bank scenario with `tPrev = 500`, `tNow = 1000`, cap
3; plus the disabled case on a record whose stored history line turns saving
off. -/
theorem c7_password_update_history_witness :
    ((Record.updatePassword
        ⟨[(.TITLE, .txt [66, 97, 110, 107]), (.PASSWORD, .txt [112, 49]),
          (.PMTIME, .tm 500)], [], .ET_NORMAL, .ES_CLEAN⟩
        ⟨true, 3⟩ [112, 50] 1000).getF .PWHIST =
      some (.txt (pwhlToStr ⟨true, 3, [([112, 49], 500)]⟩)))
    ∧ ((parsePWHist (pwhlToStr ⟨true, 3, [([112, 49], 500)]⟩)).entries =
        [([112, 49], 500)])
    ∧ ((Record.updatePassword
        ⟨[(.TITLE, .txt [66, 97, 110, 107]), (.PASSWORD, .txt [112, 49]),
          (.PMTIME, .tm 500)], [], .ET_NORMAL, .ES_CLEAN⟩
        ⟨true, 3⟩ [112, 50] 1000).getTimeV .PMTIME = 1000)
    ∧ ((Record.updatePassword
        ⟨[(.PWHIST, .txt [48, 48, 51, 48, 48])], [], .ET_NORMAL, .ES_CLEAN⟩
        ⟨true, 3⟩ [112, 50] 1000).getF .PWHIST =
      (⟨[(.PWHIST, .txt [48, 48, 51, 48, 48])], [], .ET_NORMAL,
        .ES_CLEAN⟩ : Record).getF .PWHIST) :=
  ⟨(c7_password_update_history clearedRecord ⟨true, 3⟩ [] 1000 500 rfl (by decide)
      (by decide) (by decide)).2.2.1,
   (c7_password_update_history clearedRecord ⟨true, 3⟩ [] 1000 500 rfl (by decide)
      (by decide) (by decide)).2.2.2.1,
   (c7_password_update_history clearedRecord ⟨true, 3⟩ [] 1000 500 rfl (by decide)
      (by decide) (by decide)).2.2.2.2.2,
   (c7_password_update_history
      ⟨[(.PWHIST, .txt [48, 48, 51, 48, 48])], [], .ET_NORMAL, .ES_CLEAN⟩
      ⟨true, 3⟩ [112, 50] 1000 500 rfl (by decide) (by decide) (by decide)).1
      (by decide)⟩

theorem readLoop_chunks (cs : List Chunk) : ∀ (fuel : Nat) (rest : List Chunk)
    (r : Record) (n : Nat), cs.length < fuel → (∀ c ∈ cs, procOK c) →
    readLoop fuel (cs ++ (0xff, []) :: rest) r n =
      .normal false (cs.foldl applyChunk r) (n + ((cs.map chunkLen).sum + 5)) := by
  induction cs with
  | nil =>
    intro fuel rest r n hf _
    match fuel, hf with
    | fuel + 1, _ =>
      show readLoop (fuel + 1) ((0xff, []) :: rest) r n = _
      have h1 : isItemDataCode 0xff = false := by decide
      have h2 : isItemAttCode 0xff = false := by decide
      simp [readLoop, h1, h2]
  | cons c cs ih =>
    intro fuel rest r n hf hok
    obtain ⟨t, d⟩ := c
    obtain ⟨hdata, hatt, hend⟩ := hok (t, d) (List.mem_cons_self _ _)
    match fuel, hf with
    | fuel + 1, hf =>
      have hfuel : cs.length < fuel := by
        simp only [List.length_cons] at hf; omega
      have hf0 : fuel ≠ 0 := by omega
      show readLoop (fuel + 1) ((t, d) :: (cs ++ (0xff, []) :: rest)) r n = _
      by_cases hd : isItemDataCode t = true
      · obtain ⟨f, hfe⟩ := Option.isSome_iff_exists.1 (hdata hd)
        have happ : applyChunk r (t, d) = f r := by
          unfold applyChunk
          rw [if_pos hd, hfe]
        simp only [readLoop, hd, if_true, hfe, hf0, if_false]
        rw [ih fuel rest (f r) (n + (d.length + 5)) hfuel
          (fun c hc => hok c (List.mem_cons_of_mem _ hc))]
        simp only [List.foldl_cons, happ, List.map_cons, List.sum_cons, chunkLen]
        congr 1
        omega
      · have happ : applyChunk r (t, d) = r.addUnknown t d := by
          unfold applyChunk
          rw [if_neg (by simp [hd]), if_neg (by simp [hatt]), if_neg hend]
        simp only [readLoop, hd, if_false, Bool.false_eq_true, hatt, hend, hf0]
        rw [ih fuel rest (r.addUnknown t d) (n + (d.length + 5)) hfuel
          (fun c hc => hok c (List.mem_cons_of_mem _ hc))]
        simp only [List.foldl_cons, happ, List.map_cons, List.sum_cons, chunkLen]
        congr 1
        omega

theorem flatMap_length_le (L : List FieldType) (f : FieldType → List Chunk)
    (h : ∀ ft ∈ L, (f ft).length ≤ 1) : (L.flatMap f).length ≤ L.length := by
  induction L with
  | nil => simp
  | cons ft L ih =>
    rw [List.flatMap_cons, List.length_append, List.length_cons]
    have h1 := h ft (List.mem_cons_self _ _)
    have h2 := ih (fun g hg => h g (List.mem_cons_of_mem _ hg))
    omega

theorem flatMap_congr_mem (L : List FieldType) (f g : FieldType → List Chunk)
    (h : ∀ ft ∈ L, f ft = g ft) : L.flatMap f = L.flatMap g := by
  induction L with
  | nil => rfl
  | cons ft L ih =>
    rw [List.flatMap_cons, List.flatMap_cons, h ft (List.mem_cons_self _ _),
      ih (fun x hx => h x (List.mem_cons_of_mem _ hx))]

theorem writeCommonBody_eq_flatMap (r : Record) (tl : Nat) :
    writeCommonBody r tl = commonTags.flatMap (emitCommon r tl) ++ r.urfl := by
  unfold writeCommonBody commonTags
  rw [List.flatMap_append, List.flatMap_append, List.flatMap_append]
  rw [flatMap_congr_mem textFieldsW (emitCommon r tl) (fun ft => writeIfSetChunk r ft)
    (by intro ft hft; fin_cases hft <;> rfl)]
  rw [flatMap_congr_mem timeFieldsW (emitCommon r tl) (fun ft => emitTimeChunk tl r ft)
    (by intro ft hft; fin_cases hft <;> rfl)]
  rw [flatMap_congr_mem binaryFieldsW (emitCommon r tl) (fun ft => writeIfSetChunk r ft)
    (by intro ft hft; fin_cases hft <;> rfl)]
  have hmid : ([FieldType.XTIME_INT, .KBSHORTCUT, .DCA, .SHIFTDCA,
      .PROTECTED]).flatMap (emitCommon r tl) =
      (let n := r.getXTimeInt
       if 0 < n ∧ n ≤ 3650 then [(fieldCode .XTIME_INT, le4 n)] else [])
      ++ (let n := r.getKBShortcut
          if n ≠ 0 then [(fieldCode .KBSHORTCUT, le4 n)] else [])
      ++ (let n := r.getDCA false
          if minDCA ≤ n ∧ n ≤ maxDCA then [(fieldCode .DCA, le2 n)] else [])
      ++ (let n := r.getDCA true
          if minDCA ≤ n ∧ n ≤ maxDCA then [(fieldCode .SHIFTDCA, le2 n)] else [])
      ++ writeIfSetChunk r .PROTECTED := by
    show emitCommon r tl .XTIME_INT ++ (emitCommon r tl .KBSHORTCUT ++
      (emitCommon r tl .DCA ++ (emitCommon r tl .SHIFTDCA ++
      (emitCommon r tl .PROTECTED ++ [])))) = _
    rw [show emitCommon r tl .XTIME_INT = (let n := r.getXTimeInt
        if 0 < n ∧ n ≤ 3650 then [(fieldCode .XTIME_INT, le4 n)] else []) from rfl,
      show emitCommon r tl .KBSHORTCUT = (let n := r.getKBShortcut
        if n ≠ 0 then [(fieldCode .KBSHORTCUT, le4 n)] else []) from rfl,
      show emitCommon r tl .DCA = (let n := r.getDCA false
        if minDCA ≤ n ∧ n ≤ maxDCA then [(fieldCode .DCA, le2 n)] else []) from rfl,
      show emitCommon r tl .SHIFTDCA = (let n := r.getDCA true
        if minDCA ≤ n ∧ n ≤ maxDCA then [(fieldCode .SHIFTDCA, le2 n)] else []) from rfl,
      show emitCommon r tl .PROTECTED = writeIfSetChunk r .PROTECTED from rfl]
    simp [List.append_assoc]
  rw [hmid]
  simp [List.append_assoc]

theorem setF_getF_self (r : Record) (ft : FieldType) (v : FieldVal) :
    (r.setF ft v).getF ft = some v := findF_updF_self _ _ _

theorem setF_getF_ne (r : Record) (ft g : FieldType) (v : FieldVal)
    (h : g ≠ ft) : (r.setF ft v).getF g = r.getF g := findF_updF_ne _ _ _ _ h

/-- Master fold lemma: folding the per-tag emissions over a nodup tag list
installs exactly the set fields of `r` from those tags, and touches nothing
else. -/
theorem foldl_emit (r : Record) (emit : FieldType → List Chunk) :
    ∀ (L : List FieldType), L.Nodup →
    (∀ ft ∈ L, (r.getF ft = none ∧ emit ft = []) ∨
      (∃ v c, r.getF ft = some v ∧ emit ft = [c] ∧
        (∀ r' : Record, applyChunk r' c = r'.setF ft v))) →
    ∀ (acc : Record),
      (∀ g : FieldType, ((L.flatMap emit).foldl applyChunk acc).getF g =
        (if g ∈ L ∧ (r.getF g).isSome then r.getF g else acc.getF g))
      ∧ ((L.flatMap emit).foldl applyChunk acc).urfl = acc.urfl
      ∧ ((L.flatMap emit).foldl applyChunk acc).entrytype = acc.entrytype
      ∧ ((L.flatMap emit).foldl applyChunk acc).entrystatus = acc.entrystatus := by
  intro L
  induction L with
  | nil =>
    intro _ _ acc
    refine ⟨fun g => ?_, rfl, rfl, rfl⟩
    simp
  | cons ft L ih =>
    intro hnd hspec acc
    have hndL : L.Nodup := (List.nodup_cons.1 hnd).2
    have hftL : ft ∉ L := (List.nodup_cons.1 hnd).1
    have hspecL : ∀ g ∈ L, (r.getF g = none ∧ emit g = []) ∨
        (∃ v c, r.getF g = some v ∧ emit g = [c] ∧
          (∀ r' : Record, applyChunk r' c = r'.setF g v)) :=
      fun g hg => hspec g (List.mem_cons_of_mem _ hg)
    rcases hspec ft (List.mem_cons_self _ _) with ⟨hnone, hemit⟩ | ⟨v, c, hsome, hemit, happ⟩
    · rw [List.flatMap_cons, hemit, List.nil_append]
      obtain ⟨ihg, ihu, iht, ihs⟩ := ih hndL hspecL acc
      refine ⟨fun g => ?_, ihu, iht, ihs⟩
      rw [ihg g]
      by_cases hgft : g = ft
      · subst hgft
        simp [hnone, List.mem_cons, hftL]
      · simp [List.mem_cons, hgft]
    · rw [List.flatMap_cons, hemit, List.singleton_append, List.foldl_cons, happ acc]
      obtain ⟨ihg, ihu, iht, ihs⟩ := ih hndL hspecL (acc.setF ft v)
      refine ⟨fun g => ?_, ?_, ?_, ?_⟩
      · rw [ihg g]
        by_cases hgft : g = ft
        · subst hgft
          rw [if_neg (by simp [hftL]), setF_getF_self,
            if_pos ⟨List.mem_cons_self _ _, by simp [hsome]⟩, hsome]
        · rw [setF_getF_ne _ _ _ _ hgft]
          simp [List.mem_cons, hgft]
      · rw [ihu]; rfl
      · rw [iht]; rfl
      · rw [ihs]; rfl

theorem allTags_complete (ft : FieldType) : ft ∈ allTags := by
  cases ft <;> decide

theorem text_chunk (ft : FieldType) (hft : ft ∈ textFieldsW) (s : Bytes) :
    (∀ r' : Record, applyChunk r' (fieldCode ft, s) = r'.setF ft (.txt s))
    ∧ procOK (fieldCode ft, s) := by
  fin_cases hft <;> exact ⟨fun r' => rfl, fun _ => rfl, rfl, by simp [fieldCode]⟩

theorem bin_chunk (ft : FieldType) (hft : ft ∈ binaryFieldsW) (s : Bytes) :
    (∀ r' : Record, applyChunk r' (fieldCode ft, s) = r'.setF ft (.bin s))
    ∧ procOK (fieldCode ft, s) := by
  fin_cases hft <;> exact ⟨fun r' => rfl, fun _ => rfl, rfl, by simp [fieldCode]⟩

theorem protected_chunk :
    (∀ r' : Record, applyChunk r' (fieldCode .PROTECTED, [1]) =
      r'.setF .PROTECTED (.byte 1))
    ∧ procOK (fieldCode .PROTECTED, [1]) :=
  ⟨fun r' => rfl, fun _ => rfl, rfl, by decide⟩

theorem uuid_chunk (ft : FieldType)
    (hft : ft = .UUID ∨ ft = .BASEUUID ∨ ft = .ALIASUUID ∨ ft = .SHORTCUTUUID ∨
      ft = .ATTREF) (b : Bytes) (hb : b.length = 16) :
    (∀ r' : Record, applyChunk r' (fieldCode ft, b) = r'.setF ft (.uuid b))
    ∧ procOK (fieldCode ft, b) := by
  have h16 : ¬(b.length < 16) := by omega
  have htk : b.take 16 = b := by rw [← hb]; exact List.take_length b
  rcases hft with h | h | h | h | h <;> subst h <;>
    refine ⟨fun r' => ?_, fun _ => ?_, by simp [fieldCode, isItemAttCode],
      by simp [fieldCode]⟩ <;>
    simp [applyChunk, setFieldFn, fieldCode, isItemDataCode, isItemAttCode, decodeTag, h16, htk, Record.setUUID]

theorem time_chunk (ft : FieldType) (hft : ft ∈ timeFieldsW) (t : Int)
    (h0 : 0 < t) (h31 : t < 2147483648) :
    ((∀ r' : Record, applyChunk r' (fieldCode ft, le4 t) = r'.setF ft (.tm t))
      ∧ procOK (fieldCode ft, le4 t))
    ∧ ((∀ r' : Record, applyChunk r' (fieldCode ft, le5t t) = r'.setF ft (.tm t))
      ∧ procOK (fieldCode ft, le5t t)) := by
  have e4 : getInt32s (le4 t) = t := getInt32s_le4 t (by omega) h31
  have e5 : getTime5 (le5t t) = t := getTime5_le5t t (by omega) (by omega)
  have l4 : (le4 t).length = 4 := rfl
  have l5 : (le5t t).length = 5 := rfl
  fin_cases hft <;>
    refine ⟨⟨fun r' => ?_, fun _ => ?_, by simp [fieldCode, isItemAttCode],
        by simp [fieldCode]⟩,
      ⟨fun r' => ?_, fun _ => ?_, by simp [fieldCode, isItemAttCode],
        by simp [fieldCode]⟩⟩ <;>
    simp [applyChunk, setFieldFn, fieldCode, isItemDataCode, isItemAttCode, decodeTag, l4, l5, e4, e5, Record.setTimeV]

theorem i32_chunk (ft : FieldType) (hft : ft = .XTIME_INT ∨ ft = .KBSHORTCUT)
    (n : Int) (h0 : -2147483648 ≤ n) (h31 : n < 2147483648) :
    (∀ r' : Record, applyChunk r' (fieldCode ft, le4 n) = r'.setF ft (.i32 n))
    ∧ procOK (fieldCode ft, le4 n) := by
  have e4 : getInt32s (le4 n) = n := getInt32s_le4_signed n h0 h31
  have l4 : (le4 n).length = 4 := rfl
  rcases hft with h | h <;> subst h <;>
    refine ⟨fun r' => ?_, fun _ => ?_, by simp [fieldCode, isItemAttCode],
      by simp [fieldCode]⟩ <;>
    simp [applyChunk, setFieldFn, fieldCode, isItemDataCode, isItemAttCode, decodeTag, l4, e4]

theorem i16_chunk (ft : FieldType) (hft : ft = .DCA ∨ ft = .SHIFTDCA)
    (n : Int) (h0 : 0 ≤ n) (h15 : n < 32768) :
    (∀ r' : Record, applyChunk r' (fieldCode ft, le2 n) = r'.setF ft (.i16 n))
    ∧ procOK (fieldCode ft, le2 n) := by
  have e2 : getInt16s (le2 n) = n := getInt16s_le2 n h0 h15
  have l2 : (le2 n).length = 2 := rfl
  rcases hft with h | h <;> subst h <;>
    refine ⟨fun r' => ?_, fun _ => ?_, by simp [fieldCode, isItemAttCode],
      by simp [fieldCode]⟩ <;>
    simp [applyChunk, setFieldFn, fieldCode, isItemDataCode, isItemAttCode, decodeTag, l2, e2]

theorem emitCommon_text (r : Record) (tl : Nat) (ft : FieldType)
    (hft : ft ∈ textFieldsW) : emitCommon r tl ft = writeIfSetChunk r ft := by
  fin_cases hft <;> rfl

theorem emitCommon_bin (r : Record) (tl : Nat) (ft : FieldType)
    (hft : ft ∈ binaryFieldsW) : emitCommon r tl ft = writeIfSetChunk r ft := by
  fin_cases hft <;> rfl

theorem emitCommon_time (r : Record) (tl : Nat) (ft : FieldType)
    (hft : ft ∈ timeFieldsW) : emitCommon r tl ft = emitTimeChunk tl r ft := by
  fin_cases hft <;> rfl

/-- Under per-tag well-formedness, each common tag either is unset and emits
nothing, or is set and emits exactly one chunk that the reader decodes back
to the identical stored value. -/
theorem emitCommon_spec (r : Record) (tl : Nat) (htl : tl = 4 ∨ tl = 5)
    (allowed : List FieldType) (hwf : WFfields r allowed) :
    ∀ ft ∈ commonTags, (r.getF ft = none ∧ emitCommon r tl ft = []) ∨
      (∃ v c, r.getF ft = some v ∧ emitCommon r tl ft = [c] ∧
        (∀ r' : Record, applyChunk r' c = r'.setF ft v) ∧ procOK c) := by
  intro ft hft
  have hwft := hwf ft (allTags_complete ft)
  rw [show commonTags = textFieldsW ++ timeFieldsW ++
    [.XTIME_INT, .KBSHORTCUT, .DCA, .SHIFTDCA, .PROTECTED] ++ binaryFieldsW
    from rfl] at hft
  simp only [List.mem_append, List.mem_cons, List.not_mem_nil, or_false] at hft
  rcases hft with ((htxt | htime) | h5) | hbin
  · -- text fields
    rw [emitCommon_text r tl ft htxt]
    cases hv : r.getF ft with
    | none => exact Or.inl ⟨rfl, by unfold writeIfSetChunk; rw [hv]⟩
    | some v =>
      rw [hv] at hwft
      obtain ⟨-, hwfv⟩ := hwft
      unfold wfValB at hwfv
      rw [if_pos htxt] at hwfv
      cases v with
      | txt s =>
        refine Or.inr ⟨.txt s, (fieldCode ft, s), rfl, ?_, (text_chunk ft htxt s).1,
          (text_chunk ft htxt s).2⟩
        unfold writeIfSetChunk
        rw [hv]
        rfl
      | uuid b => simp at hwfv
      | tm t => simp at hwfv
      | i32 n => simp at hwfv
      | i16 n => simp at hwfv
      | byte b => simp at hwfv
      | bin s => simp at hwfv
  · -- time fields
    rw [emitCommon_time r tl ft htime]
    have hnotext : ft ∉ textFieldsW := by
      fin_cases htime <;> decide
    cases hv : r.getF ft with
    | none =>
      refine Or.inl ⟨rfl, ?_⟩
      unfold emitTimeChunk Record.getTimeV
      rw [hv]
      simp
    | some v =>
      rw [hv] at hwft
      obtain ⟨-, hwfv⟩ := hwft
      unfold wfValB at hwfv
      rw [if_neg hnotext, if_pos htime] at hwfv
      cases v with
      | tm t =>
        have hb : 0 < t ∧ t < 2147483648 := of_decide_eq_true hwfv
        have htv : r.getTimeV ft = t := by unfold Record.getTimeV; rw [hv]
        obtain ⟨h4, h5⟩ := time_chunk ft htime t hb.1 hb.2
        rcases htl with h | h <;> subst h
        · refine Or.inr ⟨.tm t, (fieldCode ft, le4 t), rfl, ?_, h4.1, h4.2⟩
          unfold emitTimeChunk
          rw [htv, if_pos (by omega)]
          rfl
        · refine Or.inr ⟨.tm t, (fieldCode ft, le5t t), rfl, ?_, h5.1, h5.2⟩
          unfold emitTimeChunk
          rw [htv, if_pos (by omega)]
          rfl
      | txt s => simp at hwfv
      | uuid b => simp at hwfv
      | i32 n => simp at hwfv
      | i16 n => simp at hwfv
      | byte b => simp at hwfv
      | bin s => simp at hwfv
  · -- the five guarded tags
    rcases h5 with h | h | h | h | h <;> subst h
    · -- XTIME_INT
      cases hv : r.getF .XTIME_INT with
      | none =>
        refine Or.inl ⟨rfl, ?_⟩
        have : r.getXTimeInt = 0 := by unfold Record.getXTimeInt; rw [hv]
        show (if 0 < r.getXTimeInt ∧ r.getXTimeInt ≤ 3650 then _ else []) = []
        rw [if_neg (by rw [this]; omega)]
      | some v =>
        rw [hv] at hwft
        obtain ⟨-, hwfv⟩ := hwft
        unfold wfValB at hwfv
        rw [if_neg (by decide), if_neg (by decide), if_neg (by decide),
          if_pos rfl] at hwfv
        cases v with
        | i32 n =>
          have hb : 1 ≤ n ∧ n ≤ 3650 := of_decide_eq_true hwfv
          have hxv : r.getXTimeInt = n := by unfold Record.getXTimeInt; rw [hv]
          obtain ⟨ha, hp⟩ := i32_chunk .XTIME_INT (Or.inl rfl) n (by omega) (by omega)
          refine Or.inr ⟨.i32 n, (fieldCode .XTIME_INT, le4 n), rfl, ?_, ha, hp⟩
          show (if 0 < r.getXTimeInt ∧ r.getXTimeInt ≤ 3650 then
            [(fieldCode .XTIME_INT, le4 r.getXTimeInt)] else []) = _
          rw [hxv, if_pos (by omega)]
        | txt s => simp at hwfv
        | uuid b => simp at hwfv
        | tm t => simp at hwfv
        | i16 n => simp at hwfv
        | byte b => simp at hwfv
        | bin s => simp at hwfv
    · -- KBSHORTCUT
      cases hv : r.getF .KBSHORTCUT with
      | none =>
        refine Or.inl ⟨rfl, ?_⟩
        have : r.getKBShortcut = 0 := by unfold Record.getKBShortcut; rw [hv]
        show (if r.getKBShortcut ≠ 0 then _ else []) = []
        rw [if_neg (by rw [this]; omega)]
      | some v =>
        rw [hv] at hwft
        obtain ⟨-, hwfv⟩ := hwft
        unfold wfValB at hwfv
        rw [if_neg (by decide), if_neg (by decide), if_neg (by decide),
          if_neg (by decide), if_pos rfl] at hwfv
        cases v with
        | i32 n =>
          have hb : n ≠ 0 ∧ -2147483648 ≤ n ∧ n < 2147483648 :=
            of_decide_eq_true hwfv
          have hxv : r.getKBShortcut = n := by unfold Record.getKBShortcut; rw [hv]
          obtain ⟨ha, hp⟩ := i32_chunk .KBSHORTCUT (Or.inr rfl) n (by omega) (by omega)
          refine Or.inr ⟨.i32 n, (fieldCode .KBSHORTCUT, le4 n), rfl, ?_, ha, hp⟩
          show (if r.getKBShortcut ≠ 0 then
            [(fieldCode .KBSHORTCUT, le4 r.getKBShortcut)] else []) = _
          rw [hxv, if_pos (by omega)]
        | txt s => simp at hwfv
        | uuid b => simp at hwfv
        | tm t => simp at hwfv
        | i16 n => simp at hwfv
        | byte b => simp at hwfv
        | bin s => simp at hwfv
    · -- DCA
      cases hv : r.getF .DCA with
      | none =>
        refine Or.inl ⟨rfl, ?_⟩
        have : r.getDCA false = -1 := by unfold Record.getDCA; rw [show
          (if false = true then FieldType.SHIFTDCA else FieldType.DCA) = .DCA from rfl, hv]
        show (if minDCA ≤ r.getDCA false ∧ r.getDCA false ≤ maxDCA then _ else []) = []
        rw [if_neg (by rw [this]; unfold minDCA maxDCA; omega)]
      | some v =>
        rw [hv] at hwft
        obtain ⟨-, hwfv⟩ := hwft
        unfold wfValB at hwfv
        rw [if_neg (by decide), if_neg (by decide), if_neg (by decide),
          if_neg (by decide), if_neg (by decide), if_pos (Or.inl rfl)] at hwfv
        cases v with
        | i16 n =>
          have hb : minDCA ≤ n ∧ n ≤ maxDCA := of_decide_eq_true hwfv
          have hd : minDCA = 0 ∧ maxDCA = 9 := ⟨rfl, rfl⟩
          have hxv : r.getDCA false = n := by unfold Record.getDCA; rw [show
            (if false = true then FieldType.SHIFTDCA else FieldType.DCA) = .DCA from rfl, hv]
          obtain ⟨ha, hp⟩ := i16_chunk .DCA (Or.inl rfl) n (by omega) (by omega)
          refine Or.inr ⟨.i16 n, (fieldCode .DCA, le2 n), rfl, ?_, ha, hp⟩
          show (if minDCA ≤ r.getDCA false ∧ r.getDCA false ≤ maxDCA then
            [(fieldCode .DCA, le2 (r.getDCA false))] else []) = _
          rw [hxv, if_pos hb]
        | txt s => simp at hwfv
        | uuid b => simp at hwfv
        | tm t => simp at hwfv
        | i32 n => simp at hwfv
        | byte b => simp at hwfv
        | bin s => simp at hwfv
    · -- SHIFTDCA
      cases hv : r.getF .SHIFTDCA with
      | none =>
        refine Or.inl ⟨rfl, ?_⟩
        have : r.getDCA true = -1 := by unfold Record.getDCA; rw [show
          (if true = true then FieldType.SHIFTDCA else FieldType.DCA) = .SHIFTDCA from rfl, hv]
        show (if minDCA ≤ r.getDCA true ∧ r.getDCA true ≤ maxDCA then _ else []) = []
        rw [if_neg (by rw [this]; unfold minDCA maxDCA; omega)]
      | some v =>
        rw [hv] at hwft
        obtain ⟨-, hwfv⟩ := hwft
        unfold wfValB at hwfv
        rw [if_neg (by decide), if_neg (by decide), if_neg (by decide),
          if_neg (by decide), if_neg (by decide), if_pos (Or.inr rfl)] at hwfv
        cases v with
        | i16 n =>
          have hb : minDCA ≤ n ∧ n ≤ maxDCA := of_decide_eq_true hwfv
          have hd : minDCA = 0 ∧ maxDCA = 9 := ⟨rfl, rfl⟩
          have hxv : r.getDCA true = n := by unfold Record.getDCA; rw [show
            (if true = true then FieldType.SHIFTDCA else FieldType.DCA) = .SHIFTDCA from rfl, hv]
          obtain ⟨ha, hp⟩ := i16_chunk .SHIFTDCA (Or.inr rfl) n (by omega) (by omega)
          refine Or.inr ⟨.i16 n, (fieldCode .SHIFTDCA, le2 n), rfl, ?_, ha, hp⟩
          show (if minDCA ≤ r.getDCA true ∧ r.getDCA true ≤ maxDCA then
            [(fieldCode .SHIFTDCA, le2 (r.getDCA true))] else []) = _
          rw [hxv, if_pos hb]
        | txt s => simp at hwfv
        | uuid b => simp at hwfv
        | tm t => simp at hwfv
        | i32 n => simp at hwfv
        | byte b => simp at hwfv
        | bin s => simp at hwfv
    · -- PROTECTED
      cases hv : r.getF .PROTECTED with
      | none =>
        refine Or.inl ⟨rfl, ?_⟩
        show writeIfSetChunk r .PROTECTED = []
        unfold writeIfSetChunk
        rw [hv]
      | some v =>
        rw [hv] at hwft
        obtain ⟨-, hwfv⟩ := hwft
        unfold wfValB at hwfv
        rw [if_neg (by decide), if_neg (by decide), if_neg (by decide),
          if_neg (by decide), if_neg (by decide), if_neg (by decide),
          if_pos rfl] at hwfv
        cases v with
        | byte b =>
          have hb : b = 1 := of_decide_eq_true hwfv
          subst hb
          refine Or.inr ⟨.byte 1, (fieldCode .PROTECTED, [1]), rfl, ?_,
            protected_chunk.1, protected_chunk.2⟩
          show writeIfSetChunk r .PROTECTED = _
          unfold writeIfSetChunk
          rw [hv]
          rfl
        | txt s => simp at hwfv
        | uuid b => simp at hwfv
        | tm t => simp at hwfv
        | i32 n => simp at hwfv
        | i16 n => simp at hwfv
        | bin s => simp at hwfv
  · -- binary fields
    rw [emitCommon_bin r tl ft hbin]
    have hnotext : ft ∉ textFieldsW := by
      fin_cases hbin <;> decide
    have hnotime : ft ∉ timeFieldsW := by
      fin_cases hbin <;> decide
    cases hv : r.getF ft with
    | none => exact Or.inl ⟨rfl, by unfold writeIfSetChunk; rw [hv]⟩
    | some v =>
      rw [hv] at hwft
      obtain ⟨-, hwfv⟩ := hwft
      unfold wfValB at hwfv
      rw [if_neg hnotext, if_neg hnotime, if_pos hbin] at hwfv
      cases v with
      | bin s =>
        refine Or.inr ⟨.bin s, (fieldCode ft, s), rfl, ?_, (bin_chunk ft hbin s).1,
          (bin_chunk ft hbin s).2⟩
        unfold writeIfSetChunk
        rw [hv]
        rfl
      | txt s => simp at hwfv
      | uuid b => simp at hwfv
      | tm t => simp at hwfv
      | i32 n => simp at hwfv
      | i16 n => simp at hwfv
      | byte b => simp at hwfv

theorem wfValB_uuid (ft : FieldType)
    (hft : ft = .UUID ∨ ft = .BASEUUID ∨ ft = .ALIASUUID ∨ ft = .SHORTCUTUUID ∨
      ft = .ATTREF) (v : FieldVal) (h : wfValB ft v = true) :
    ∃ b, v = .uuid b ∧ b.length = 16 ∧ ∀ x ∈ b, x < 256 := by
  rcases hft with h1 | h1 | h1 | h1 | h1 <;> subst h1 <;>
    (cases v with
     | uuid b =>
       simp [wfValB, textFieldsW, timeFieldsW, binaryFieldsW] at h
       exact ⟨b, rfl, h.1, h.2⟩
     | txt s => simp [wfValB, textFieldsW, timeFieldsW, binaryFieldsW] at h
     | tm t => simp [wfValB, textFieldsW, timeFieldsW, binaryFieldsW] at h
     | i32 n => simp [wfValB, textFieldsW, timeFieldsW, binaryFieldsW] at h
     | i16 n => simp [wfValB, textFieldsW, timeFieldsW, binaryFieldsW] at h
     | byte b => simp [wfValB, textFieldsW, timeFieldsW, binaryFieldsW] at h
     | bin s => simp [wfValB, textFieldsW, timeFieldsW, binaryFieldsW] at h)

theorem wfValB_txt (ft : FieldType) (hft : ft ∈ textFieldsW) (v : FieldVal)
    (h : wfValB ft v = true) : ∃ s, v = .txt s := by
  unfold wfValB at h
  rw [if_pos hft] at h
  cases v with
  | txt s => exact ⟨s, rfl⟩
  | uuid b => simp at h
  | tm t => simp at h
  | i32 n => simp at h
  | i16 n => simp at h
  | byte b => simp at h
  | bin s => simp at h

theorem fold_common (r : Record) (tl : Nat) (htl : tl = 4 ∨ tl = 5)
    (allowed : List FieldType) (hwf : WFfields r allowed) (acc : Record) :
    (∀ g : FieldType,
      ((commonTags.flatMap (emitCommon r tl)).foldl applyChunk acc).getF g =
        if g ∈ commonTags ∧ (r.getF g).isSome = true then r.getF g
        else acc.getF g)
    ∧ ((commonTags.flatMap (emitCommon r tl)).foldl applyChunk acc).urfl = acc.urfl
    ∧ ((commonTags.flatMap (emitCommon r tl)).foldl applyChunk acc).entrytype
        = acc.entrytype := by
  have h := foldl_emit r (emitCommon r tl) commonTags (by decide)
    (fun ft hft => by
      rcases emitCommon_spec r tl htl allowed hwf ft hft with
        ⟨h1, h2⟩ | ⟨v, c, h1, h2, h3, -⟩
      · exact Or.inl ⟨h1, h2⟩
      · exact Or.inr ⟨v, c, h1, h2, h3⟩) acc
  exact ⟨h.1, h.2.1, h.2.2.1⟩

theorem readPWS_common (pre : List Chunk) (r : Record) (tl : Nat)
    (htl : tl = 4 ∨ tl = 5) (allowed : List FieldType) (hwf : WFfields r allowed)
    (hurfl : r.urfl = []) (hlen : pre.length ≤ 16) (hok : ∀ c ∈ pre, procOK c) :
    readPWS (pre ++ writeCommonChunks r tl) =
      (.success,
        Record.inferKindFromSlots (Record.parseSpecialPasswords
          ((commonTags.flatMap (emitCommon r tl)).foldl applyChunk
            (pre.foldl applyChunk clearedRecord)))) := by
  have hspec := emitCommon_spec r tl htl allowed hwf
  have hfmok : ∀ c ∈ commonTags.flatMap (emitCommon r tl), procOK c := by
    intro c hc
    obtain ⟨ft, hft, hcf⟩ := List.mem_flatMap.1 hc
    rcases hspec ft hft with ⟨-, h2⟩ | ⟨v, c2, -, h2, -, hp⟩
    · rw [h2] at hcf
      exact absurd hcf (List.not_mem_nil c)
    · rw [h2, List.mem_singleton] at hcf
      subst hcf
      exact hp
  have hfmlen : (commonTags.flatMap (emitCommon r tl)).length ≤ 39 := by
    have h1 := flatMap_length_le commonTags (emitCommon r tl) (fun ft hft => by
      rcases hspec ft hft with ⟨-, h2⟩ | ⟨v, c2, -, h2, -, -⟩ <;> rw [h2] <;> simp)
    have h2 : commonTags.length = 39 := rfl
    omega
  have hshape : pre ++ writeCommonChunks r tl =
      (pre ++ commonTags.flatMap (emitCommon r tl)) ++ (0xff, []) :: [] := by
    unfold writeCommonChunks
    rw [writeCommonBody_eq_flatMap, hurfl, List.append_nil, List.append_assoc]
    rfl
  rw [hshape]
  have hloop := readLoop_chunks (pre ++ commonTags.flatMap (emitCommon r tl)) 255 []
    clearedRecord 0
    (by rw [List.length_append]; omega)
    (by intro c hc
        rcases List.mem_append.1 hc with h | h
        exacts [hok c h, hfmok c h])
  rw [readPWS_eq_success _ _ _ hloop (by omega), List.foldl_append]

theorem inferKind_getF (r : Record) (g : FieldType) :
    (r.inferKindFromSlots).getF g = r.getF g := by
  unfold Record.inferKindFromSlots
  split
  · rfl
  · split
    · rfl
    · split <;> rfl

theorem inferKind_urfl (r : Record) :
    (r.inferKindFromSlots).urfl = r.urfl := by
  unfold Record.inferKindFromSlots
  split
  · rfl
  · split
    · rfl
    · split <;> rfl

theorem v3_roundtrip_normal (r : Record) (h3 : WFv3 r)
    (hn : r.entrytype = .ET_NORMAL) :
    (readPWS (writeV3 r).1).1 = .success ∧
    roundtripAgrees r (readPWS (writeV3 r).1).2 := by
  obtain ⟨hurfl, -, hwf, hslot, hpw, -, -⟩ := h3
  rw [hn] at hslot
  have hslot2 : (r.getF .UUID).isSome = true := hslot
  obtain ⟨v, hv⟩ := Option.isSome_iff_exists.1 hslot2
  have hu := hwf .UUID (allTags_complete _)
  rw [hv] at hu
  obtain ⟨-, hwfv⟩ := hu
  obtain ⟨b, hvb, hb16, hblt⟩ := wfValB_uuid .UUID (Or.inl rfl) v hwfv
  subst hvb
  have hdep : r.isDependent = false := by simp [Record.isDependent, hn]
  have hss : r.setSpecialPasswords = r := by
    unfold Record.setSpecialPasswords
    rw [hdep]
    rfl
  have hws : r.writeSlot = .UUID := by
    unfold Record.writeSlot
    rw [hdep]
    rfl
  have hid : r.getUUIDbytes r.writeSlot = b := by
    rw [hws]
    show (match r.getF .UUID with
      | none => List.replicate 16 0
      | some v => v.raw) = b
    rw [hv]
    rfl
  have hchunks : (writeV3 r).1 = [(fieldCode .UUID, b)] ++ writeCommonChunks r 4 := by
    show (fieldCode .UUID, r.getUUIDbytes r.writeSlot)
        :: writeCommonChunks (r.setSpecialPasswords) 4 = _
    rw [hid, hss]
    rfl
  have hok : ∀ c ∈ [(fieldCode .UUID, b)], procOK c := by
    intro c hc
    rw [List.mem_singleton] at hc
    subst hc
    exact (uuid_chunk .UUID (Or.inl rfl) b hb16).2
  have hread := readPWS_common [(fieldCode .UUID, b)] r 4 (Or.inl rfl)
    (v3Allowed r.entrytype) hwf hurfl (by simp) hok
  have hacc : [(fieldCode .UUID, b)].foldl applyChunk clearedRecord
      = clearedRecord.setF .UUID (.uuid b) := by
    show applyChunk clearedRecord (fieldCode .UUID, b) = _
    exact (uuid_chunk .UUID (Or.inl rfl) b hb16).1 clearedRecord
  rw [hacc] at hread
  obtain ⟨hg, hu2, he2⟩ := fold_common r 4 (Or.inl rfl) (v3Allowed r.entrytype) hwf
    (clearedRecord.setF .UUID (.uuid b))
  set rOut := (commonTags.flatMap (emitCommon r 4)).foldl applyChunk
    (clearedRecord.setF .UUID (.uuid b)) with hrOut
  have hpwn : ¬PlaceholderShape rOut.getPassword := by
    have hP := hg .PASSWORD
    by_cases hps : (r.getF .PASSWORD).isSome = true
    · obtain ⟨vp, hvp⟩ := Option.isSome_iff_exists.1 hps
      have hup := hwf .PASSWORD (allTags_complete _)
      rw [hvp] at hup
      obtain ⟨-, hwfp⟩ := hup
      obtain ⟨s, hsp⟩ := wfValB_txt .PASSWORD (by decide) vp hwfp
      subst hsp
      rw [if_pos ⟨by decide, hps⟩, hvp] at hP
      have hgp : rOut.getPassword = s := by
        unfold Record.getPassword Record.getFieldStr
        rw [hP]
        rfl
      rw [hgp]
      have hpw2 := hpw hn
      rw [hvp] at hpw2
      exact hpw2
    · rw [if_neg (fun hc => hps hc.2),
        setF_getF_ne _ _ _ _ (by decide)] at hP
      have hgp : rOut.getPassword = [] := by
        unfold Record.getPassword Record.getFieldStr
        rw [hP]
        rfl
      rw [hgp]
      decide
  have hparse : rOut.parseSpecialPasswords = rOut := parse_noop rOut hpwn
  have hUUIDout : rOut.getF .UUID = some (.uuid b) := by
    rw [hg .UUID,
      if_neg (fun hc => absurd hc.1 (by decide : FieldType.UUID ∉ commonTags)),
      setF_getF_self]
  have hisu : (rOut.getF .UUID).isSome = true := by rw [hUUIDout]; rfl
  have hinf : rOut.inferKindFromSlots = { rOut with entrytype := .ET_NORMAL } := by
    unfold Record.inferKindFromSlots
    rw [if_pos hisu]
  rw [hchunks, hread, hparse, hinf]
  refine ⟨rfl, hn.symm, ?_, ?_⟩
  · show rOut.urfl = r.urfl
    rw [hu2, hurfl]
    rfl
  · intro g
    show rOut.getF g = r.getF g
    rw [hg g]
    by_cases hgc : g ∈ commonTags
    · by_cases hgs : (r.getF g).isSome = true
      · rw [if_pos ⟨hgc, hgs⟩]
      · rw [if_neg (fun hc => hgs hc.2),
          setF_getF_ne _ _ _ _
            (by intro e; subst e; exact absurd hgc (by decide)),
          Option.not_isSome_iff_eq_none.1 hgs]
        rfl
    · rw [if_neg (fun hc => hgc hc.1)]
      by_cases hgu : g = .UUID
      · subst hgu
        rw [setF_getF_self, hv]
      · rw [setF_getF_ne _ _ _ _ hgu]
        cases hrg : r.getF g with
        | none => rfl
        | some w =>
          have hga := hwf g (allTags_complete g)
          rw [hrg] at hga
          obtain ⟨hmem, -⟩ := hga
          rw [hn] at hmem
          rcases List.mem_cons.1 hmem with h | h
          exacts [absurd h hgu, absurd h hgc]

theorem clearField_getF_self (r : Record) (ft : FieldType) :
    (r.clearField ft).getF ft = none := findF_eraseF_self _ _

theorem clearField_getF_ne (r : Record) (ft g : FieldType) (h : g ≠ ft) :
    (r.clearField ft).getF g = r.getF g := findF_eraseF_ne _ _ _ h

theorem setUUID_getF_self (r : Record) (ft : FieldType) (b : Bytes) :
    (r.setUUID b ft).getF ft = some (.uuid b) := findF_updF_self _ _ _

theorem setUUID_getF_ne (r : Record) (ft g : FieldType) (b : Bytes)
    (h : g ≠ ft) : (r.setUUID b ft).getF g = r.getF g := findF_updF_ne _ _ _ _ h

theorem v3_roundtrip_alias (r : Record) (h3 : WFv3 r)
    (ha : r.entrytype = .ET_ALIAS) :
    (readPWS (writeV3 r).1).1 = .success ∧
    roundtripAgrees r (readPWS (writeV3 r).1).2 := by
  obtain ⟨hurfl, -, hwf, hslot, -, hal, -⟩ := h3
  rw [ha] at hslot
  have hslot2 : (r.getF .ALIASUUID).isSome = true := hslot
  obtain ⟨va, hva⟩ := Option.isSome_iff_exists.1 hslot2
  have hu := hwf .ALIASUUID (allTags_complete _)
  rw [hva] at hu
  obtain ⟨-, hwfv⟩ := hu
  obtain ⟨a, hvb, ha16, halt⟩ :=
    wfValB_uuid .ALIASUUID (Or.inr (Or.inr (Or.inl rfl))) va hwfv
  subst hvb
  have hBB : ∃ bb, r.getF .BASEUUID = some (.uuid bb) ∧
      r.getF .PASSWORD = some (.txt (aliasToken bb)) := by
    have h := hal ha
    cases hbb0 : r.getF .BASEUUID with
    | none => rw [hbb0] at h; exact h.elim
    | some w =>
      rw [hbb0] at h
      cases w with
      | uuid bb => exact ⟨bb, rfl, h⟩
      | txt s => exact h.elim
      | tm t => exact h.elim
      | i32 n => exact h.elim
      | i16 n => exact h.elim
      | byte x => exact h.elim
      | bin s => exact h.elim
  obtain ⟨bb, hbb, hpwr⟩ := hBB
  have hub := hwf .BASEUUID (allTags_complete _)
  rw [hbb] at hub
  obtain ⟨-, hwfb⟩ := hub
  obtain ⟨bb2, heqb, hbb16, hbblt⟩ :=
    wfValB_uuid .BASEUUID (Or.inr (Or.inl rfl)) (.uuid bb) hwfb
  have heqb2 : bb = bb2 := by injection heqb
  subst heqb2
  have hdep : r.isDependent = true := by simp [Record.isDependent, ha]
  have hisal : r.isAlias = true := by simp [Record.isAlias, ha]
  have hbase_raw : r.getUUIDbytes .BASEUUID = bb := by
    show (match r.getF .BASEUUID with
      | none => List.replicate 16 0
      | some v => v.raw) = bb
    rw [hbb]
    rfl
  have hta : r.setSpecialPasswords =
      r.setPassword (if r.isAlias then aliasToken bb
        else if r.isShortcut then shortcutToken bb else []) := by
    unfold Record.setSpecialPasswords
    rw [if_pos hdep, hbase_raw]
  have hss : r.setSpecialPasswords = r := by
    rw [hta, if_pos hisal]
    show { r with fields := updF r.fields .PASSWORD (.txt (aliasToken bb)) } = r
    rw [updF_of_findF_eq _ _ _ hpwr]
  have hws : r.writeSlot = .ALIASUUID := by
    unfold Record.writeSlot
    rw [hdep, hisal]
    rfl
  have hid : r.getUUIDbytes r.writeSlot = a := by
    rw [hws]
    show (match r.getF .ALIASUUID with
      | none => List.replicate 16 0
      | some v => v.raw) = a
    rw [hva]
    rfl
  have hchunks : (writeV3 r).1 = [(fieldCode .UUID, a)] ++ writeCommonChunks r 4 := by
    show (fieldCode .UUID, r.getUUIDbytes r.writeSlot)
        :: writeCommonChunks (r.setSpecialPasswords) 4 = _
    rw [hid, hss]
    rfl
  have hok : ∀ c ∈ [(fieldCode .UUID, a)], procOK c := by
    intro c hc
    rw [List.mem_singleton] at hc
    subst hc
    exact (uuid_chunk .UUID (Or.inl rfl) a ha16).2
  have hread := readPWS_common [(fieldCode .UUID, a)] r 4 (Or.inl rfl)
    (v3Allowed r.entrytype) hwf hurfl (by simp) hok
  have hacc : [(fieldCode .UUID, a)].foldl applyChunk clearedRecord
      = clearedRecord.setF .UUID (.uuid a) := by
    show applyChunk clearedRecord (fieldCode .UUID, a) = _
    exact (uuid_chunk .UUID (Or.inl rfl) a ha16).1 clearedRecord
  rw [hacc] at hread
  obtain ⟨hg, hu2, he2⟩ := fold_common r 4 (Or.inl rfl) (v3Allowed r.entrytype) hwf
    (clearedRecord.setF .UUID (.uuid a))
  set rOut := (commonTags.flatMap (emitCommon r 4)).foldl applyChunk
    (clearedRecord.setF .UUID (.uuid a)) with hrOut
  have hP := hg .PASSWORD
  rw [if_pos ⟨by decide, by rw [hpwr]; rfl⟩, hpwr] at hP
  have hpwOut : rOut.getPassword = aliasToken bb := by
    unfold Record.getPassword Record.getFieldStr
    rw [hP]
    rfl
  have hety : rOut.entrytype = .ET_NORMAL := by rw [he2]; rfl
  have hUUIDout : rOut.getF .UUID = some (.uuid a) := by
    rw [hg .UUID,
      if_neg (fun hc => absurd hc.1 (by decide : FieldType.UUID ∉ commonTags)),
      setF_getF_self]
  have hmid : (rOut.setUUID bb .BASEUUID).getUUIDbytes .END = a := by
    rw [getUUIDbytes_setUUID_baseuuid]
    unfold Record.getUUIDbytes
    rw [if_pos rfl, hety]
    show (match rOut.getF (slotOfKind .ET_NORMAL) with
      | none => List.replicate 16 0
      | some v => v.raw) = a
    rw [show slotOfKind .ET_NORMAL = FieldType.UUID from rfl, hUUIDout]
    rfl
  have hshape : PlaceholderShape rOut.getPassword := by
    rw [hpwOut]
    exact aliasToken_shape bb hbb16 hbblt
  have hparse := parse_eq_of_shape rOut hshape
  rw [hpwOut, aliasToken_decode bb hbb16 hbblt, if_pos (aliasToken_take2 bb),
    hmid] at hparse
  have hpU : (((rOut.setUUID bb .BASEUUID).clearField .UUID).setUUID
      a .ALIASUUID).getF .UUID = none := by
    rw [setUUID_getF_ne _ _ _ _ (by decide), clearField_getF_self]
  have hpA : (((rOut.setUUID bb .BASEUUID).clearField .UUID).setUUID
      a .ALIASUUID).getF .ALIASUUID = some (.uuid a) := setUUID_getF_self _ _ _
  have hpB : (((rOut.setUUID bb .BASEUUID).clearField .UUID).setUUID
      a .ALIASUUID).getF .BASEUUID = some (.uuid bb) := by
    rw [setUUID_getF_ne _ _ _ _ (by decide), clearField_getF_ne _ _ _ (by decide),
      setUUID_getF_self]
  have hinf : (((rOut.setUUID bb .BASEUUID).clearField .UUID).setUUID
        a .ALIASUUID).inferKindFromSlots =
      { ((rOut.setUUID bb .BASEUUID).clearField .UUID).setUUID a .ALIASUUID with
        entrytype := .ET_ALIAS } := by
    unfold Record.inferKindFromSlots
    rw [hpU, hpA]
    rfl
  rw [hchunks, hread, hparse, hinf]
  refine ⟨rfl, ?_, ?_, ?_⟩
  · exact ha.symm
  · show rOut.urfl = r.urfl
    rw [hu2, hurfl]
    rfl
  · intro g
    show ((((rOut.setUUID bb .BASEUUID).clearField .UUID).setUUID
      a .ALIASUUID)).getF g = r.getF g
    by_cases h1 : g = .ALIASUUID
    · subst h1
      rw [hpA, hva]
    · by_cases h2 : g = .UUID
      · subst h2
        rw [hpU]
        cases hrg : r.getF .UUID with
        | none => rfl
        | some w =>
          have hga := hwf .UUID (allTags_complete _)
          rw [hrg] at hga
          obtain ⟨hmem, -⟩ := hga
          rw [ha] at hmem
          exact absurd hmem (by decide)
      · by_cases h3 : g = .BASEUUID
        · subst h3
          rw [hpB, hbb]
        · rw [setUUID_getF_ne _ _ _ _ h1, clearField_getF_ne _ _ _ h2,
            setUUID_getF_ne _ _ _ _ h3, hg g]
          by_cases hgc : g ∈ commonTags
          · by_cases hgs : (r.getF g).isSome = true
            · rw [if_pos ⟨hgc, hgs⟩]
            · rw [if_neg (fun hc => hgs hc.2),
                setF_getF_ne _ _ _ _
                  (by intro e; subst e; exact absurd hgc (by decide)),
                Option.not_isSome_iff_eq_none.1 hgs]
              rfl
          · rw [if_neg (fun hc => hgc hc.1), setF_getF_ne _ _ _ _ h2]
            cases hrg : r.getF g with
            | none => rfl
            | some w =>
              have hga := hwf g (allTags_complete g)
              rw [hrg] at hga
              obtain ⟨hmem, -⟩ := hga
              rw [ha] at hmem
              rcases List.mem_cons.1 hmem with h | h
              · exact absurd h h1
              rcases List.mem_cons.1 h with h5 | h5
              · exact absurd h5 h3
              · exact absurd h5 hgc

theorem v3_roundtrip_shortcut (r : Record) (h3 : WFv3 r)
    (ha : r.entrytype = .ET_SHORTCUT) :
    (readPWS (writeV3 r).1).1 = .success ∧
    roundtripAgrees r (readPWS (writeV3 r).1).2 := by
  obtain ⟨hurfl, -, hwf, hslot, -, -, hsh⟩ := h3
  rw [ha] at hslot
  have hslot2 : (r.getF .SHORTCUTUUID).isSome = true := hslot
  obtain ⟨va, hva⟩ := Option.isSome_iff_exists.1 hslot2
  have hu := hwf .SHORTCUTUUID (allTags_complete _)
  rw [hva] at hu
  obtain ⟨-, hwfv⟩ := hu
  obtain ⟨a, hvb, ha16, halt⟩ :=
    wfValB_uuid .SHORTCUTUUID (Or.inr (Or.inr (Or.inr (Or.inl rfl)))) va hwfv
  subst hvb
  have hBB : ∃ bb, r.getF .BASEUUID = some (.uuid bb) ∧
      r.getF .PASSWORD = some (.txt (shortcutToken bb)) := by
    have h := hsh ha
    cases hbb0 : r.getF .BASEUUID with
    | none => rw [hbb0] at h; exact h.elim
    | some w =>
      rw [hbb0] at h
      cases w with
      | uuid bb => exact ⟨bb, rfl, h⟩
      | txt s => exact h.elim
      | tm t => exact h.elim
      | i32 n => exact h.elim
      | i16 n => exact h.elim
      | byte x => exact h.elim
      | bin s => exact h.elim
  obtain ⟨bb, hbb, hpwr⟩ := hBB
  have hub := hwf .BASEUUID (allTags_complete _)
  rw [hbb] at hub
  obtain ⟨-, hwfb⟩ := hub
  obtain ⟨bb2, heqb, hbb16, hbblt⟩ :=
    wfValB_uuid .BASEUUID (Or.inr (Or.inl rfl)) (.uuid bb) hwfb
  have heqb2 : bb = bb2 := by injection heqb
  subst heqb2
  have hdep : r.isDependent = true := by simp [Record.isDependent, ha]
  have hisal : r.isAlias = false := by simp [Record.isAlias, ha]
  have hissh : r.isShortcut = true := by simp [Record.isShortcut, ha]
  have hbase_raw : r.getUUIDbytes .BASEUUID = bb := by
    show (match r.getF .BASEUUID with
      | none => List.replicate 16 0
      | some v => v.raw) = bb
    rw [hbb]
    rfl
  have hta : r.setSpecialPasswords =
      r.setPassword (if r.isAlias then aliasToken bb
        else if r.isShortcut then shortcutToken bb else []) := by
    unfold Record.setSpecialPasswords
    rw [if_pos hdep, hbase_raw]
  have hss : r.setSpecialPasswords = r := by
    rw [hta, if_neg (by simp [hisal]), if_pos hissh]
    show { r with fields := updF r.fields .PASSWORD (.txt (shortcutToken bb)) } = r
    rw [updF_of_findF_eq _ _ _ hpwr]
  have hws : r.writeSlot = .SHORTCUTUUID := by
    unfold Record.writeSlot
    rw [hdep, hisal]
    rfl
  have hid : r.getUUIDbytes r.writeSlot = a := by
    rw [hws]
    show (match r.getF .SHORTCUTUUID with
      | none => List.replicate 16 0
      | some v => v.raw) = a
    rw [hva]
    rfl
  have hchunks : (writeV3 r).1 = [(fieldCode .UUID, a)] ++ writeCommonChunks r 4 := by
    show (fieldCode .UUID, r.getUUIDbytes r.writeSlot)
        :: writeCommonChunks (r.setSpecialPasswords) 4 = _
    rw [hid, hss]
    rfl
  have hok : ∀ c ∈ [(fieldCode .UUID, a)], procOK c := by
    intro c hc
    rw [List.mem_singleton] at hc
    subst hc
    exact (uuid_chunk .UUID (Or.inl rfl) a ha16).2
  have hread := readPWS_common [(fieldCode .UUID, a)] r 4 (Or.inl rfl)
    (v3Allowed r.entrytype) hwf hurfl (by simp) hok
  have hacc : [(fieldCode .UUID, a)].foldl applyChunk clearedRecord
      = clearedRecord.setF .UUID (.uuid a) := by
    show applyChunk clearedRecord (fieldCode .UUID, a) = _
    exact (uuid_chunk .UUID (Or.inl rfl) a ha16).1 clearedRecord
  rw [hacc] at hread
  obtain ⟨hg, hu2, he2⟩ := fold_common r 4 (Or.inl rfl) (v3Allowed r.entrytype) hwf
    (clearedRecord.setF .UUID (.uuid a))
  set rOut := (commonTags.flatMap (emitCommon r 4)).foldl applyChunk
    (clearedRecord.setF .UUID (.uuid a)) with hrOut
  have hP := hg .PASSWORD
  rw [if_pos ⟨by decide, by rw [hpwr]; rfl⟩, hpwr] at hP
  have hpwOut : rOut.getPassword = shortcutToken bb := by
    unfold Record.getPassword Record.getFieldStr
    rw [hP]
    rfl
  have hety : rOut.entrytype = .ET_NORMAL := by rw [he2]; rfl
  have hUUIDout : rOut.getF .UUID = some (.uuid a) := by
    rw [hg .UUID,
      if_neg (fun hc => absurd hc.1 (by decide : FieldType.UUID ∉ commonTags)),
      setF_getF_self]
  have hmid : (rOut.setUUID bb .BASEUUID).getUUIDbytes .END = a := by
    rw [getUUIDbytes_setUUID_baseuuid]
    unfold Record.getUUIDbytes
    rw [if_pos rfl, hety]
    show (match rOut.getF (slotOfKind .ET_NORMAL) with
      | none => List.replicate 16 0
      | some v => v.raw) = a
    rw [show slotOfKind .ET_NORMAL = FieldType.UUID from rfl, hUUIDout]
    rfl
  have hshape : PlaceholderShape rOut.getPassword := by
    rw [hpwOut]
    exact shortcutToken_shape bb hbb16 hbblt
  have hparse := parse_eq_of_shape rOut hshape
  have hnotal : ¬((shortcutToken bb).take 2 = [lbr, lbr]) := by
    rw [shortcutToken_take2]
    simp [lbr, tld]
  rw [hpwOut, shortcutToken_decode bb hbb16 hbblt, if_neg hnotal, hmid] at hparse
  have hpU : (((rOut.setUUID bb .BASEUUID).clearField .UUID).setUUID
      a .SHORTCUTUUID).getF .UUID = none := by
    rw [setUUID_getF_ne _ _ _ _ (by decide), clearField_getF_self]
  have hpS : (((rOut.setUUID bb .BASEUUID).clearField .UUID).setUUID
      a .SHORTCUTUUID).getF .SHORTCUTUUID = some (.uuid a) := setUUID_getF_self _ _ _
  have hpAl : (((rOut.setUUID bb .BASEUUID).clearField .UUID).setUUID
      a .SHORTCUTUUID).getF .ALIASUUID = none := by
    rw [setUUID_getF_ne _ _ _ _ (by decide), clearField_getF_ne _ _ _ (by decide),
      setUUID_getF_ne _ _ _ _ (by decide), hg .ALIASUUID,
      if_neg (fun hc => absurd hc.1 (by decide : FieldType.ALIASUUID ∉ commonTags)),
      setF_getF_ne _ _ _ _ (by decide)]
    rfl
  have hpB : (((rOut.setUUID bb .BASEUUID).clearField .UUID).setUUID
      a .SHORTCUTUUID).getF .BASEUUID = some (.uuid bb) := by
    rw [setUUID_getF_ne _ _ _ _ (by decide), clearField_getF_ne _ _ _ (by decide),
      setUUID_getF_self]
  have hinf : (((rOut.setUUID bb .BASEUUID).clearField .UUID).setUUID
        a .SHORTCUTUUID).inferKindFromSlots =
      { ((rOut.setUUID bb .BASEUUID).clearField .UUID).setUUID a .SHORTCUTUUID with
        entrytype := .ET_SHORTCUT } := by
    unfold Record.inferKindFromSlots
    rw [hpU, hpAl, hpS]
    rfl
  rw [hchunks, hread, hparse, hinf]
  refine ⟨rfl, ?_, ?_, ?_⟩
  · exact ha.symm
  · show rOut.urfl = r.urfl
    rw [hu2, hurfl]
    rfl
  · intro g
    show ((((rOut.setUUID bb .BASEUUID).clearField .UUID).setUUID
      a .SHORTCUTUUID)).getF g = r.getF g
    by_cases h1 : g = .SHORTCUTUUID
    · subst h1
      rw [hpS, hva]
    · by_cases h2 : g = .UUID
      · subst h2
        rw [hpU]
        cases hrg : r.getF .UUID with
        | none => rfl
        | some w =>
          have hga := hwf .UUID (allTags_complete _)
          rw [hrg] at hga
          obtain ⟨hmem, -⟩ := hga
          rw [ha] at hmem
          exact absurd hmem (by decide)
      · by_cases h3 : g = .BASEUUID
        · subst h3
          rw [hpB, hbb]
        · rw [setUUID_getF_ne _ _ _ _ h1, clearField_getF_ne _ _ _ h2,
            setUUID_getF_ne _ _ _ _ h3, hg g]
          by_cases hgc : g ∈ commonTags
          · by_cases hgs : (r.getF g).isSome = true
            · rw [if_pos ⟨hgc, hgs⟩]
            · rw [if_neg (fun hc => hgs hc.2),
                setF_getF_ne _ _ _ _
                  (by intro e; subst e; exact absurd hgc (by decide)),
                Option.not_isSome_iff_eq_none.1 hgs]
              rfl
          · rw [if_neg (fun hc => hgc hc.1), setF_getF_ne _ _ _ _ h2]
            cases hrg : r.getF g with
            | none => rfl
            | some w =>
              have hga := hwf g (allTags_complete g)
              rw [hrg] at hga
              obtain ⟨hmem, -⟩ := hga
              rw [ha] at hmem
              rcases List.mem_cons.1 hmem with h | h
              · exact absurd h h1
              rcases List.mem_cons.1 h with h5 | h5
              · exact absurd h5 h3
              · exact absurd h5 hgc

theorem att_fold (r : Record) (allowed : List FieldType)
    (hwf : WFfields r allowed) (acc : Record) :
    ∃ accA,
      ((if r.isFieldSet .ATTREF then
          [(fieldCode .ATTREF, r.getUUIDbytes .ATTREF)] else []).foldl
        applyChunk acc) = accA
      ∧ (∀ g : FieldType, accA.getF g =
          if g = .ATTREF ∧ (r.getF .ATTREF).isSome = true then r.getF .ATTREF
          else acc.getF g)
      ∧ accA.urfl = acc.urfl ∧ accA.entrytype = acc.entrytype
      ∧ (∀ c ∈ (if r.isFieldSet .ATTREF then
          [(fieldCode .ATTREF, r.getUUIDbytes .ATTREF)] else []), procOK c) := by
  by_cases hs : (r.getF .ATTREF).isSome = true
  · obtain ⟨v, hv⟩ := Option.isSome_iff_exists.1 hs
    have hu := hwf .ATTREF (allTags_complete _)
    rw [hv] at hu
    obtain ⟨-, hwfv⟩ := hu
    obtain ⟨att, hvb, h16, hlt⟩ :=
      wfValB_uuid .ATTREF (Or.inr (Or.inr (Or.inr (Or.inr rfl)))) v hwfv
    subst hvb
    have hfs : r.isFieldSet .ATTREF = true := hs
    have hraw : r.getUUIDbytes .ATTREF = att := by
      show (match r.getF .ATTREF with
        | none => List.replicate 16 0
        | some v => v.raw) = att
      rw [hv]
      rfl
    refine ⟨acc.setF .ATTREF (.uuid att), ?_, ?_, rfl, rfl, ?_⟩
    · rw [hfs, hraw]
      show applyChunk acc (fieldCode .ATTREF, att) = _
      exact (uuid_chunk .ATTREF (Or.inr (Or.inr (Or.inr (Or.inr rfl)))) att h16).1 acc
    · intro g
      by_cases hga : g = .ATTREF
      · subst hga
        rw [if_pos ⟨rfl, hs⟩, setF_getF_self, hv]
      · rw [if_neg (fun hc => hga hc.1), setF_getF_ne _ _ _ _ hga]
    · intro c hc
      rw [hfs, hraw, if_pos rfl] at hc
      rw [List.mem_singleton] at hc
      subst hc
      exact (uuid_chunk .ATTREF (Or.inr (Or.inr (Or.inr (Or.inr rfl)))) att h16).2
  · have hfs : r.isFieldSet .ATTREF = false := Bool.eq_false_iff.2 hs
    refine ⟨acc, ?_, ?_, rfl, rfl, ?_⟩
    · rw [hfs]
      rfl
    · intro g
      rw [if_neg (fun hc => hs hc.2)]
    · intro c hc
      rw [hfs] at hc
      exact absurd hc (List.not_mem_nil c)

theorem v4_roundtrip_normal (r : Record) (h4 : WFv4 r)
    (hn : r.entrytype = .ET_NORMAL) :
    (readPWS (writeV4 r).1).1 = .success ∧
    roundtripAgrees r (readPWS (writeV4 r).1).2 := by
  obtain ⟨hurfl, -, hwf, hslot, hpw, -⟩ := h4
  rw [hn] at hslot
  have hslot2 : (r.getF .UUID).isSome = true := hslot
  obtain ⟨v, hv⟩ := Option.isSome_iff_exists.1 hslot2
  have hu := hwf .UUID (allTags_complete _)
  rw [hv] at hu
  obtain ⟨-, hwfv⟩ := hu
  obtain ⟨b, hvb, hb16, hblt⟩ := wfValB_uuid .UUID (Or.inl rfl) v hwfv
  subst hvb
  have hdep : r.isDependent = false := by simp [Record.isDependent, hn]
  have hws : r.writeSlot = .UUID := by
    unfold Record.writeSlot
    rw [hdep]
    rfl
  have hid : r.getUUIDbytes r.writeSlot = b := by
    rw [hws]
    show (match r.getF .UUID with
      | none => List.replicate 16 0
      | some v => v.raw) = b
    rw [hv]
    rfl
  have hchunks : (writeV4 r).1 =
      ((fieldCode .UUID, b) :: (if r.isFieldSet .ATTREF then
        [(fieldCode .ATTREF, r.getUUIDbytes .ATTREF)] else []))
      ++ writeCommonChunks r 5 := by
    show (fieldCode r.writeSlot, r.getUUIDbytes r.writeSlot)
      :: ((if r.isDependent then
            [(fieldCode .BASEUUID, r.getUUIDbytes .BASEUUID)] else [])
        ++ (if r.isFieldSet .ATTREF then
            [(fieldCode .ATTREF, r.getUUIDbytes .ATTREF)] else [])
        ++ writeCommonChunks r 5) = _
    rw [hid, hws, hdep]
    rfl
  obtain ⟨accA, hfold, haccg, haccu, hacce, hattok⟩ :=
    att_fold r (v4Allowed r.entrytype) hwf (clearedRecord.setF .UUID (.uuid b))
  have hfold2 : ((fieldCode .UUID, b) :: (if r.isFieldSet .ATTREF then
      [(fieldCode .ATTREF, r.getUUIDbytes .ATTREF)] else [])).foldl
        applyChunk clearedRecord = accA := by
    rw [List.foldl_cons, (uuid_chunk .UUID (Or.inl rfl) b hb16).1 clearedRecord, hfold]
  have hok : ∀ c ∈ (fieldCode .UUID, b) :: (if r.isFieldSet .ATTREF then
      [(fieldCode .ATTREF, r.getUUIDbytes .ATTREF)] else []), procOK c := by
    intro c hc
    rcases List.mem_cons.1 hc with h | h
    · subst h
      exact (uuid_chunk .UUID (Or.inl rfl) b hb16).2
    · exact hattok c h
  have hlen : ((fieldCode .UUID, b) :: (if r.isFieldSet .ATTREF then
      [(fieldCode .ATTREF, r.getUUIDbytes .ATTREF)] else [])).length ≤ 16 := by
    by_cases hb2 : r.isFieldSet .ATTREF = true <;> simp [hb2]
  have hread := readPWS_common ((fieldCode .UUID, b) :: (if r.isFieldSet .ATTREF then
      [(fieldCode .ATTREF, r.getUUIDbytes .ATTREF)] else [])) r 5 (Or.inr rfl)
    (v4Allowed r.entrytype) hwf hurfl hlen hok
  rw [hfold2] at hread
  obtain ⟨hg, hu2, he2⟩ := fold_common r 5 (Or.inr rfl) (v4Allowed r.entrytype) hwf accA
  set rOut := (commonTags.flatMap (emitCommon r 5)).foldl applyChunk accA with hrOut
  have hpwn : ¬PlaceholderShape rOut.getPassword := by
    have hP := hg .PASSWORD
    by_cases hps : (r.getF .PASSWORD).isSome = true
    · obtain ⟨vp, hvp⟩ := Option.isSome_iff_exists.1 hps
      have hup := hwf .PASSWORD (allTags_complete _)
      rw [hvp] at hup
      obtain ⟨-, hwfp⟩ := hup
      obtain ⟨s, hsp⟩ := wfValB_txt .PASSWORD (by decide) vp hwfp
      subst hsp
      rw [if_pos ⟨by decide, hps⟩, hvp] at hP
      have hgp : rOut.getPassword = s := by
        unfold Record.getPassword Record.getFieldStr
        rw [hP]
        rfl
      rw [hgp]
      have hpw2 := hpw
      rw [hvp] at hpw2
      exact hpw2
    · rw [if_neg (fun hc => hps hc.2), haccg .PASSWORD,
        if_neg (fun hc => absurd hc.1 (by decide)),
        setF_getF_ne _ _ _ _ (by decide)] at hP
      have hgp : rOut.getPassword = [] := by
        unfold Record.getPassword Record.getFieldStr
        rw [hP]
        rfl
      rw [hgp]
      decide
  have hparse : rOut.parseSpecialPasswords = rOut := parse_noop rOut hpwn
  have hUUIDout : rOut.getF .UUID = some (.uuid b) := by
    rw [hg .UUID,
      if_neg (fun hc => absurd hc.1 (by decide : FieldType.UUID ∉ commonTags)),
      haccg .UUID, if_neg (fun hc => absurd hc.1 (by decide)), setF_getF_self]
  have hisu : (rOut.getF .UUID).isSome = true := by rw [hUUIDout]; rfl
  have hinf : rOut.inferKindFromSlots = { rOut with entrytype := .ET_NORMAL } := by
    unfold Record.inferKindFromSlots
    rw [if_pos hisu]
  rw [hchunks, hread, hparse, hinf]
  refine ⟨rfl, hn.symm, ?_, ?_⟩
  · show rOut.urfl = r.urfl
    rw [hu2, haccu, hurfl]
    rfl
  · intro g
    show rOut.getF g = r.getF g
    rw [hg g]
    by_cases hgc : g ∈ commonTags
    · by_cases hgs : (r.getF g).isSome = true
      · rw [if_pos ⟨hgc, hgs⟩]
      · rw [if_neg (fun hc => hgs hc.2), haccg g,
          if_neg (by intro hc; rw [hc.1] at hgc; exact absurd hgc (by decide)),
          setF_getF_ne _ _ _ _
            (by intro e; subst e; exact absurd hgc (by decide)),
          Option.not_isSome_iff_eq_none.1 hgs]
        rfl
    · rw [if_neg (fun hc => hgc hc.1), haccg g]
      by_cases hgat : g = .ATTREF
      · subst hgat
        by_cases hats : (r.getF .ATTREF).isSome = true
        · rw [if_pos ⟨rfl, hats⟩]
        · rw [if_neg (fun hc => hats hc.2),
            setF_getF_ne _ _ _ _ (by decide),
            Option.not_isSome_iff_eq_none.1 hats]
          rfl
      · rw [if_neg (fun hc => hgat hc.1)]
        by_cases hgu : g = .UUID
        · subst hgu
          rw [setF_getF_self, hv]
        · rw [setF_getF_ne _ _ _ _ hgu]
          cases hrg : r.getF g with
          | none => rfl
          | some w =>
            have hga := hwf g (allTags_complete g)
            rw [hrg] at hga
            obtain ⟨hmem, -⟩ := hga
            rw [hn] at hmem
            rcases List.mem_cons.1 hmem with h | h
            · exact absurd h hgat
            rcases List.mem_cons.1 h with h5 | h5
            · exact absurd h5 hgu
            · exact absurd h5 hgc

theorem v4_roundtrip_alias (r : Record) (h4 : WFv4 r)
    (ha : r.entrytype = .ET_ALIAS) :
    (readPWS (writeV4 r).1).1 = .success ∧
    roundtripAgrees r (readPWS (writeV4 r).1).2 := by
  obtain ⟨hurfl, -, hwf, hslot, hpw, hdepB⟩ := h4
  rw [ha] at hslot
  have hslot2 : (r.getF .ALIASUUID).isSome = true := hslot
  obtain ⟨va, hva⟩ := Option.isSome_iff_exists.1 hslot2
  have hu := hwf .ALIASUUID (allTags_complete _)
  rw [hva] at hu
  obtain ⟨-, hwfv⟩ := hu
  obtain ⟨a, hvb, ha16, halt⟩ :=
    wfValB_uuid .ALIASUUID (Or.inr (Or.inr (Or.inl rfl))) va hwfv
  subst hvb
  have hdep : r.isDependent = true := by simp [Record.isDependent, ha]
  have hisal : r.isAlias = true := by simp [Record.isAlias, ha]
  have hBB : ∃ bb, r.getF .BASEUUID = some (.uuid bb) := by
    have h := hdepB hdep
    cases hbb0 : r.getF .BASEUUID with
    | none => rw [hbb0] at h; exact h.elim
    | some w =>
      rw [hbb0] at h
      cases w with
      | uuid bb => exact ⟨bb, rfl⟩
      | txt s => exact h.elim
      | tm t => exact h.elim
      | i32 n => exact h.elim
      | i16 n => exact h.elim
      | byte x => exact h.elim
      | bin s => exact h.elim
  obtain ⟨bb, hbb⟩ := hBB
  have hub := hwf .BASEUUID (allTags_complete _)
  rw [hbb] at hub
  obtain ⟨-, hwfb⟩ := hub
  obtain ⟨bb2, heqb, hbb16, hbblt⟩ :=
    wfValB_uuid .BASEUUID (Or.inr (Or.inl rfl)) (.uuid bb) hwfb
  have heqb2 : bb = bb2 := by injection heqb
  subst heqb2
  have hbase_raw : r.getUUIDbytes .BASEUUID = bb := by
    show (match r.getF .BASEUUID with
      | none => List.replicate 16 0
      | some v => v.raw) = bb
    rw [hbb]
    rfl
  have hws : r.writeSlot = .ALIASUUID := by
    unfold Record.writeSlot
    rw [hdep, hisal]
    rfl
  have hid : r.getUUIDbytes r.writeSlot = a := by
    rw [hws]
    show (match r.getF .ALIASUUID with
      | none => List.replicate 16 0
      | some v => v.raw) = a
    rw [hva]
    rfl
  have hchunks : (writeV4 r).1 =
      ((fieldCode .ALIASUUID, a) :: (fieldCode .BASEUUID, bb)
        :: (if r.isFieldSet .ATTREF then
          [(fieldCode .ATTREF, r.getUUIDbytes .ATTREF)] else []))
      ++ writeCommonChunks r 5 := by
    show (fieldCode r.writeSlot, r.getUUIDbytes r.writeSlot)
      :: ((if r.isDependent then
            [(fieldCode .BASEUUID, r.getUUIDbytes .BASEUUID)] else [])
        ++ (if r.isFieldSet .ATTREF then
            [(fieldCode .ATTREF, r.getUUIDbytes .ATTREF)] else [])
        ++ writeCommonChunks r 5) = _
    rw [hid, hws, hdep, hbase_raw]
    rfl
  obtain ⟨accA, hfold, haccg, haccu, hacce, hattok⟩ :=
    att_fold r (v4Allowed r.entrytype) hwf
      ((clearedRecord.setF .ALIASUUID (.uuid a)).setF .BASEUUID (.uuid bb))
  have hfold2 : ((fieldCode .ALIASUUID, a) :: (fieldCode .BASEUUID, bb)
      :: (if r.isFieldSet .ATTREF then
        [(fieldCode .ATTREF, r.getUUIDbytes .ATTREF)] else [])).foldl
        applyChunk clearedRecord = accA := by
    rw [List.foldl_cons,
      (uuid_chunk .ALIASUUID (Or.inr (Or.inr (Or.inl rfl))) a ha16).1 clearedRecord,
      List.foldl_cons,
      (uuid_chunk .BASEUUID (Or.inr (Or.inl rfl)) bb hbb16).1 _, hfold]
  have hok : ∀ c ∈ (fieldCode .ALIASUUID, a) :: (fieldCode .BASEUUID, bb)
      :: (if r.isFieldSet .ATTREF then
        [(fieldCode .ATTREF, r.getUUIDbytes .ATTREF)] else []), procOK c := by
    intro c hc
    rcases List.mem_cons.1 hc with h | h
    · subst h
      exact (uuid_chunk .ALIASUUID (Or.inr (Or.inr (Or.inl rfl))) a ha16).2
    rcases List.mem_cons.1 h with h5 | h5
    · subst h5
      exact (uuid_chunk .BASEUUID (Or.inr (Or.inl rfl)) bb hbb16).2
    · exact hattok c h5
  have hlen : ((fieldCode .ALIASUUID, a) :: (fieldCode .BASEUUID, bb)
      :: (if r.isFieldSet .ATTREF then
        [(fieldCode .ATTREF, r.getUUIDbytes .ATTREF)] else [])).length ≤ 16 := by
    by_cases hb2 : r.isFieldSet .ATTREF = true <;> simp [hb2]
  have hread := readPWS_common ((fieldCode .ALIASUUID, a) :: (fieldCode .BASEUUID, bb)
      :: (if r.isFieldSet .ATTREF then
        [(fieldCode .ATTREF, r.getUUIDbytes .ATTREF)] else [])) r 5 (Or.inr rfl)
    (v4Allowed r.entrytype) hwf hurfl hlen hok
  rw [hfold2] at hread
  obtain ⟨hg, hu2, he2⟩ := fold_common r 5 (Or.inr rfl) (v4Allowed r.entrytype) hwf accA
  set rOut := (commonTags.flatMap (emitCommon r 5)).foldl applyChunk accA with hrOut
  have hpwn : ¬PlaceholderShape rOut.getPassword := by
    have hP := hg .PASSWORD
    by_cases hps : (r.getF .PASSWORD).isSome = true
    · obtain ⟨vp, hvp⟩ := Option.isSome_iff_exists.1 hps
      have hup := hwf .PASSWORD (allTags_complete _)
      rw [hvp] at hup
      obtain ⟨-, hwfp⟩ := hup
      obtain ⟨s, hsp⟩ := wfValB_txt .PASSWORD (by decide) vp hwfp
      subst hsp
      rw [if_pos ⟨by decide, hps⟩, hvp] at hP
      have hgp : rOut.getPassword = s := by
        unfold Record.getPassword Record.getFieldStr
        rw [hP]
        rfl
      rw [hgp]
      have hpw2 := hpw
      rw [hvp] at hpw2
      exact hpw2
    · rw [if_neg (fun hc => hps hc.2), haccg .PASSWORD,
        if_neg (fun hc => absurd hc.1 (by decide)),
        setF_getF_ne _ _ _ _ (by decide),
        setF_getF_ne _ _ _ _ (by decide)] at hP
      have hgp : rOut.getPassword = [] := by
        unfold Record.getPassword Record.getFieldStr
        rw [hP]
        rfl
      rw [hgp]
      decide
  have hparse : rOut.parseSpecialPasswords = rOut := parse_noop rOut hpwn
  have hUUIDout : rOut.getF .UUID = none := by
    rw [hg .UUID,
      if_neg (fun hc => absurd hc.1 (by decide : FieldType.UUID ∉ commonTags)),
      haccg .UUID, if_neg (fun hc => absurd hc.1 (by decide)),
      setF_getF_ne _ _ _ _ (by decide), setF_getF_ne _ _ _ _ (by decide)]
    rfl
  have hALout : rOut.getF .ALIASUUID = some (.uuid a) := by
    rw [hg .ALIASUUID,
      if_neg (fun hc => absurd hc.1 (by decide : FieldType.ALIASUUID ∉ commonTags)),
      haccg .ALIASUUID, if_neg (fun hc => absurd hc.1 (by decide)),
      setF_getF_ne _ _ _ _ (by decide), setF_getF_self]
  have hinf : rOut.inferKindFromSlots = { rOut with entrytype := .ET_ALIAS } := by
    unfold Record.inferKindFromSlots
    rw [hUUIDout, hALout]
    rfl
  rw [hchunks, hread, hparse, hinf]
  refine ⟨rfl, ha.symm, ?_, ?_⟩
  · show rOut.urfl = r.urfl
    rw [hu2, haccu, hurfl]
    rfl
  · intro g
    show rOut.getF g = r.getF g
    rw [hg g]
    by_cases hgc : g ∈ commonTags
    · by_cases hgs : (r.getF g).isSome = true
      · rw [if_pos ⟨hgc, hgs⟩]
      · rw [if_neg (fun hc => hgs hc.2), haccg g,
          if_neg (by intro hc; rw [hc.1] at hgc; exact absurd hgc (by decide)),
          setF_getF_ne _ _ _ _
            (by intro e; subst e; exact absurd hgc (by decide)),
          setF_getF_ne _ _ _ _
            (by intro e; subst e; exact absurd hgc (by decide)),
          Option.not_isSome_iff_eq_none.1 hgs]
        rfl
    · rw [if_neg (fun hc => hgc hc.1), haccg g]
      by_cases hgat : g = .ATTREF
      · subst hgat
        by_cases hats : (r.getF .ATTREF).isSome = true
        · rw [if_pos ⟨rfl, hats⟩]
        · rw [if_neg (fun hc => hats hc.2),
            setF_getF_ne _ _ _ _ (by decide),
            setF_getF_ne _ _ _ _ (by decide),
            Option.not_isSome_iff_eq_none.1 hats]
          rfl
      · rw [if_neg (fun hc => hgat hc.1)]
        by_cases hgb : g = .BASEUUID
        · subst hgb
          rw [setF_getF_self, hbb]
        · rw [setF_getF_ne _ _ _ _ hgb]
          by_cases hgal : g = .ALIASUUID
          · subst hgal
            rw [setF_getF_self, hva]
          · rw [setF_getF_ne _ _ _ _ hgal]
            cases hrg : r.getF g with
            | none => rfl
            | some w =>
              have hga := hwf g (allTags_complete g)
              rw [hrg] at hga
              obtain ⟨hmem, -⟩ := hga
              rw [ha] at hmem
              rcases List.mem_cons.1 hmem with h | h
              · exact absurd h hgat
              rcases List.mem_cons.1 h with h5 | h5
              · exact absurd h5 hgal
              rcases List.mem_cons.1 h5 with h6 | h6
              · exact absurd h6 hgb
              · exact absurd h6 hgc

theorem v4_roundtrip_shortcut (r : Record) (h4 : WFv4 r)
    (ha : r.entrytype = .ET_SHORTCUT) :
    (readPWS (writeV4 r).1).1 = .success ∧
    roundtripAgrees r (readPWS (writeV4 r).1).2 := by
  obtain ⟨hurfl, -, hwf, hslot, hpw, hdepB⟩ := h4
  rw [ha] at hslot
  have hslot2 : (r.getF .SHORTCUTUUID).isSome = true := hslot
  obtain ⟨va, hva⟩ := Option.isSome_iff_exists.1 hslot2
  have hu := hwf .SHORTCUTUUID (allTags_complete _)
  rw [hva] at hu
  obtain ⟨-, hwfv⟩ := hu
  obtain ⟨a, hvb, ha16, halt⟩ :=
    wfValB_uuid .SHORTCUTUUID (Or.inr (Or.inr (Or.inr (Or.inl rfl)))) va hwfv
  subst hvb
  have hdep : r.isDependent = true := by simp [Record.isDependent, ha]
  have hisal : r.isAlias = false := by simp [Record.isAlias, ha]
  have hBB : ∃ bb, r.getF .BASEUUID = some (.uuid bb) := by
    have h := hdepB hdep
    cases hbb0 : r.getF .BASEUUID with
    | none => rw [hbb0] at h; exact h.elim
    | some w =>
      rw [hbb0] at h
      cases w with
      | uuid bb => exact ⟨bb, rfl⟩
      | txt s => exact h.elim
      | tm t => exact h.elim
      | i32 n => exact h.elim
      | i16 n => exact h.elim
      | byte x => exact h.elim
      | bin s => exact h.elim
  obtain ⟨bb, hbb⟩ := hBB
  have hub := hwf .BASEUUID (allTags_complete _)
  rw [hbb] at hub
  obtain ⟨-, hwfb⟩ := hub
  obtain ⟨bb2, heqb, hbb16, hbblt⟩ :=
    wfValB_uuid .BASEUUID (Or.inr (Or.inl rfl)) (.uuid bb) hwfb
  have heqb2 : bb = bb2 := by injection heqb
  subst heqb2
  have hbase_raw : r.getUUIDbytes .BASEUUID = bb := by
    show (match r.getF .BASEUUID with
      | none => List.replicate 16 0
      | some v => v.raw) = bb
    rw [hbb]
    rfl
  have hws : r.writeSlot = .SHORTCUTUUID := by
    unfold Record.writeSlot
    rw [hdep, hisal]
    rfl
  have hid : r.getUUIDbytes r.writeSlot = a := by
    rw [hws]
    show (match r.getF .SHORTCUTUUID with
      | none => List.replicate 16 0
      | some v => v.raw) = a
    rw [hva]
    rfl
  have hchunks : (writeV4 r).1 =
      ((fieldCode .SHORTCUTUUID, a) :: (fieldCode .BASEUUID, bb)
        :: (if r.isFieldSet .ATTREF then
          [(fieldCode .ATTREF, r.getUUIDbytes .ATTREF)] else []))
      ++ writeCommonChunks r 5 := by
    show (fieldCode r.writeSlot, r.getUUIDbytes r.writeSlot)
      :: ((if r.isDependent then
            [(fieldCode .BASEUUID, r.getUUIDbytes .BASEUUID)] else [])
        ++ (if r.isFieldSet .ATTREF then
            [(fieldCode .ATTREF, r.getUUIDbytes .ATTREF)] else [])
        ++ writeCommonChunks r 5) = _
    rw [hid, hws, hdep, hbase_raw]
    rfl
  obtain ⟨accA, hfold, haccg, haccu, hacce, hattok⟩ :=
    att_fold r (v4Allowed r.entrytype) hwf
      ((clearedRecord.setF .SHORTCUTUUID (.uuid a)).setF .BASEUUID (.uuid bb))
  have hfold2 : ((fieldCode .SHORTCUTUUID, a) :: (fieldCode .BASEUUID, bb)
      :: (if r.isFieldSet .ATTREF then
        [(fieldCode .ATTREF, r.getUUIDbytes .ATTREF)] else [])).foldl
        applyChunk clearedRecord = accA := by
    rw [List.foldl_cons,
      (uuid_chunk .SHORTCUTUUID (Or.inr (Or.inr (Or.inr (Or.inl rfl)))) a ha16).1
        clearedRecord,
      List.foldl_cons,
      (uuid_chunk .BASEUUID (Or.inr (Or.inl rfl)) bb hbb16).1 _, hfold]
  have hok : ∀ c ∈ (fieldCode .SHORTCUTUUID, a) :: (fieldCode .BASEUUID, bb)
      :: (if r.isFieldSet .ATTREF then
        [(fieldCode .ATTREF, r.getUUIDbytes .ATTREF)] else []), procOK c := by
    intro c hc
    rcases List.mem_cons.1 hc with h | h
    · subst h
      exact (uuid_chunk .SHORTCUTUUID (Or.inr (Or.inr (Or.inr (Or.inl rfl)))) a ha16).2
    rcases List.mem_cons.1 h with h5 | h5
    · subst h5
      exact (uuid_chunk .BASEUUID (Or.inr (Or.inl rfl)) bb hbb16).2
    · exact hattok c h5
  have hlen : ((fieldCode .SHORTCUTUUID, a) :: (fieldCode .BASEUUID, bb)
      :: (if r.isFieldSet .ATTREF then
        [(fieldCode .ATTREF, r.getUUIDbytes .ATTREF)] else [])).length ≤ 16 := by
    by_cases hb2 : r.isFieldSet .ATTREF = true <;> simp [hb2]
  have hread := readPWS_common ((fieldCode .SHORTCUTUUID, a) :: (fieldCode .BASEUUID, bb)
      :: (if r.isFieldSet .ATTREF then
        [(fieldCode .ATTREF, r.getUUIDbytes .ATTREF)] else [])) r 5 (Or.inr rfl)
    (v4Allowed r.entrytype) hwf hurfl hlen hok
  rw [hfold2] at hread
  obtain ⟨hg, hu2, he2⟩ := fold_common r 5 (Or.inr rfl) (v4Allowed r.entrytype) hwf accA
  set rOut := (commonTags.flatMap (emitCommon r 5)).foldl applyChunk accA with hrOut
  have hpwn : ¬PlaceholderShape rOut.getPassword := by
    have hP := hg .PASSWORD
    by_cases hps : (r.getF .PASSWORD).isSome = true
    · obtain ⟨vp, hvp⟩ := Option.isSome_iff_exists.1 hps
      have hup := hwf .PASSWORD (allTags_complete _)
      rw [hvp] at hup
      obtain ⟨-, hwfp⟩ := hup
      obtain ⟨s, hsp⟩ := wfValB_txt .PASSWORD (by decide) vp hwfp
      subst hsp
      rw [if_pos ⟨by decide, hps⟩, hvp] at hP
      have hgp : rOut.getPassword = s := by
        unfold Record.getPassword Record.getFieldStr
        rw [hP]
        rfl
      rw [hgp]
      have hpw2 := hpw
      rw [hvp] at hpw2
      exact hpw2
    · rw [if_neg (fun hc => hps hc.2), haccg .PASSWORD,
        if_neg (fun hc => absurd hc.1 (by decide)),
        setF_getF_ne _ _ _ _ (by decide),
        setF_getF_ne _ _ _ _ (by decide)] at hP
      have hgp : rOut.getPassword = [] := by
        unfold Record.getPassword Record.getFieldStr
        rw [hP]
        rfl
      rw [hgp]
      decide
  have hparse : rOut.parseSpecialPasswords = rOut := parse_noop rOut hpwn
  have hUUIDout : rOut.getF .UUID = none := by
    rw [hg .UUID,
      if_neg (fun hc => absurd hc.1 (by decide : FieldType.UUID ∉ commonTags)),
      haccg .UUID, if_neg (fun hc => absurd hc.1 (by decide)),
      setF_getF_ne _ _ _ _ (by decide), setF_getF_ne _ _ _ _ (by decide)]
    rfl
  have hALout : rOut.getF .ALIASUUID = none := by
    rw [hg .ALIASUUID,
      if_neg (fun hc => absurd hc.1 (by decide : FieldType.ALIASUUID ∉ commonTags)),
      haccg .ALIASUUID, if_neg (fun hc => absurd hc.1 (by decide)),
      setF_getF_ne _ _ _ _ (by decide), setF_getF_ne _ _ _ _ (by decide)]
    rfl
  have hSHout : rOut.getF .SHORTCUTUUID = some (.uuid a) := by
    rw [hg .SHORTCUTUUID,
      if_neg (fun hc => absurd hc.1
        (by decide : FieldType.SHORTCUTUUID ∉ commonTags)),
      haccg .SHORTCUTUUID, if_neg (fun hc => absurd hc.1 (by decide)),
      setF_getF_ne _ _ _ _ (by decide), setF_getF_self]
  have hinf : rOut.inferKindFromSlots = { rOut with entrytype := .ET_SHORTCUT } := by
    unfold Record.inferKindFromSlots
    rw [hUUIDout, hALout, hSHout]
    rfl
  rw [hchunks, hread, hparse, hinf]
  refine ⟨rfl, ha.symm, ?_, ?_⟩
  · show rOut.urfl = r.urfl
    rw [hu2, haccu, hurfl]
    rfl
  · intro g
    show rOut.getF g = r.getF g
    rw [hg g]
    by_cases hgc : g ∈ commonTags
    · by_cases hgs : (r.getF g).isSome = true
      · rw [if_pos ⟨hgc, hgs⟩]
      · rw [if_neg (fun hc => hgs hc.2), haccg g,
          if_neg (by intro hc; rw [hc.1] at hgc; exact absurd hgc (by decide)),
          setF_getF_ne _ _ _ _
            (by intro e; subst e; exact absurd hgc (by decide)),
          setF_getF_ne _ _ _ _
            (by intro e; subst e; exact absurd hgc (by decide)),
          Option.not_isSome_iff_eq_none.1 hgs]
        rfl
    · rw [if_neg (fun hc => hgc hc.1), haccg g]
      by_cases hgat : g = .ATTREF
      · subst hgat
        by_cases hats : (r.getF .ATTREF).isSome = true
        · rw [if_pos ⟨rfl, hats⟩]
        · rw [if_neg (fun hc => hats hc.2),
            setF_getF_ne _ _ _ _ (by decide),
            setF_getF_ne _ _ _ _ (by decide),
            Option.not_isSome_iff_eq_none.1 hats]
          rfl
      · rw [if_neg (fun hc => hgat hc.1)]
        by_cases hgb : g = .BASEUUID
        · subst hgb
          rw [setF_getF_self, hbb]
        · rw [setF_getF_ne _ _ _ _ hgb]
          by_cases hgsh : g = .SHORTCUTUUID
          · subst hgsh
            rw [setF_getF_self, hva]
          · rw [setF_getF_ne _ _ _ _ hgsh]
            cases hrg : r.getF g with
            | none => rfl
            | some w =>
              have hga := hwf g (allTags_complete g)
              rw [hrg] at hga
              obtain ⟨hmem, -⟩ := hga
              rw [ha] at hmem
              rcases List.mem_cons.1 hmem with h | h
              · exact absurd h hgat
              rcases List.mem_cons.1 h with h5 | h5
              · exact absurd h5 hgsh
              rcases List.mem_cons.1 h5 with h6 | h6
              · exact absurd h6 hgb
              · exact absurd h6 hgc

/-- **C1 (amended).** Write/Read round-trip, for both format generations
independently: for every record with no unknown fields, a persistable kind,
all populated fields inside the format's allowed tag set for its kind with
values the write-side guards admit, a populated kind-selected id slot, and a
password compatible with the legacy placeholder pass, `Write` followed by
`Read` returns success and reproduces the record exactly - same kind, same
value under every field tag (including the password-history string), and
same unknown-field list. The unguarded claim (any record with only
recognized tags) fails: see the counterexample. -/
theorem c1_write_read_roundtrip (r : Record) :
    (WFv3 r → (readPWS (writeV3 r).1).1 = .success ∧
      roundtripAgrees r (readPWS (writeV3 r).1).2) ∧
    (WFv4 r → (readPWS (writeV4 r).1).1 = .success ∧
      roundtripAgrees r (readPWS (writeV4 r).1).2) := by
  constructor
  · intro h3
    rcases h3.2.1 with hn | hn | hn
    · exact v3_roundtrip_normal r h3 hn
    · exact v3_roundtrip_alias r h3 hn
    · exact v3_roundtrip_shortcut r h3 hn
  · intro h4
    rcases h4.2.1 with hn | hn | hn
    · exact v4_roundtrip_normal r h4 hn
    · exact v4_roundtrip_alias r h4 hn
    · exact v4_roundtrip_shortcut r h4 hn

/-- **C1 counterexample.** A record whose only tags are the recognized
`UUID` and `XTIME_INT` fields, with `XTIME_INT = 3651`: the write-side
guard (`0 < xint ≤ 3650`) drops the field in both generations, so
Write-then-Read loses it and the claimed exact reproduction fails. -/
theorem c1_out_of_range_field_dropped :
    ((readPWS (writeV3 ⟨[(.UUID, .uuid (List.replicate 16 1)),
        (.XTIME_INT, .i32 3651)], [], .ET_NORMAL, .ES_CLEAN⟩).1).2.getF .XTIME_INT
      = none)
    ∧ ((readPWS (writeV4 ⟨[(.UUID, .uuid (List.replicate 16 1)),
        (.XTIME_INT, .i32 3651)], [], .ET_NORMAL, .ES_CLEAN⟩).1).2.getF .XTIME_INT
      = none)
    ∧ ((⟨[(.UUID, .uuid (List.replicate 16 1)), (.XTIME_INT, .i32 3651)],
        [], .ET_NORMAL, .ES_CLEAN⟩ : Record).getF .XTIME_INT
      = some (.i32 3651)) := by
  decide

/-- **C1 witness.** A concrete normal record (id, title, password, and a
negative nonzero keyboard shortcut) satisfying both precondition sets; the
round-trip succeeds and restores the title and the signed shortcut value in
both generations. -/
theorem c1_write_read_roundtrip_witness :
    WFv3 (⟨[(.UUID, .uuid (List.replicate 16 2)), (.TITLE, .txt [66]),
        (.PASSWORD, .txt [120, 121]), (.KBSHORTCUT, .i32 (-5))],
        [], .ET_NORMAL, .ES_CLEAN⟩ : Record)
    ∧ WFv4 (⟨[(.UUID, .uuid (List.replicate 16 2)), (.TITLE, .txt [66]),
        (.PASSWORD, .txt [120, 121]), (.KBSHORTCUT, .i32 (-5))],
        [], .ET_NORMAL, .ES_CLEAN⟩ : Record)
    ∧ (readPWS (writeV3 ⟨[(.UUID, .uuid (List.replicate 16 2)),
        (.TITLE, .txt [66]), (.PASSWORD, .txt [120, 121]),
        (.KBSHORTCUT, .i32 (-5))], [], .ET_NORMAL, .ES_CLEAN⟩).1).1 = .success
    ∧ (readPWS (writeV3 ⟨[(.UUID, .uuid (List.replicate 16 2)),
        (.TITLE, .txt [66]), (.PASSWORD, .txt [120, 121]),
        (.KBSHORTCUT, .i32 (-5))], [], .ET_NORMAL, .ES_CLEAN⟩).1).2.getF .TITLE
      = some (.txt [66])
    ∧ (readPWS (writeV3 ⟨[(.UUID, .uuid (List.replicate 16 2)),
        (.TITLE, .txt [66]), (.PASSWORD, .txt [120, 121]),
        (.KBSHORTCUT, .i32 (-5))], [], .ET_NORMAL,
        .ES_CLEAN⟩).1).2.getF .KBSHORTCUT = some (.i32 (-5))
    ∧ (readPWS (writeV4 ⟨[(.UUID, .uuid (List.replicate 16 2)),
        (.TITLE, .txt [66]), (.PASSWORD, .txt [120, 121]),
        (.KBSHORTCUT, .i32 (-5))], [], .ET_NORMAL, .ES_CLEAN⟩).1).1 = .success
    ∧ (readPWS (writeV4 ⟨[(.UUID, .uuid (List.replicate 16 2)),
        (.TITLE, .txt [66]), (.PASSWORD, .txt [120, 121]),
        (.KBSHORTCUT, .i32 (-5))], [], .ET_NORMAL,
        .ES_CLEAN⟩).1).2.getF .KBSHORTCUT = some (.i32 (-5)) := by
  have h3 : WFv3 (⟨[(.UUID, .uuid (List.replicate 16 2)), (.TITLE, .txt [66]),
      (.PASSWORD, .txt [120, 121]), (.KBSHORTCUT, .i32 (-5))],
      [], .ET_NORMAL, .ES_CLEAN⟩ : Record) := by
    refine ⟨rfl, Or.inl rfl, ?_, rfl, ?_, ?_, ?_⟩
    · intro ft hft
      fin_cases hft <;> first | trivial | exact ⟨by decide, by decide⟩
    · intro _
      show ¬PlaceholderShape ([120, 121] : Bytes)
      decide
    · intro h
      exact absurd h (by decide)
    · intro h
      exact absurd h (by decide)
  have h4 : WFv4 (⟨[(.UUID, .uuid (List.replicate 16 2)), (.TITLE, .txt [66]),
      (.PASSWORD, .txt [120, 121]), (.KBSHORTCUT, .i32 (-5))],
      [], .ET_NORMAL, .ES_CLEAN⟩ : Record) := by
    refine ⟨rfl, Or.inl rfl, ?_, rfl, ?_, ?_⟩
    · intro ft hft
      fin_cases hft <;> first | trivial | exact ⟨by decide, by decide⟩
    · show ¬PlaceholderShape ([120, 121] : Bytes)
      decide
    · intro h
      exact absurd h (by decide)
  have hv3 := (c1_write_read_roundtrip _).1 h3
  have hv4 := (c1_write_read_roundtrip _).2 h4
  exact ⟨h3, h4, hv3.1, (hv3.2.2.2 .TITLE).trans (by decide),
    (hv3.2.2.2 .KBSHORTCUT).trans (by decide), hv4.1,
    (hv4.2.2.2 .KBSHORTCUT).trans (by decide)⟩

end Pwsafe
